import Mathlib

/-!
# Radeep network layer: header codec, fragmentation, reassembly, static routing, address registry

A shallow embedding of the Radeep (IPv4-like) network layer of the simulator.
Machine integers are natural numbers reduced modulo `2^w` at the places where the
C++ code truncates them.  Code that can abort, assert or loop returns `Except Fault`.
-/

namespace Radeep

/-- Ways in which an embedded routine can fail to return a value. -/
inductive Fault where
  | abort      -- NS_ABORT_MSG_IF / NS_ABORT_MSG_UNLESS fired
  | assertion  -- NS_ASSERT / NS_ASSERT_MSG fired
  | fatal      -- NS_FATAL_ERROR fired
  | outOfFuel  -- the loop did not finish within the given number of iterations
  deriving DecidableEq, Repr

/-! ## Buffer iterator (ns3::Buffer::Iterator, an external collaborator)

The buffer region that starts at the iterator `start` handed to `Serialize` /
`Deserialize` is a list of bytes; `cur` is the cursor relative to `start`. -/

/-- Iterator over a byte buffer: the bytes and the cursor. -/
structure Iterator where
  buf : List Nat
  cur : Nat
  deriving DecidableEq, Repr

/-- Write one byte (the argument is a `uint8_t`) and advance. -/
def Iterator.WriteU8 (i : Iterator) (data : Nat) : Iterator :=
  { buf := i.buf.set i.cur (data % 256), cur := i.cur + 1 }

/-- Write a 16-bit value in network byte order. -/
def Iterator.WriteHtonU16 (i : Iterator) (data : Nat) : Iterator :=
  let d := data % 65536
  (i.WriteU8 ((d >>> 8) &&& 0xff)).WriteU8 ((d >>> 0) &&& 0xff)

/-- Write a 32-bit value in network byte order. -/
def Iterator.WriteHtonU32 (i : Iterator) (data : Nat) : Iterator :=
  let d := data % 4294967296
  (((i.WriteU8 ((d >>> 24) &&& 0xff)).WriteU8 ((d >>> 16) &&& 0xff)).WriteU8
    ((d >>> 8) &&& 0xff)).WriteU8 ((d >>> 0) &&& 0xff)

/-- Write a 16-bit value in host (little-endian) byte order. -/
def Iterator.WriteU16 (i : Iterator) (data : Nat) : Iterator :=
  let d := data % 65536
  (i.WriteU8 (d &&& 0xff)).WriteU8 ((d >>> 8) &&& 0xff)

/-- Move the cursor forward. -/
def Iterator.Next (i : Iterator) (delta : Nat) : Iterator :=
  { i with cur := i.cur + delta }

/-- Move the cursor one byte back. -/
def Iterator.Prev (i : Iterator) : Iterator :=
  { i with cur := i.cur - 1 }

/-- Read one byte and advance; reading past the end of the buffer is an assertion failure. -/
def Iterator.ReadU8 (i : Iterator) : Except Fault (Nat × Iterator) :=
  match i.buf.get? i.cur with
  | some b => .ok (b % 256, { i with cur := i.cur + 1 })
  | none => .error Fault.assertion

/-- Read a 16-bit value stored in network byte order. -/
def Iterator.ReadNtohU16 (i : Iterator) : Except Fault (Nat × Iterator) := do
  let (b0, i) ← i.ReadU8
  let (b1, i) ← i.ReadU8
  let retval := 0 ||| b0
  let retval := (retval <<< 8) % 65536
  let retval := retval ||| b1
  pure (retval, i)

/-- Read a 32-bit value stored in network byte order. -/
def Iterator.ReadNtohU32 (i : Iterator) : Except Fault (Nat × Iterator) := do
  let (b0, i) ← i.ReadU8
  let (b1, i) ← i.ReadU8
  let (b2, i) ← i.ReadU8
  let (b3, i) ← i.ReadU8
  let retval := 0 ||| b0
  let retval := (retval <<< 8) % 4294967296
  let retval := retval ||| b1
  let retval := (retval <<< 8) % 4294967296
  let retval := retval ||| b2
  let retval := (retval <<< 8) % 4294967296
  let retval := retval ||| b3
  pure (retval, i)

/-- Read a 16-bit value stored in host (little-endian) byte order. -/
def Iterator.ReadU16 (i : Iterator) : Except Fault (Nat × Iterator) := do
  let (b0, i) ← i.ReadU8
  let (b1, i) ← i.ReadU8
  let data := b1
  let data := (data <<< 8) % 65536
  let data := data ||| b0
  pure (data, i)

/-- The bytes the checksum routine of the buffer sums: `size` bytes from the cursor. -/
def Iterator.checksumInput (i : Iterator) (size : Nat) : List Nat :=
  (i.buf.drop i.cur).take size

/-! ## Header (Radeep-header.h / Radeep-header.cc) -/

/-- Flag bit of `m_flags`: don't fragment. -/
def DONT_FRAGMENT : Nat := 1 <<< 0
/-- Flag bit of `m_flags`: more fragments. -/
def MORE_FRAGMENTS : Nat := 1 <<< 1

/-- The fields of `RadeepHeader`. -/
structure RadeepHeader where
  m_calcChecksum : Bool
  m_payloadSize : Nat      -- uint16_t
  m_identification : Nat   -- uint16_t
  m_tos : Nat              -- 8 bits
  m_ttl : Nat              -- 8 bits
  m_protocol : Nat         -- 8 bits
  m_flags : Nat            -- 3 bits
  m_fragmentOffset : Nat   -- uint16_t
  m_source : Nat           -- 32-bit address
  m_destination : Nat      -- 32-bit address
  m_checksum : Nat         -- uint16_t
  m_goodChecksum : Bool
  m_headerSize : Nat       -- uint16_t
  deriving DecidableEq, Repr

/-- Every field fits the width its C++ declaration gives it. -/
def RadeepHeader.InRange (h : RadeepHeader) : Prop :=
  h.m_payloadSize < 65536 ∧ h.m_identification < 65536 ∧ h.m_tos < 256 ∧ h.m_ttl < 256 ∧
  h.m_protocol < 256 ∧ h.m_flags < 8 ∧ h.m_fragmentOffset < 65536 ∧
  h.m_source < 4294967296 ∧ h.m_destination < 4294967296 ∧ h.m_checksum < 65536 ∧
  h.m_headerSize < 65536

instance (h : RadeepHeader) : Decidable h.InRange := by
  unfold RadeepHeader.InRange; infer_instance

/-- The constructor `RadeepHeader::RadeepHeader ()`. -/
def RadeepHeader.new : RadeepHeader :=
  { m_calcChecksum := false, m_payloadSize := 0, m_identification := 0, m_tos := 0, m_ttl := 0,
    m_protocol := 0, m_flags := 0, m_fragmentOffset := 0, m_source := 0, m_destination := 0,
    m_checksum := 0, m_goodChecksum := true, m_headerSize := 5 * 4 }

def RadeepHeader.EnableChecksum (h : RadeepHeader) : RadeepHeader :=
  { h with m_calcChecksum := true }

def RadeepHeader.SetPayloadSize (h : RadeepHeader) (size : Nat) : RadeepHeader :=
  { h with m_payloadSize := size % 65536 }

def RadeepHeader.GetPayloadSize (h : RadeepHeader) : Nat := h.m_payloadSize

def RadeepHeader.GetIdentification (h : RadeepHeader) : Nat := h.m_identification

def RadeepHeader.GetTos (h : RadeepHeader) : Nat := h.m_tos

def RadeepHeader.SetMoreFragments (h : RadeepHeader) : RadeepHeader :=
  { h with m_flags := h.m_flags ||| MORE_FRAGMENTS }

def RadeepHeader.SetLastFragment (h : RadeepHeader) : RadeepHeader :=
  { h with m_flags := h.m_flags &&& (7 - MORE_FRAGMENTS) }

def RadeepHeader.IsLastFragment (h : RadeepHeader) : Bool :=
  !(h.m_flags &&& MORE_FRAGMENTS != 0)

def RadeepHeader.IsDontFragment (h : RadeepHeader) : Bool :=
  h.m_flags &&& DONT_FRAGMENT != 0

/-- The setter aborts on an offset that is not a multiple of 8. -/
def RadeepHeader.SetFragmentOffset (h : RadeepHeader) (offsetBytes : Nat) :
    Except Fault RadeepHeader :=
  let offsetBytes := offsetBytes % 65536
  if offsetBytes &&& 0x7 != 0 then .error Fault.abort
  else .ok { h with m_fragmentOffset := offsetBytes }

def RadeepHeader.GetFragmentOffset (h : RadeepHeader) : Nat := h.m_fragmentOffset

def RadeepHeader.GetTtl (h : RadeepHeader) : Nat := h.m_ttl

def RadeepHeader.GetProtocol (h : RadeepHeader) : Nat := h.m_protocol

def RadeepHeader.GetSource (h : RadeepHeader) : Nat := h.m_source

def RadeepHeader.GetDestination (h : RadeepHeader) : Nat := h.m_destination

def RadeepHeader.IsChecksumOk (h : RadeepHeader) : Bool := h.m_goodChecksum

def RadeepHeader.GetSerializedSize (h : RadeepHeader) : Nat := h.m_headerSize

/-- The first part of `RadeepHeader::Serialize`: the twenty bytes written before the
`if (m_calcChecksum)` block. -/
def RadeepHeader.SerializeFields (h : RadeepHeader) (start : Iterator) : Iterator :=
  let i := start
  let verIhl := ((4 <<< 4) ||| 5) % 256
  let i := i.WriteU8 verIhl
  let i := i.WriteU8 h.m_tos
  let i := i.WriteHtonU16 (h.m_payloadSize + 5 * 4)
  let i := i.WriteHtonU16 h.m_identification
  let fragmentOffset := h.m_fragmentOffset / 8
  let flagsFrag := ((fragmentOffset >>> 8) &&& 0x1f) % 256
  let flagsFrag := if h.m_flags &&& DONT_FRAGMENT != 0 then flagsFrag ||| (1 <<< 6) else flagsFrag
  let flagsFrag := if h.m_flags &&& MORE_FRAGMENTS != 0 then flagsFrag ||| (1 <<< 5) else flagsFrag
  let i := i.WriteU8 flagsFrag
  let frag := (fragmentOffset &&& 0xff) % 256
  let i := i.WriteU8 frag
  let i := i.WriteU8 h.m_ttl
  let i := i.WriteU8 h.m_protocol
  let i := i.WriteHtonU16 0
  let i := i.WriteHtonU32 h.m_source
  i.WriteHtonU32 h.m_destination

/-- The method `RadeepHeader::Serialize`: the field bytes, then the checksum block.
`cksum` is the buffer's checksum routine (`CalculateRadeepChecksum`, not part of this
repository), applied to the bytes it sums. -/
def RadeepHeader.Serialize (cksum : List Nat → Nat) (h : RadeepHeader) (start : Iterator) :
    Iterator :=
  let i := h.SerializeFields start
  if h.m_calcChecksum then
    let i : Iterator := { i with cur := start.cur }
    let checksum := cksum (i.checksumInput 20) % 65536
    let i : Iterator := { i with cur := start.cur }
    let i := i.Next 10
    i.WriteU16 checksum
  else i

/-- The method `RadeepHeader::Deserialize`: the returned number and the updated header.
The fields are assigned in the order of the source; fields the method does not assign
keep the value they had in `h`. -/
def RadeepHeader.Deserialize (cksum : List Nat → Nat) (h : RadeepHeader) (start : Iterator) :
    Except Fault (Nat × RadeepHeader) :=
  let i := start
  i.ReadU8 >>= fun (verIhl, i) =>
  let ihl := verIhl &&& 0x0f
  let headerSize := (ihl * 4) % 65536
  if (verIhl >>> 4) != 4 then
    pure (0, h)
  else
    i.ReadU8 >>= fun (m_tos, i) =>
    i.ReadNtohU16 >>= fun (size, i) =>
    let m_payloadSize := (size + 65536 - headerSize) % 65536
    i.ReadNtohU16 >>= fun (m_identification, i) =>
    i.ReadU8 >>= fun (flags, i) =>
    let m_flags := 0
    let m_flags := if flags &&& (1 <<< 6) != 0 then m_flags ||| DONT_FRAGMENT else m_flags
    let m_flags := if flags &&& (1 <<< 5) != 0 then m_flags ||| MORE_FRAGMENTS else m_flags
    let i := i.Prev
    i.ReadU8 >>= fun (b, i) =>
    let m_fragmentOffset := b &&& 0x1f
    let m_fragmentOffset := (m_fragmentOffset <<< 8) % 65536
    i.ReadU8 >>= fun (b, i) =>
    let m_fragmentOffset := m_fragmentOffset ||| b
    let m_fragmentOffset := (m_fragmentOffset <<< 3) % 65536
    i.ReadU8 >>= fun (m_ttl, i) =>
    i.ReadU8 >>= fun (m_protocol, i) =>
    i.ReadU16 >>= fun (m_checksum, i) =>
    i.ReadNtohU32 >>= fun (m_source, i) =>
    i.ReadNtohU32 >>= fun (m_destination, _) =>
    let m_headerSize := headerSize
    let m_goodChecksum :=
      if h.m_calcChecksum then
        let i := start
        let checksum := cksum (i.checksumInput headerSize) % 65536
        (checksum == 0)
      else h.m_goodChecksum
    let h : RadeepHeader :=
      { m_calcChecksum := h.m_calcChecksum, m_payloadSize := m_payloadSize,
        m_identification := m_identification, m_tos := m_tos, m_ttl := m_ttl,
        m_protocol := m_protocol, m_flags := m_flags, m_fragmentOffset := m_fragmentOffset,
        m_source := m_source, m_destination := m_destination, m_checksum := m_checksum,
        m_goodChecksum := m_goodChecksum, m_headerSize := m_headerSize }
    pure (h.GetSerializedSize, h)


/-! ## Closed forms used to state the codec theorems -/

/-- The 20 bytes of the wire layout of a header, the checksum slot holding `c0 c1`. -/
def wireLayout (h : RadeepHeader) (c0 c1 : Nat) : List Nat :=
  let T := (h.m_payloadSize + 20) % 65536
  let o := h.m_fragmentOffset / 8
  [0x45, h.m_tos, T / 256, T % 256, h.m_identification / 256, h.m_identification % 256,
   (if h.IsDontFragment then 0x40 else 0) ||| (if h.IsLastFragment then 0 else 0x20) |||
     ((o >>> 8) &&& 0x1f),
   o &&& 0xff, h.m_ttl, h.m_protocol, c0, c1,
   h.m_source / 16777216, h.m_source / 65536 % 256, h.m_source / 256 % 256, h.m_source % 256,
   h.m_destination / 16777216, h.m_destination / 65536 % 256, h.m_destination / 256 % 256,
   h.m_destination % 256]

/-- The two bytes `Serialize` leaves in the checksum slot. -/
def checksumSlot (cksum : List Nat → Nat) (h : RadeepHeader) : Nat × Nat :=
  if h.m_calcChecksum then
    (cksum (wireLayout h 0 0) % 65536 % 256, cksum (wireLayout h 0 0) % 65536 / 256)
  else (0, 0)


/-- An example header used to instantiate the codec theorems. -/
def exampleHeader : RadeepHeader :=
  { m_calcChecksum := false, m_payloadSize := 3000, m_identification := 7, m_tos := 0x2e,
    m_ttl := 64, m_protocol := 17, m_flags := 0, m_fragmentOffset := 0, m_source := 0x0a000001,
    m_destination := 0x0a000005, m_checksum := 0, m_goodChecksum := true, m_headerSize := 20 }

/-! ## Fragmentation (radeep-l3-protocol.cc, `DoFragmentation`) -/

/-- The operation `Packet::CreateFragment (start, length)` of the packet library (an external
collaborator): the `length` bytes from `start`; it asserts that the range lies in the packet. -/
def CreateFragment (p : List Nat) (start length : Nat) : Except Fault (List Nat) :=
  if start + length ≤ p.length then .ok ((p.drop start).take length)
  else .error Fault.assertion

/-- A fragment with its header, `RadeepPayloadHeaderPair`. -/
abbrev RadeepPayloadHeaderPair := List Nat × RadeepHeader

/-- The `do ... while (moreFragment)` loop of `DoFragmentation`; `offset` is the `uint16_t`
loop variable, and the result lists the pairs pushed onto `listFragments`, in order.
`checksumEnabled` stands for `Node::ChecksumEnabled ()`. -/
def fragmentLoop (p : List Nat) (radeepHeader : RadeepHeader) (checksumEnabled : Bool)
    (fragmentSize originalOffset : Nat) (isLastFragment : Bool) :
    Nat → Nat → Except Fault (List RadeepPayloadHeaderPair)
  | 0, _ => .error Fault.outOfFuel
  | fuel + 1, offset =>
    let fragmentHeader := radeepHeader
    let moreFragment : Bool := p.length > (offset + fragmentSize) % 4294967296
    let currentFragmentablePartSize :=
      if moreFragment then fragmentSize else (p.length + 4294967296 - offset) % 4294967296
    let fragmentHeader :=
      if moreFragment then fragmentHeader.SetMoreFragments
      else if !isLastFragment then fragmentHeader.SetMoreFragments
      else fragmentHeader.SetLastFragment
    match CreateFragment p offset currentFragmentablePartSize with
    | .error e => .error e
    | .ok fragment =>
      match fragmentHeader.SetFragmentOffset (offset + originalOffset) with
      | .error e => .error e
      | .ok fragmentHeader =>
        let fragmentHeader := fragmentHeader.SetPayloadSize currentFragmentablePartSize
        let fragmentHeader :=
          if checksumEnabled then fragmentHeader.EnableChecksum else fragmentHeader
        let offset := (offset + currentFragmentablePartSize) % 65536
        if moreFragment then
          match fragmentLoop p radeepHeader checksumEnabled fragmentSize originalOffset
              isLastFragment fuel offset with
          | .error e => .error e
          | .ok rest => .ok ((fragment, fragmentHeader) :: rest)
        else .ok [(fragment, fragmentHeader)]

/-- The fragment size `(outIfaceMtu - GetSerializedSize ()) & ~uint32_t (0x7)`, in 32-bit
unsigned arithmetic. -/
def fragmentSizeOf (radeepHeader : RadeepHeader) (outIfaceMtu : Nat) : Nat :=
  ((outIfaceMtu + 4294967296 - radeepHeader.GetSerializedSize) % 4294967296) &&& 4294967288

/-- The method `RadeepL3Protocol::DoFragmentation`: the pairs appended to `listFragments`.
`fuel` bounds the number of loop iterations. -/
def DoFragmentation (fuel : Nat) (checksumEnabled : Bool) (packet : List Nat)
    (radeepHeader : RadeepHeader) (outIfaceMtu : Nat) :
    Except Fault (List RadeepPayloadHeaderPair) :=
  let p := packet
  if radeepHeader.GetSerializedSize != 5 * 4 then .error Fault.assertion
  else
    let offset := 0
    let originalOffset := radeepHeader.GetFragmentOffset
    let isLastFragment := radeepHeader.IsLastFragment
    let fragmentSize := fragmentSizeOf radeepHeader outIfaceMtu
    fragmentLoop p radeepHeader checksumEnabled fragmentSize originalOffset isLastFragment
      fuel offset

/-! ## Reassembly (radeep-l3-protocol.cc, class `Fragments`) -/

/-- The class `Fragments`: the more-fragments marker and the (fragment, offset) list. -/
structure Fragments where
  m_moreFragment : Bool
  m_fragments : List (List Nat × Nat)
  deriving DecidableEq, Repr

/-- The constructor `Fragments::Fragments ()`. -/
def Fragments.new : Fragments := { m_moreFragment := false, m_fragments := [] }

/-- The scan and `insert` of `AddFragment`: the new list, and whether the scan ran to
`end ()`. -/
def insertFragment (fragment : List Nat) (fragmentOffset : Nat) :
    List (List Nat × Nat) → List (List Nat × Nat) × Bool
  | [] => ([(fragment, fragmentOffset)], true)
  | it :: rest =>
    if it.2 > fragmentOffset then ((fragment, fragmentOffset) :: it :: rest, false)
    else
      let r := insertFragment fragment fragmentOffset rest
      (it :: r.1, r.2)

/-- The method `Fragments::AddFragment`. -/
def Fragments.AddFragment (f : Fragments) (fragment : List Nat) (fragmentOffset : Nat)
    (moreFragment : Bool) : Fragments :=
  let r := insertFragment fragment fragmentOffset f.m_fragments
  { m_moreFragment := if r.2 then moreFragment else f.m_moreFragment, m_fragments := r.1 }

/-- The `for` loop of `IsEntire`, `lastEndOffset` being a `uint16_t`. -/
def isEntireLoop : List (List Nat × Nat) → Nat → Bool
  | [], _ => true
  | it :: rest, lastEndOffset =>
    if lastEndOffset < it.2 then false
    else
      let fragmentEnd := (it.1.length + it.2) % 65536
      isEntireLoop rest (max lastEndOffset fragmentEnd)

/-- The method `Fragments::IsEntire`. -/
def Fragments.IsEntire (f : Fragments) : Bool :=
  let ret := !f.m_moreFragment && f.m_fragments.length > 0
  if ret then isEntireLoop f.m_fragments 0 else ret

/-- The `for` loop of `GetPacket`: `p` is the packet assembled so far. -/
def getPacketLoop : List (List Nat × Nat) → List Nat → Except Fault (List Nat)
  | [], p => .ok p
  | it :: rest, p =>
    let lastEndOffset := p.length % 65536
    if lastEndOffset > it.2 then
      let newStart := (lastEndOffset + 4294967296 - it.2) % 4294967296
      if it.1.length > newStart then
        let newSize := (it.1.length + 4294967296 - newStart) % 4294967296
        match CreateFragment it.1 newStart newSize with
        | .error e => .error e
        | .ok tempFragment => getPacketLoop rest (p ++ tempFragment)
      else getPacketLoop rest p
    else getPacketLoop rest (p ++ it.1)

/-- The method `Fragments::GetPacket`; it dereferences `begin ()`, so an empty set is a
fault. -/
def Fragments.GetPacket (f : Fragments) : Except Fault (List Nat) :=
  match f.m_fragments with
  | [] => .error Fault.assertion
  | it :: rest => getPacketLoop rest it.1

/-- Add the fragments produced by `DoFragmentation` one after another, as `ProcessFragment`
does: payload, header offset, and whether the header has more-fragments set.  The result
lists the state after each addition. -/
def addFragments : Fragments → List RadeepPayloadHeaderPair → List Fragments
  | _, [] => []
  | f, (payload, header) :: rest =>
    let f1 := f.AddFragment payload header.GetFragmentOffset (!header.IsLastFragment)
    f1 :: addFragments f1 rest

/-! ## Static routing (Radeep-static-routing.cc) -/

/-- Modelled from the spec: `RadeepAddress::IsLocalMulticast` (Radeep-address.h is not among
the sources): the link-local multicast block 224.0.0.0/24. -/
def IsLocalMulticast (a : Nat) : Bool := (a &&& 0xffffff00) == 0xe0000000

/-- Modelled from the spec: `RadeepMask::IsMatch` (Radeep-address.h is not among the
sources): two addresses agree under the mask. -/
def IsMatch (mask a b : Nat) : Bool := (a &&& mask) == (b &&& mask)

/-- The shift loop counting the length of a mask. -/
def prefixLengthLoop : Nat → Nat → Nat → Nat
  | 0, _, tmp => tmp
  | fuel + 1, mask, tmp =>
    if mask != 0 then prefixLengthLoop fuel ((mask <<< 1) % 4294967296) (tmp + 1) else tmp

/-- Modelled from the spec: `RadeepMask::GetPrefixLength` (Radeep-address.h is not among the
sources): the length of a mask, which for a mask that is a contiguous run of set high bits
is the number of those bits.  Thirty-two shifts empty any 32-bit mask. -/
def GetPrefixLength (mask : Nat) : Nat := prefixLengthLoop 32 mask 0

/-- The mask with `n` set high bits. -/
def prefixMask (n : Nat) : Nat := 4294967296 - 2 ^ (32 - n)

/-- The fields of `RadeepRoutingTableEntry`. -/
structure RadeepRoutingTableEntry where
  m_dest : Nat
  m_destNetworkMask : Nat
  m_gateway : Nat
  m_interface : Nat
  deriving DecidableEq, Repr

def RadeepRoutingTableEntry.GetDest (e : RadeepRoutingTableEntry) : Nat := e.m_dest
def RadeepRoutingTableEntry.GetDestNetwork (e : RadeepRoutingTableEntry) : Nat := e.m_dest
def RadeepRoutingTableEntry.GetDestNetworkMask (e : RadeepRoutingTableEntry) : Nat :=
  e.m_destNetworkMask
def RadeepRoutingTableEntry.GetGateway (e : RadeepRoutingTableEntry) : Nat := e.m_gateway
def RadeepRoutingTableEntry.GetInterface (e : RadeepRoutingTableEntry) : Nat := e.m_interface

/-- The constructor behind `CreateNetworkRouteTo (network, networkMask, nextHop, interface)`. -/
def RadeepRoutingTableEntry.CreateNetworkRouteTo (network networkMask nextHop interface : Nat) :
    RadeepRoutingTableEntry :=
  { m_dest := network, m_destNetworkMask := networkMask, m_gateway := nextHop,
    m_interface := interface }

/-- The fields of `RadeepRoute` that `LookupStatic` sets. -/
structure RadeepRoute where
  m_dest : Nat
  m_source : Nat
  m_gateway : Nat
  m_outputDevice : Nat
  deriving DecidableEq, Repr

/-- What `LookupStatic` asks of the owning `Radeep` object (an external collaborator). -/
structure RadeepNode where
  GetNetDevice : Nat → Nat
  SourceAddressSelection : Nat → Nat → Nat
  localAddressOfDevice : Nat → Nat

/-- The table `m_networkRoutes`: entries with their metric, in insertion order. -/
abbrev NetworkRoutes := List (RadeepRoutingTableEntry × Nat)

/-- The method `AddNetworkRouteTo (network, networkMask, nextHop, interface, metric)`. -/
def AddNetworkRouteTo (routes : NetworkRoutes) (network networkMask nextHop interface
    metric : Nat) : NetworkRoutes :=
  routes ++ [(RadeepRoutingTableEntry.CreateNetworkRouteTo network networkMask nextHop
    interface, metric)]

/-- The route `LookupStatic` builds from a table entry. -/
def routeOfEntry (node : RadeepNode) (route : RadeepRoutingTableEntry) : RadeepRoute :=
  let interfaceIdx := route.GetInterface
  { m_dest := route.GetDest,
    m_source := node.SourceAddressSelection interfaceIdx route.GetDest,
    m_gateway := route.GetGateway,
    m_outputDevice := node.GetNetDevice interfaceIdx }

/-- The `for` loop of `LookupStatic` over `m_networkRoutes`, carrying `rtentry`,
`longest_mask` and `shortest_metric`. -/
def lookupLoop (node : RadeepNode) (dest : Nat) (oif : Option Nat) :
    NetworkRoutes → Option RadeepRoute → Nat → Nat → Option RadeepRoute
  | [], rtentry, _, _ => rtentry
  | i :: rest, rtentry, longest_mask, shortest_metric =>
    let j := i.1
    let metric := i.2
    let mask := j.GetDestNetworkMask
    let masklen := GetPrefixLength mask % 65536
    let entry := j.GetDestNetwork
    if IsMatch mask dest entry then
      if oif.isSome && oif != some (node.GetNetDevice j.GetInterface) then
        lookupLoop node dest oif rest rtentry longest_mask shortest_metric
      else if masklen < longest_mask then
        lookupLoop node dest oif rest rtentry longest_mask shortest_metric
      else
        let shortest_metric := if masklen > longest_mask then 0xffffffff else shortest_metric
        let longest_mask := masklen
        if metric > shortest_metric then
          lookupLoop node dest oif rest rtentry longest_mask shortest_metric
        else
          let shortest_metric := metric
          let rtentry := some (routeOfEntry node j)
          if masklen == 32 then rtentry
          else lookupLoop node dest oif rest rtentry longest_mask shortest_metric
    else lookupLoop node dest oif rest rtentry longest_mask shortest_metric

/-- The method `RadeepStaticRouting::LookupStatic (dest, oif)`; `none` in the result is the
null route. -/
def LookupStatic (node : RadeepNode) (routes : NetworkRoutes) (dest : Nat) (oif : Option Nat) :
    Except Fault (Option RadeepRoute) :=
  let longest_mask := 0
  let shortest_metric := 0xffffffff
  if IsLocalMulticast dest then
    match oif with
    | none => .error Fault.assertion
    | some dev =>
      .ok (some { m_dest := dest, m_gateway := 0, m_outputDevice := dev,
                  m_source := node.localAddressOfDevice dev })
  else .ok (lookupLoop node dest oif routes none longest_mask shortest_metric)

/-- The method `RadeepStaticRouting::RemoveRoute (index)`. -/
def RemoveRoute (routes : NetworkRoutes) (index : Nat) : Except Fault NetworkRoutes :=
  if index < routes.length then .ok (routes.eraseIdx index) else .error Fault.assertion

/-- A node whose interface `k` is device `k` and whose source address is fixed. -/
def exampleNode : RadeepNode :=
  { GetNetDevice := fun k => k, SourceAddressSelection := fun _ _ => 0x0a000001,
    localAddressOfDevice := fun _ => 0x0a000001 }

/-- The table holding 10.0.0.0/24 (via interface 1) and 10.0.0.0/16 (via interface 2). -/
def exampleRoutes : NetworkRoutes :=
  AddNetworkRouteTo (AddNetworkRouteTo [] 0x0a000000 0xffffff00 0 1 0) 0x0a000000 0xffff0000 0 2 0

/-! ## Address registry (Radeep-address-generator.cc, `AddAllocated`) -/

/-- An allocated range, `RadeepAddressGeneratorImpl::Entry`. -/
structure Entry where
  addrLow : Nat
  addrHigh : Nat
  deriving DecidableEq, Repr

/-- The `for` loop of `AddAllocated` with the insertion that follows it: the value returned
and the new `m_entries`. -/
def addAllocatedLoop (m_test : Bool) (addr : Nat) : List Entry → Except Fault (Bool × List Entry)
  | [] => .ok (true, [{ addrLow := addr, addrHigh := addr }])
  | i :: rest =>
    if addr ≥ i.addrLow && addr ≤ i.addrHigh then
      if !m_test then .error Fault.fatal else .ok (false, i :: rest)
    else if addr < (i.addrLow + 4294967296 - 1) % 4294967296 then
      .ok (true, { addrLow := addr, addrHigh := addr } :: i :: rest)
    else if addr == (i.addrHigh + 1) % 4294967296 then
      match rest with
      | j :: _ =>
        if addr == j.addrLow then
          if !m_test then .error Fault.fatal else .ok (false, i :: rest)
        else .ok (true, { i with addrHigh := addr } :: rest)
      | [] => .ok (true, { i with addrHigh := addr } :: rest)
    else if addr == (i.addrLow + 4294967296 - 1) % 4294967296 then
      .ok (true, { i with addrLow := addr } :: rest)
    else
      match addAllocatedLoop m_test addr rest with
      | .error e => .error e
      | .ok (r, rest1) => .ok (r, i :: rest1)

/-- The method `RadeepAddressGeneratorImpl::AddAllocated`. -/
def AddAllocated (m_test : Bool) (m_entries : List Entry) (address : Nat) :
    Except Fault (Bool × List Entry) :=
  let addr := address
  if addr == 0 then .error Fault.abort
  else addAllocatedLoop m_test addr m_entries

/-- An address lies in one of the ranges of the registry. -/
def covered (m_entries : List Entry) (x : Nat) : Prop :=
  ∃ e ∈ m_entries, e.addrLow ≤ x ∧ x ≤ e.addrHigh

/-- The registry states reachable from the empty registry by test-mode `AddAllocated` calls,
with the addresses whose call returned true. -/
inductive Reachable : List Nat → List Entry → Prop
  | empty : Reachable [] []
  | added (as : List Nat) (s s1 : List Entry) (a : Nat) :
      Reachable as s → a < 4294967296 → AddAllocated true s a = .ok (true, s1) →
      Reachable (a :: as) s1
  | refused (as : List Nat) (s s1 : List Entry) (a : Nat) :
      Reachable as s → a < 4294967296 → AddAllocated true s a = .ok (false, s1) →
      Reachable as s1


/-! ## Closed forms and invariants used to state the theorems -/

/-- The pair that the iteration of the fragmentation loop starting at `offset` emits, when no
machine integer wraps. -/
def fragmentAt (p : List Nat) (radeepHeader : RadeepHeader) (checksumEnabled : Bool)
    (fragmentSize originalOffset : Nat) (isLastFragment : Bool) (offset : Nat) :
    RadeepPayloadHeaderPair :=
  let more : Bool := p.length > offset + fragmentSize
  let size := if more then fragmentSize else p.length - offset
  let hdr :=
    if more then radeepHeader.SetMoreFragments
    else if !isLastFragment then radeepHeader.SetMoreFragments
    else radeepHeader.SetLastFragment
  let hdr := { hdr with m_fragmentOffset := offset + originalOffset }
  let hdr := hdr.SetPayloadSize size
  ((p.drop offset).take size, if checksumEnabled then hdr.EnableChecksum else hdr)

/-- The pairs of `n` consecutive iterations, the first starting at `offset`. -/
def expectedFragments (p : List Nat) (radeepHeader : RadeepHeader) (checksumEnabled : Bool)
    (fragmentSize originalOffset : Nat) (isLastFragment : Bool) : Nat → Nat →
    List RadeepPayloadHeaderPair
  | 0, _ => []
  | n + 1, offset =>
    fragmentAt p radeepHeader checksumEnabled fragmentSize originalOffset isLastFragment offset ::
      expectedFragments p radeepHeader checksumEnabled fragmentSize originalOffset
        isLastFragment n (offset + fragmentSize)

/-- Chunks paired with their running offsets, the first chunk at `base`. -/
def contig : Nat → List (List Nat) → List (List Nat × Nat)
  | _, [] => []
  | base, c :: cs => (c, base) :: contig (base + c.length) cs

/-- The greatest end offset (offset plus size) among fragments, 0 for none. -/
def maxEnd : List (List Nat × Nat) → Nat
  | [] => 0
  | x :: rest => max (x.2 + x.1.length) (maxEnd rest)

/-- Every fragment starts at or before the greatest end offset of the fragments before it. -/
def gapFree (frs : List (List Nat × Nat)) : Prop :=
  ∀ k x, frs[k]? = some x → x.2 ≤ maxEnd (frs.take k)

/-- Some fragment holds the byte at position `pos`. -/
def covers (frs : List (List Nat × Nat)) (pos : Nat) : Prop :=
  ∃ x ∈ frs, x.2 ≤ pos ∧ pos < x.2 + x.1.length

/-- What the scan knows after the entries `pre`. -/
def lookupInv (node : RadeepNode) (dest : Nat) (pre : NetworkRoutes) :
    Option RadeepRoute → Nat → Nat → Prop
  | none, longest, shortest =>
    longest = 0 ∧ shortest = 0xffffffff ∧
      ∀ e ∈ pre, IsMatch e.1.m_destNetworkMask dest e.1.m_dest = false
  | some r, longest, _ =>
    ∃ e ∈ pre, r = routeOfEntry node e.1 ∧
      IsMatch e.1.m_destNetworkMask dest e.1.m_dest = true ∧
      GetPrefixLength e.1.m_destNetworkMask = longest ∧
      ∀ e1 ∈ pre, IsMatch e1.1.m_destNetworkMask dest e1.1.m_dest = true →
        GetPrefixLength e1.1.m_destNetworkMask ≤ longest

/-- What the result of the scan over `all` satisfies. -/
def lookupPost (node : RadeepNode) (dest : Nat) (all : NetworkRoutes) :
    Option RadeepRoute → Prop
  | none => ∀ e ∈ all, IsMatch e.1.m_destNetworkMask dest e.1.m_dest = false
  | some r =>
    ∃ e ∈ all, r = routeOfEntry node e.1 ∧
      IsMatch e.1.m_destNetworkMask dest e.1.m_dest = true ∧
      ∀ e1 ∈ all, IsMatch e1.1.m_destNetworkMask dest e1.1.m_dest = true →
        GetPrefixLength e1.1.m_destNetworkMask ≤ GetPrefixLength e.1.m_destNetworkMask

/-- The ranges are in increasing order, pairwise disjoint, non-empty, within 32 bits and
all above `lo`. -/
def rangesAbove : Nat → List Entry → Prop
  | _, [] => True
  | lo, e :: rest =>
    lo < e.addrLow ∧ e.addrLow ≤ e.addrHigh ∧ e.addrHigh < 4294967296 ∧
      rangesAbove e.addrHigh rest

/-- The table holding 10.0.0.0/16 first and 10.0.0.0/24 second. -/
def exampleRoutesRev : NetworkRoutes :=
  AddNetworkRouteTo (AddNetworkRouteTo [] 0x0a000000 0xffff0000 0 2 0) 0x0a000000 0xffffff00 0 1 0

/-- A set complete under `IsEntire` whose last two fragments end beyond 65535: two fragments
that tile `[0, 65528)`, then 16 bytes and 24 bytes both at offset 65528. -/
def oversizedFragments : Fragments :=
  { m_moreFragment := false,
    m_fragments := [(List.replicate 32768 1, 0), (List.replicate 32760 2, 32768),
      (List.replicate 16 3, 65528), (List.replicate 24 4, 65528)] }

/-! ## Fragment tables (radeep-l3-protocol.cc, `ProcessFragment`, `LocalDeliver`,
`GetPartialPacket`, `HandleFragmentsTimeout`) -/

/-- The key of a fragment set: source and destination combined (64 bits), identification and
protocol combined (32 bits). -/
abbrev FragmentKey := Nat × Nat

/-- The key `ProcessFragment` computes from a header. -/
def fragmentKey (radeepHeader : RadeepHeader) : FragmentKey :=
  let addressCombination :=
    (((radeepHeader.GetSource % 18446744073709551616) <<< 32) % 18446744073709551616) |||
      (radeepHeader.GetDestination % 18446744073709551616)
  let idProto :=
    (((radeepHeader.GetIdentification % 4294967296) <<< 16) % 4294967296) |||
      (radeepHeader.GetProtocol % 4294967296)
  (addressCombination, idProto)

/-- A running expiry event: the arguments `Simulator::Schedule` binds to
`HandleFragmentsTimeout`. -/
structure TimeoutEvent where
  key : FragmentKey
  radeepHeader : RadeepHeader
  iif : Nat
  deriving DecidableEq, Repr

/-- The lookup `std::map::find`. -/
def mapFind {β : Type} (key : FragmentKey) : List (FragmentKey × β) → Option β
  | [] => none
  | e :: rest => if e.1 == key then some e.2 else mapFind key rest

/-- The removal `std::map::erase (key)`. -/
def mapErase {β : Type} (key : FragmentKey) (m : List (FragmentKey × β)) :
    List (FragmentKey × β) :=
  m.filter (fun e => !(e.1 == key))

/-- The assignment `m[key] = v`. -/
def mapSet {β : Type} (key : FragmentKey) (v : β) (m : List (FragmentKey × β)) :
    List (FragmentKey × β) :=
  (key, v) :: mapErase key m

/-- The two tables of the protocol object, `m_fragments` and `m_fragmentsTimers`. -/
structure ReassemblyState where
  m_fragments : List (FragmentKey × Fragments)
  m_fragmentsTimers : List (FragmentKey × TimeoutEvent)
  deriving DecidableEq, Repr

/-- The method `RadeepL3Protocol::ProcessFragment`: the new tables, the packet left in the
reference argument `packet`, and the value returned. -/
def ProcessFragment (s : ReassemblyState) (packet : List Nat) (radeepHeader : RadeepHeader)
    (iif : Nat) : Except Fault (ReassemblyState × List Nat × Bool) :=
  let key := fragmentKey radeepHeader
  let p := packet
  let r : Fragments × ReassemblyState :=
    match mapFind key s.m_fragments with
    | none =>
      (Fragments.new,
        { m_fragments := mapSet key Fragments.new s.m_fragments,
          m_fragmentsTimers := mapSet key ⟨key, radeepHeader, iif⟩ s.m_fragmentsTimers })
    | some fragments => (fragments, s)
  let fragments := r.1.AddFragment p radeepHeader.GetFragmentOffset !radeepHeader.IsLastFragment
  let s : ReassemblyState := { r.2 with m_fragments := mapSet key fragments r.2.m_fragments }
  if fragments.IsEntire then
    match fragments.GetPacket with
    | .error e => .error e
    | .ok packet =>
      .ok ({ m_fragments := mapErase key s.m_fragments,
             m_fragmentsTimers := mapErase key s.m_fragmentsTimers }, packet, true)
  else .ok (s, packet, false)

/-- The part of `RadeepL3Protocol::LocalDeliver` up to `m_localDeliverTrace`: the new tables
and, when the method goes on to deliver, the header and packet it hands on. -/
def LocalDeliver (s : ReassemblyState) (packet : List Nat) (radeep : RadeepHeader) (iif : Nat) :
    Except Fault (ReassemblyState × Option (RadeepHeader × List Nat)) :=
  let p := packet
  let radeepHeader := radeep
  if !radeepHeader.IsLastFragment || radeepHeader.GetFragmentOffset != 0 then
    match ProcessFragment s p radeepHeader iif with
    | .error e => .error e
    | .ok (s, p, isPacketComplete) =>
      if isPacketComplete == false then .ok (s, none)
      else
        match radeepHeader.SetFragmentOffset 0 with
        | .error e => .error e
        | .ok radeepHeader =>
          let radeepHeader := radeepHeader.SetPayloadSize p.length
          .ok (s, some (radeepHeader, p))
  else .ok (s, some (radeepHeader, p))

/-- The `for` loop of `GetPartialPacket`: `p` is the packet assembled so far.  The size of the
overlapping remainder is computed without a guard. -/
def getPartialLoop : List (List Nat × Nat) → List Nat → Except Fault (List Nat)
  | [], p => .ok p
  | it :: rest, p =>
    let lastEndOffset := p.length % 65536
    if lastEndOffset > it.2 then
      let newStart := (lastEndOffset + 4294967296 - it.2) % 4294967296
      let newSize := (it.1.length + 4294967296 - newStart) % 4294967296
      match CreateFragment it.1 newStart newSize with
      | .error e => .error e
      | .ok tempFragment => getPartialLoop rest (p ++ tempFragment)
    else if lastEndOffset == it.2 then getPartialLoop rest (p ++ it.1)
    else getPartialLoop rest p

/-- The method `Fragments::GetPartialPacket`; it dereferences `begin ()`, so an empty set is a
fault. -/
def Fragments.GetPartialPacket (f : Fragments) : Except Fault (List Nat) :=
  match f.m_fragments with
  | [] => .error Fault.assertion
  | it :: _ => if it.2 > 0 then .ok [] else getPartialLoop f.m_fragments []

/-- The enumeration `RadeepL3Protocol::DropReason`. -/
inductive DropReason where
  | DROP_TTL_EXPIRED
  | DROP_NO_ROUTE
  | DROP_BAD_CHECKSUM
  | DROP_INTERFACE_DOWN
  | DROP_ROUTE_ERROR
  | DROP_FRAGMENT_TIMEOUT
  deriving DecidableEq, Repr

/-- What `HandleFragmentsTimeout` tells its collaborators: the ICMP object and the drop
trace. -/
inductive TimeoutAction where
  | SendTimeExceededTtl (radeepHeader : RadeepHeader) (packet : List Nat)
  | dropTrace (radeepHeader : RadeepHeader) (packet : List Nat) (reason : DropReason)
      (iif : Nat)
  deriving DecidableEq, Repr

/-- The method `RadeepL3Protocol::HandleFragmentsTimeout`: the new tables and the calls made,
in order.  A key without a fragment set dereferences `end ()`. -/
def HandleFragmentsTimeout (s : ReassemblyState) (key : FragmentKey) (radeepHeader : RadeepHeader)
    (iif : Nat) : Except Fault (ReassemblyState × List TimeoutAction) :=
  match mapFind key s.m_fragments with
  | none => .error Fault.assertion
  | some fragments =>
    match fragments.GetPartialPacket with
    | .error e => .error e
    | .ok packet =>
      let icmp :=
        if packet.length > 8 then [TimeoutAction.SendTimeExceededTtl radeepHeader packet] else []
      let calls := icmp ++
        [TimeoutAction.dropTrace radeepHeader packet DropReason.DROP_FRAGMENT_TIMEOUT iif]
      .ok ({ m_fragments := mapErase key s.m_fragments,
             m_fragmentsTimers := mapErase key s.m_fragmentsTimers }, calls)

/-- The last fragment of a datagram of 12 bytes: offset 8, more-fragments clear. -/
def tailHeader : RadeepHeader :=
  { exampleHeader with m_payloadSize := 4, m_fragmentOffset := 8, m_flags := 0 }

/-- The first fragment of the same datagram: offset 0, more-fragments set. -/
def headHeader : RadeepHeader :=
  { exampleHeader with m_payloadSize := 8, m_fragmentOffset := 0, m_flags := MORE_FRAGMENTS }

/-- The tables with no fragment set buffered. -/
def ReassemblyState.empty : ReassemblyState := { m_fragments := [], m_fragmentsTimers := [] }

/-- The tables after the first fragment (8 bytes at offset 0, more to come) arrived on
interface 0 and nothing else. -/
def oneFragmentState : ReassemblyState :=
  { m_fragments := [(fragmentKey headHeader,
      { m_moreFragment := true, m_fragments := [([1, 2, 3, 4, 5, 6, 7, 8], 0)] })],
    m_fragmentsTimers := [(fragmentKey headHeader, ⟨fragmentKey headHeader, headHeader, 0⟩)] }

/-! ## Closed forms for the metric tie-break of the static lookup -/

/-- The entry matches the destination. -/
def entryMatches (dest : Nat) (e : RadeepRoutingTableEntry × Nat) : Bool :=
  IsMatch e.1.m_destNetworkMask dest e.1.m_dest

/-- The entry matches the destination and its mask has length 32. -/
def isHostMatch (dest : Nat) (e : RadeepRoutingTableEntry × Nat) : Bool :=
  entryMatches dest e && GetPrefixLength e.1.m_destNetworkMask == 32

/-- What the scan knows after the entries `pre`, metrics included: the selected entry has
the greatest mask length among the matching entries seen and the lowest metric among those
of that length. -/
def lookupInvM (node : RadeepNode) (dest : Nat) (pre : NetworkRoutes) :
    Option RadeepRoute → Nat → Nat → Prop
  | none, longest, shortest =>
    longest = 0 ∧ shortest = 0xffffffff ∧ ∀ e ∈ pre, entryMatches dest e = false
  | some r, longest, shortest =>
    ∃ e ∈ pre, r = routeOfEntry node e.1 ∧ entryMatches dest e = true ∧
      GetPrefixLength e.1.m_destNetworkMask = longest ∧ e.2 = shortest ∧
      ∀ e1 ∈ pre, entryMatches dest e1 = true →
        GetPrefixLength e1.1.m_destNetworkMask ≤ longest ∧
        (GetPrefixLength e1.1.m_destNetworkMask = longest → shortest ≤ e1.2)

/-- What the result of a scan over `all` satisfies when the scan is not cut short. -/
def lookupPostM (node : RadeepNode) (dest : Nat) (all : NetworkRoutes) :
    Option RadeepRoute → Prop
  | none => ∀ e ∈ all, entryMatches dest e = false
  | some r =>
    ∃ e ∈ all, r = routeOfEntry node e.1 ∧ entryMatches dest e = true ∧
      ∀ e1 ∈ all, entryMatches dest e1 = true →
        GetPrefixLength e1.1.m_destNetworkMask ≤ GetPrefixLength e.1.m_destNetworkMask ∧
        (GetPrefixLength e1.1.m_destNetworkMask = GetPrefixLength e.1.m_destNetworkMask →
          e.2 ≤ e1.2)

/-- Two routes to 10.0.0.0/24: metric 5 via interface 1, then metric 1 via interface 2. -/
def metricRoutes : NetworkRoutes :=
  AddNetworkRouteTo (AddNetworkRouteTo [] 0x0a000000 0xffffff00 0 1 5) 0x0a000000 0xffffff00 0 2 1

/-- The same two routes inserted in the other order. -/
def metricRoutesRev : NetworkRoutes :=
  AddNetworkRouteTo (AddNetworkRouteTo [] 0x0a000000 0xffffff00 0 2 1) 0x0a000000 0xffffff00 0 1 5

/-- Two routes to the host 10.0.0.5 (mask of length 32): metric 5 via interface 1, then
metric 1 via interface 2. -/
def hostRoutes : NetworkRoutes :=
  AddNetworkRouteTo (AddNetworkRouteTo [] 0x0a000005 0xffffffff 0 1 5) 0x0a000005 0xffffffff 0 2 1

/-! ## Global routing (Radeep-global-routing.cc, `LookupGlobal`) -/

/-- The method `RadeepRoutingTableEntry::IsHost`: the mask is `RadeepMask::GetOnes ()`. -/
def RadeepRoutingTableEntry.IsHost (e : RadeepRoutingTableEntry) : Bool :=
  e.m_destNetworkMask == 0xffffffff

/-- The constructor behind `CreateHostRouteTo (dest, nextHop, interface)`. -/
def RadeepRoutingTableEntry.CreateHostRouteTo (dest nextHop interface : Nat) :
    RadeepRoutingTableEntry :=
  { m_dest := dest, m_destNetworkMask := 0xffffffff, m_gateway := nextHop,
    m_interface := interface }

/-- The three route lists of `RadeepGlobalRouting`, in insertion order, and the ECMP
switch. -/
structure RadeepGlobalRouting where
  m_randomEcmpRouting : Bool
  m_hostRoutes : List RadeepRoutingTableEntry
  m_networkRoutes : List RadeepRoutingTableEntry
  m_ASexternalRoutes : List RadeepRoutingTableEntry
  deriving DecidableEq, Repr

/-- The method `RadeepGlobalRouting::AddHostRouteTo (dest, nextHop, interface)`. -/
def RadeepGlobalRouting.AddHostRouteTo (g : RadeepGlobalRouting) (dest nextHop interface : Nat) :
    RadeepGlobalRouting :=
  { g with m_hostRoutes := g.m_hostRoutes ++
      [RadeepRoutingTableEntry.CreateHostRouteTo dest nextHop interface] }

/-- The method `RadeepGlobalRouting::AddNetworkRouteTo (network, networkMask, nextHop,
interface)`. -/
def RadeepGlobalRouting.AddNetworkRouteTo (g : RadeepGlobalRouting) (network networkMask nextHop
    interface : Nat) : RadeepGlobalRouting :=
  { g with m_networkRoutes := g.m_networkRoutes ++
      [RadeepRoutingTableEntry.CreateNetworkRouteTo network networkMask nextHop interface] }

/-- The method `RadeepGlobalRouting::AddASExternalRouteTo (network, networkMask, nextHop,
interface)`. -/
def RadeepGlobalRouting.AddASExternalRouteTo (g : RadeepGlobalRouting) (network networkMask
    nextHop interface : Nat) : RadeepGlobalRouting :=
  { g with m_ASexternalRoutes := g.m_ASexternalRoutes ++
      [RadeepRoutingTableEntry.CreateNetworkRouteTo network networkMask nextHop interface] }

/-- What `LookupGlobal` asks of the owning `Radeep` object (an external collaborator): the
device of an interface and the local address `GetAddress (interface, index).GetLocal ()`. -/
structure RadeepStack where
  GetNetDevice : Nat → Nat
  GetAddressLocal : Nat → Nat → Nat

/-- The loop of `LookupGlobal` over `m_hostRoutes`, appending to `allRoutes`. -/
def hostRoutesLoop (radeep : RadeepStack) (dest : Nat) (oif : Option Nat) :
    List RadeepRoutingTableEntry → List RadeepRoutingTableEntry →
    Except Fault (List RadeepRoutingTableEntry)
  | [], allRoutes => .ok allRoutes
  | i :: rest, allRoutes =>
    if !i.IsHost then .error Fault.assertion
    else if i.GetDest == dest then
      if oif.isSome && oif != some (radeep.GetNetDevice i.GetInterface) then
        hostRoutesLoop radeep dest oif rest allRoutes
      else hostRoutesLoop radeep dest oif rest (allRoutes ++ [i])
    else hostRoutesLoop radeep dest oif rest allRoutes

/-- The loop of `LookupGlobal` over `m_networkRoutes`, appending to `allRoutes`. -/
def networkRoutesLoop (radeep : RadeepStack) (dest : Nat) (oif : Option Nat) :
    List RadeepRoutingTableEntry → List RadeepRoutingTableEntry → List RadeepRoutingTableEntry
  | [], allRoutes => allRoutes
  | j :: rest, allRoutes =>
    let mask := j.GetDestNetworkMask
    let entry := j.GetDestNetwork
    if IsMatch mask dest entry then
      if oif.isSome && oif != some (radeep.GetNetDevice j.GetInterface) then
        networkRoutesLoop radeep dest oif rest allRoutes
      else networkRoutesLoop radeep dest oif rest (allRoutes ++ [j])
    else networkRoutesLoop radeep dest oif rest allRoutes

/-- The loop of `LookupGlobal` over `m_ASexternalRoutes`: it stops at the first entry it
appends. -/
def externalRoutesLoop (radeep : RadeepStack) (dest : Nat) (oif : Option Nat) :
    List RadeepRoutingTableEntry → List RadeepRoutingTableEntry → List RadeepRoutingTableEntry
  | [], allRoutes => allRoutes
  | k :: rest, allRoutes =>
    let mask := k.GetDestNetworkMask
    let entry := k.GetDestNetwork
    if IsMatch mask dest entry then
      if oif.isSome && oif != some (radeep.GetNetDevice k.GetInterface) then
        externalRoutesLoop radeep dest oif rest allRoutes
      else allRoutes ++ [k]
    else externalRoutesLoop radeep dest oif rest allRoutes

/-- The route `LookupGlobal` creates from the selected entry. -/
def globalRouteOfEntry (radeep : RadeepStack) (route : RadeepRoutingTableEntry) : RadeepRoute :=
  let interfaceIdx := route.GetInterface
  { m_dest := route.GetDest,
    m_source := radeep.GetAddressLocal route.GetInterface 0,
    m_gateway := route.GetGateway,
    m_outputDevice := radeep.GetNetDevice interfaceIdx }

/-- The method `RadeepGlobalRouting::LookupGlobal (dest, oif)`; `GetInteger` is the random
variable `m_rand->GetInteger (min, max)`, and `none` in the result is the null route. -/
def LookupGlobal (g : RadeepGlobalRouting) (radeep : RadeepStack) (GetInteger : Nat → Nat → Nat)
    (dest : Nat) (oif : Option Nat) : Except Fault (Option RadeepRoute) :=
  match hostRoutesLoop radeep dest oif g.m_hostRoutes [] with
  | .error e => .error e
  | .ok allRoutes =>
    let allRoutes :=
      if allRoutes.length == 0 then networkRoutesLoop radeep dest oif g.m_networkRoutes allRoutes
      else allRoutes
    let allRoutes :=
      if allRoutes.length == 0 then
        externalRoutesLoop radeep dest oif g.m_ASexternalRoutes allRoutes
      else allRoutes
    if allRoutes.length > 0 then
      let selectIndex :=
        if g.m_randomEcmpRouting then
          GetInteger 0 ((allRoutes.length + 4294967296 - 1) % 4294967296) % 4294967296
        else 0
      match allRoutes[selectIndex]? with
      | none => .error Fault.abort
      | some route => .ok (some (globalRouteOfEntry radeep route))
    else .ok none

/-- A stack whose interface `k` is device `k` with local address 10.0.0.1. -/
def exampleStack : RadeepStack :=
  { GetNetDevice := fun k => k, GetAddressLocal := fun _ _ => 0x0a000001 }

/-- Global routes: hosts 10.0.0.5 (interface 1) and 10.0.0.5 again (interface 2), networks
10.0.0.0/24 (interface 3) and 10.0.0.0/16 (interface 4), AS-external 0.0.0.0/0
(interface 5). -/
def exampleGlobal : RadeepGlobalRouting :=
  (((((RadeepGlobalRouting.mk false [] [] []).AddHostRouteTo 0x0a000005 0 1).AddHostRouteTo
    0x0a000005 0 2).AddNetworkRouteTo 0x0a000000 0xffffff00 0 3).AddNetworkRouteTo
    0x0a000000 0xffff0000 0 4).AddASExternalRouteTo 0 0 0 5

/-! ## List routing (Radeep-list-routing.cc) -/

/-- The enumeration `Socket::SocketErrno` of the socket library (an external
collaborator). -/
inductive SocketErrno where
  | ERROR_NOTERROR
  | ERROR_ISCONN
  | ERROR_NOTCONN
  | ERROR_MSGSIZE
  | ERROR_AGAIN
  | ERROR_SHUTDOWN
  | ERROR_OPNOTSUPP
  | ERROR_AFNOSUPPORT
  | ERROR_INVAL
  | ERROR_BADF
  | ERROR_NOROUTETOHOST
  | ERROR_NODEV
  | ERROR_ADDRNOTAVAIL
  | ERROR_ADDRINUSE
  | SOCKET_ERRNO_LAST
  deriving DecidableEq, Repr

/-- The comparison `RadeepListRouting::Compare` on (priority, protocol) entries. -/
def Compare {σ : Type} (a b : Int × σ) : Bool := a.1 > b.1

/-- Insert `x`, which stood before every element of the list, behind the elements that
`comp` orders strictly before it. -/
def stableInsert {α : Type} (comp : α → α → Bool) (x : α) : List α → List α
  | [] => [x]
  | y :: ys => if comp y x then y :: stableInsert comp x ys else x :: y :: ys

/-- The operation `std::list::sort (comp)` of the C++ standard library (an external
collaborator): a stable sort, elements that `comp` does not order keep their relative
order. -/
def listSort {α : Type} (comp : α → α → Bool) : List α → List α
  | [] => []
  | x :: xs => stableInsert comp x (listSort comp xs)

/-- The list update of `RadeepListRouting::AddRoutingProtocol`: `push_back`, then `sort`. -/
def AddRoutingProtocol {σ : Type} (m_routingProtocols : List (Int × σ)) (routingProtocol : σ)
    (priority : Int) : List (Int × σ) :=
  listSort Compare (m_routingProtocols ++ [(priority, routingProtocol)])

/-- The chain after a sequence of `AddRoutingProtocol` calls, given as (priority, protocol)
pairs in call order, on the chain `init`. -/
def addRoutingProtocols {σ : Type} (init : List (Int × σ)) (calls : List (Int × σ)) :
    List (Int × σ) :=
  calls.foldl (fun chain c => AddRoutingProtocol chain c.2 c.1) init

/-- The `for` loop of `GetRoutingProtocol`, `i` being the `uint32_t` counter: the protocol
returned (`none` is the null pointer) and the value left in `priority`. -/
def getRoutingProtocolLoop {σ : Type} (index : Nat) (priority : Int) :
    List (Int × σ) → Nat → Option σ × Int
  | [], _ => (none, priority)
  | rproto :: rest, i =>
    if i == index then (some rproto.2, rproto.1)
    else getRoutingProtocolLoop index priority rest ((i + 1) % 4294967296)

/-- The method `RadeepListRouting::GetRoutingProtocol (index, priority)`. -/
def GetRoutingProtocol {σ : Type} (m_routingProtocols : List (Int × σ)) (index : Nat)
    (priority : Int) : Except Fault (Option σ × Int) :=
  if index > m_routingProtocols.length then .error Fault.fatal
  else .ok (getRoutingProtocolLoop index priority m_routingProtocols 0)

/-- A routing strategy as the chain sees it (`RadeepRoutingProtocol`, an abstract class):
`RouteOutput` gives the route, or none, and the value it leaves in `sockerr`; `RouteInput`
is told whether the local-delivery callback it receives is the null callback and gives its
return value. -/
structure RadeepRoutingProtocol where
  RouteOutput : List Nat → RadeepHeader → Option Nat → Option RadeepRoute × SocketErrno
  RouteInput : List Nat → RadeepHeader → Nat → Bool → Bool

/-- What `RouteInput` of the chain asks of the owning `Radeep` object (an external
collaborator); `GetInterfaceForDevice` is negative for an unknown device. -/
structure RadeepEngine where
  GetInterfaceForDevice : Nat → Int
  IsDestinationAddress : Nat → Nat → Bool
  IsForwarding : Nat → Bool

/-- The class `RadeepListRouting`: the chain and the owning object, `none` while unset. -/
structure RadeepListRouting where
  m_routingProtocols : List (Int × RadeepRoutingProtocol)
  m_radeep : Option RadeepEngine

/-- A call the chain makes: to the strategy at a position of the chain, or to one of the
callbacks it was given. -/
inductive RoutingCall where
  | RouteOutput (position : Nat)
  | RouteInput (position : Nat) (lcbIsNull : Bool)
  | lcb (p : List Nat) (header : RadeepHeader) (iif : Nat)
  | ecb (p : List Nat) (header : RadeepHeader) (sockErrno : SocketErrno)
  deriving DecidableEq, Repr

/-- The `for` loop of `RadeepListRouting::RouteOutput` from position `k` of the chain: the
route returned, the value left in `sockerr`, and the calls made. -/
def routeOutputLoop (p : List Nat) (header : RadeepHeader) (oif : Option Nat) :
    List (Int × RadeepRoutingProtocol) → Nat → Option RadeepRoute × SocketErrno × List RoutingCall
  | [], _ => (none, SocketErrno.ERROR_NOROUTETOHOST, [])
  | i :: rest, k =>
    match (i.2.RouteOutput p header oif).1 with
    | some route => (some route, SocketErrno.ERROR_NOTERROR, [RoutingCall.RouteOutput k])
    | none =>
      let r := routeOutputLoop p header oif rest (k + 1)
      (r.1, r.2.1, RoutingCall.RouteOutput k :: r.2.2)

/-- The method `RadeepListRouting::RouteOutput`. -/
def RadeepListRouting.RouteOutput (l : RadeepListRouting) (p : List Nat) (header : RadeepHeader)
    (oif : Option Nat) : Option RadeepRoute × SocketErrno × List RoutingCall :=
  routeOutputLoop p header oif l.m_routingProtocols 0

/-- The `for` loop of `RadeepListRouting::RouteInput` from position `k` of the chain, with
the `return retVal` that follows it: the value returned and the calls made. -/
def routeInputLoop (p : List Nat) (header : RadeepHeader) (idev : Nat)
    (downstreamLcbIsNull retVal : Bool) :
    List (Int × RadeepRoutingProtocol) → Nat → Bool × List RoutingCall
  | [], _ => (retVal, [])
  | rprotoIter :: rest, k =>
    if rprotoIter.2.RouteInput p header idev downstreamLcbIsNull then
      (true, [RoutingCall.RouteInput k downstreamLcbIsNull])
    else
      let r := routeInputLoop p header idev downstreamLcbIsNull retVal rest (k + 1)
      (r.1, RoutingCall.RouteInput k downstreamLcbIsNull :: r.2)

/-- The part of `RadeepListRouting::RouteInput` from the forwarding check on. -/
def routeInputForward (l : RadeepListRouting) (radeep : RadeepEngine) (p : List Nat)
    (header : RadeepHeader) (idev iif : Nat) (lcbIsNull retVal : Bool) :
    Bool × List RoutingCall :=
  if radeep.IsForwarding iif == false then
    (true, [RoutingCall.ecb p header SocketErrno.ERROR_NOROUTETOHOST])
  else
    let downstreamLcbIsNull := if retVal == true then true else lcbIsNull
    routeInputLoop p header idev downstreamLcbIsNull retVal l.m_routingProtocols 0

/-- The method `RadeepListRouting::RouteInput`: the value returned and the calls made, in
order.  `IsMulticast` is `RadeepAddress::IsMulticast`, `lcbIsNull` tells whether the
local-delivery callback handed in is the null callback, which cannot be invoked. -/
def RadeepListRouting.RouteInput (l : RadeepListRouting) (IsMulticast : Nat → Bool)
    (p : List Nat) (header : RadeepHeader) (idev : Nat) (lcbIsNull : Bool) :
    Except Fault (Bool × List RoutingCall) :=
  match l.m_radeep with
  | none => .error Fault.assertion
  | some radeep =>
    if radeep.GetInterfaceForDevice idev < 0 then .error Fault.assertion
    else
      let iif := (radeep.GetInterfaceForDevice idev).toNat % 4294967296
      let retVal := radeep.IsDestinationAddress header.GetDestination iif
      if retVal == true then
        if lcbIsNull then .error Fault.fatal
        else if IsMulticast header.GetDestination then
          let retVal := true
          let r := routeInputForward l radeep p header idev iif lcbIsNull retVal
          .ok (r.1, RoutingCall.lcb p header iif :: r.2)
        else .ok (true, [RoutingCall.lcb p header iif])
      else .ok (routeInputForward l radeep p header idev iif lcbIsNull retVal)

/-- The calls to the strategies at positions `k`, ..., `k + n - 1` of the chain. -/
def routeOutputCalls (k n : Nat) : List RoutingCall :=
  (List.range n).map (fun j => RoutingCall.RouteOutput (k + j))

/-- The calls to `RouteInput` of the strategies at positions `k`, ..., `k + n - 1`. -/
def routeInputCalls (lcbIsNull : Bool) (k n : Nat) : List RoutingCall :=
  (List.range n).map (fun j => RoutingCall.RouteInput (k + j) lcbIsNull)

/-- The call is an invocation of the error callback. -/
def RoutingCall.isEcb : RoutingCall → Bool
  | RoutingCall.ecb _ _ _ => true
  | _ => false

/-- The call is an invocation of the local-delivery callback. -/
def RoutingCall.isLcb : RoutingCall → Bool
  | RoutingCall.lcb _ _ _ => true
  | _ => false

/-- The call consults a strategy. -/
def RoutingCall.isStrategy : RoutingCall → Bool
  | RoutingCall.RouteOutput _ => true
  | RoutingCall.RouteInput _ _ => true
  | _ => false

/-- A strategy that finds nothing and accepts nothing. -/
def emptyStrategy : RadeepRoutingProtocol :=
  { RouteOutput := fun _ _ _ => (none, SocketErrno.ERROR_NOROUTETOHOST),
    RouteInput := fun _ _ _ _ => false }

/-- A strategy that routes everything through `dev` and accepts every packet. -/
def fixedStrategy (dev : Nat) : RadeepRoutingProtocol :=
  { RouteOutput := fun _ header _ =>
      (some { m_dest := header.GetDestination, m_source := 0x0a000001, m_gateway := 0,
              m_outputDevice := dev }, SocketErrno.ERROR_NOTERROR),
    RouteInput := fun _ _ _ _ => true }

/-- An owning object whose device `k` is interface `k`, with local address 10.0.0.1, member
of the group 224.0.1.1, forwarding on interface 1 only. -/
def exampleEngine : RadeepEngine :=
  { GetInterfaceForDevice := fun dev => dev,
    IsDestinationAddress := fun a _ => a == 0x0a000001 || a == 0xe0000101,
    IsForwarding := fun iif => iif == 1 }

/-- The multicast block 224.0.0.0/4, used as `IsMulticast` in the examples. -/
def exampleIsMulticast (a : Nat) : Bool := (a &&& 0xf0000000) == 0xe0000000

/-- A chain of three strategies: nothing, device 7, device 8. -/
def exampleChain : RadeepListRouting :=
  { m_routingProtocols :=
      addRoutingProtocols [] [(10, emptyStrategy), (5, fixedStrategy 7), (5, fixedStrategy 8)],
    m_radeep := some exampleEngine }

/-! ## Address generator (Radeep-address-generator.cc, `Reset`, `MaskToIndex`, `Init`,
`NextAddress`) -/

/-- The number of bits in an address. -/
def N_BITS : Nat := 32
/-- The 32-bit value with only its highest bit set. -/
def MOST_SIGNIFICANT_BIT : Nat := 0x80000000

/-- The state kept for one mask, `RadeepAddressGeneratorImpl::NetworkState`. -/
structure NetworkState where
  mask : Nat
  shift : Nat
  network : Nat
  addr : Nat
  addrMax : Nat
  deriving DecidableEq, Repr

/-- The class `RadeepAddressGeneratorImpl`: the array `m_netTable` (indices 0 to 31), the
registry `m_entries` and the test-mode flag. -/
structure RadeepAddressGeneratorImpl where
  m_netTable : Nat → NetworkState
  m_entries : List Entry
  m_test : Bool

/-- The `for` loop of `Reset`, with `n` iterations left, `~x` on 32 bits being
`4294967295 - x`. -/
def resetLoop : Nat → Nat → Nat → (Nat → NetworkState) → Nat → NetworkState
  | 0, _, _, t => t
  | n + 1, i, mask, t =>
    let e : NetworkState :=
      { mask := mask, network := 1, addr := 1, addrMax := 4294967295 - mask,
        shift := N_BITS - i }
    resetLoop n (i + 1) ((mask >>> 1) ||| MOST_SIGNIFICANT_BIT) (Function.update t i e)

/-- The method `RadeepAddressGeneratorImpl::Reset`. -/
def RadeepAddressGeneratorImpl.Reset (g : RadeepAddressGeneratorImpl) :
    RadeepAddressGeneratorImpl :=
  let mask := 0
  { m_netTable := resetLoop N_BITS 0 mask g.m_netTable, m_entries := [], m_test := false }

/-- The constructor `RadeepAddressGeneratorImpl::RadeepAddressGeneratorImpl ()`. -/
def RadeepAddressGeneratorImpl.new : RadeepAddressGeneratorImpl :=
  RadeepAddressGeneratorImpl.Reset
    { m_netTable := fun _ => ⟨0, 0, 0, 0, 0⟩, m_entries := [], m_test := false }

/-- The method `RadeepAddressGeneratorImpl::TestMode`. -/
def RadeepAddressGeneratorImpl.TestMode (g : RadeepAddressGeneratorImpl) :
    RadeepAddressGeneratorImpl :=
  { g with m_test := true }

/-- The `for` loop of `MaskToIndex`, with `n` iterations left; running off its end is the
assertion after the loop. -/
def maskToIndexLoop : Nat → Nat → Nat → Except Fault Nat
  | 0, _, _ => .error Fault.assertion
  | n + 1, i, maskBits =>
    if maskBits &&& 1 != 0 then
      let index := N_BITS - i
      if index > 0 && index < N_BITS then .ok index else .error Fault.abort
    else maskToIndexLoop n (i + 1) (maskBits >>> 1)

/-- The method `RadeepAddressGeneratorImpl::MaskToIndex`. -/
def MaskToIndex (mask : Nat) : Except Fault Nat :=
  let maskBits := mask % 4294967296
  maskToIndexLoop N_BITS 0 maskBits

/-- The method `RadeepAddressGeneratorImpl::Init (net, mask, addr)`. -/
def RadeepAddressGeneratorImpl.Init (g : RadeepAddressGeneratorImpl) (net mask addr : Nat) :
    Except Fault RadeepAddressGeneratorImpl :=
  let maskBits := mask % 4294967296
  let netBits := net % 4294967296
  let addrBits := addr % 4294967296
  if (netBits &&& (4294967295 - maskBits)) != 0 then .error Fault.abort
  else if (addrBits &&& maskBits) != 0 then .error Fault.abort
  else
    match MaskToIndex mask with
    | .error e => .error e
    | .ok index =>
      let st := g.m_netTable index
      let st := { st with network := netBits >>> st.shift }
      if !(addrBits ≤ st.addrMax) then .error Fault.abort
      else .ok { g with m_netTable := Function.update g.m_netTable index { st with addr := addrBits } }

/-- The method `RadeepAddressGeneratorImpl::NextAddress (mask)`: the address returned and the
new state.  The value `AddAllocated` returns is not looked at. -/
def RadeepAddressGeneratorImpl.NextAddress (g : RadeepAddressGeneratorImpl) (mask : Nat) :
    Except Fault (Nat × RadeepAddressGeneratorImpl) :=
  match MaskToIndex mask with
  | .error e => .error e
  | .ok index =>
    let st := g.m_netTable index
    if !(st.addr ≤ st.addrMax) then .error Fault.abort
    else
      let addr := ((st.network <<< st.shift) % 4294967296) ||| st.addr
      let m_netTable :=
        Function.update g.m_netTable index { st with addr := (st.addr + 1) % 4294967296 }
      match AddAllocated g.m_test g.m_entries addr with
      | .error e => .error e
      | .ok r => .ok (addr, { g with m_netTable := m_netTable, m_entries := r.2 })

/-- The addresses returned by `n` consecutive calls `NextAddress (mask)`, and the state after
them. -/
def nextAddressCalls (mask : Nat) :
    Nat → RadeepAddressGeneratorImpl → Except Fault (List Nat × RadeepAddressGeneratorImpl)
  | 0, g => .ok ([], g)
  | n + 1, g =>
    match g.NextAddress mask with
    | .error e => .error e
    | .ok (addr, g1) =>
      match nextAddressCalls mask n g1 with
      | .error e => .error e
      | .ok (rest, g2) => .ok (addr :: rest, g2)

/-- The shift and the greatest host number of every table entry are as `Reset` sets them. -/
def tableOk (t : Nat → NetworkState) : Prop :=
  ∀ i, i < 32 → (t i).shift = 32 - i ∧ (t i).addrMax = 4294967295 - prefixMask i

/-- The state of the generator while it hands out the hosts of `net` under the mask of
length `len`, the next host number being `c`: no address still to come is allocated. -/
def issuing (len net c : Nat) (g : RadeepAddressGeneratorImpl) : Prop :=
  (g.m_netTable len).shift = 32 - len ∧ (g.m_netTable len).addrMax = 2 ^ (32 - len) - 1 ∧
  (g.m_netTable len).network = net / 2 ^ (32 - len) ∧ (g.m_netTable len).addr = c ∧
  rangesAbove 0 g.m_entries ∧
  ∀ x, c ≤ x → x ≤ 2 ^ (32 - len) - 1 → ¬ covered g.m_entries (net ||| x)

/-! ## Address generator: networks and registry queries (Radeep-address-generator.cc) -/

/-- The method `RadeepAddressGeneratorImpl::GetNetwork (mask)`. -/
def RadeepAddressGeneratorImpl.GetNetwork (g : RadeepAddressGeneratorImpl) (mask : Nat) :
    Except Fault Nat :=
  match MaskToIndex mask with
  | .error e => .error e
  | .ok index =>
    .ok (((g.m_netTable index).network <<< (g.m_netTable index).shift) % 4294967296)

/-- The method `RadeepAddressGeneratorImpl::NextNetwork (mask)`: the address returned and the
new state. -/
def RadeepAddressGeneratorImpl.NextNetwork (g : RadeepAddressGeneratorImpl) (mask : Nat) :
    Except Fault (Nat × RadeepAddressGeneratorImpl) :=
  match MaskToIndex mask with
  | .error e => .error e
  | .ok index =>
    let st := g.m_netTable index
    let st := { st with network := (st.network + 1) % 4294967296 }
    .ok ((st.network <<< st.shift) % 4294967296,
      { g with m_netTable := Function.update g.m_netTable index st })

/-- The method `RadeepAddressGeneratorImpl::GetAddress (mask)`. -/
def RadeepAddressGeneratorImpl.GetAddress (g : RadeepAddressGeneratorImpl) (mask : Nat) :
    Except Fault Nat :=
  match MaskToIndex mask with
  | .error e => .error e
  | .ok index =>
    .ok ((((g.m_netTable index).network <<< (g.m_netTable index).shift) % 4294967296) |||
      (g.m_netTable index).addr)

/-- The `for` loop of `IsAddressAllocated` with the `return true` that follows it. -/
def isAddressAllocatedLoop (addr : Nat) : List Entry → Bool
  | [] => true
  | i :: rest =>
    if addr ≥ i.addrLow && addr ≤ i.addrHigh then false
    else isAddressAllocatedLoop addr rest

/-- The method `RadeepAddressGeneratorImpl::IsAddressAllocated`. -/
def IsAddressAllocated (m_entries : List Entry) (address : Nat) : Except Fault Bool :=
  let addr := address
  if addr == 0 then .error Fault.abort
  else .ok (isAddressAllocatedLoop addr m_entries)

/-- Modelled from the spec: `RadeepAddress::CombineMask` (Radeep-address.h is not among the
sources): the address masked by the mask. -/
def CombineMask (address mask : Nat) : Nat := address &&& mask

/-- The `for` loop of `IsNetworkAllocated` with the `return true` that follows it. -/
def isNetworkAllocatedLoop (address mask : Nat) : List Entry → Bool
  | [] => true
  | i :: rest =>
    let low := i.addrLow
    let high := i.addrHigh
    if address == CombineMask low mask || address == CombineMask high mask then false
    else isNetworkAllocatedLoop address mask rest

/-- The method `RadeepAddressGeneratorImpl::IsNetworkAllocated`. -/
def IsNetworkAllocated (m_entries : List Entry) (address mask : Nat) : Except Fault Bool :=
  if !(address == CombineMask address mask) then .error Fault.abort
  else .ok (isNetworkAllocatedLoop address mask m_entries)

/-- The registry states reachable from the empty registry by `AddAllocated` calls that
return, in test mode or not. -/
inductive Registry : List Entry → Prop
  | empty : Registry []
  | call (t : Bool) (s s1 : List Entry) (a : Nat) (r : Bool) :
      Registry s → a < 4294967296 → AddAllocated t s a = .ok (r, s1) → Registry s1

/-- The generator as constructed, after `Init (10.1.1.0, /24, 0.0.0.1)`: the state, if the
call returns. -/
def initializedGenerator : Except Fault RadeepAddressGeneratorImpl :=
  RadeepAddressGeneratorImpl.new.Init 0x0a010100 0xffffff00 1

/-! ## Header: DSCP and ECN (Radeep-header.cc) -/

/-- The method `RadeepHeader::SetTos`. -/
def RadeepHeader.SetTos (h : RadeepHeader) (tos : Nat) : RadeepHeader :=
  { h with m_tos := tos % 256 }

/-- The method `RadeepHeader::SetDscp`; `m_tos` is a bit-field of 8 bits. -/
def RadeepHeader.SetDscp (h : RadeepHeader) (dscp : Nat) : RadeepHeader :=
  let m_tos := (h.m_tos &&& 0x3) % 256
  let m_tos := (m_tos ||| (dscp <<< 2)) % 256
  { h with m_tos := m_tos }

/-- The method `RadeepHeader::SetEcn`. -/
def RadeepHeader.SetEcn (h : RadeepHeader) (ecn : Nat) : RadeepHeader :=
  let m_tos := (h.m_tos &&& 0xFC) % 256
  let m_tos := (m_tos ||| ecn) % 256
  { h with m_tos := m_tos }

/-- The method `RadeepHeader::GetDscp`. -/
def RadeepHeader.GetDscp (h : RadeepHeader) : Nat := (h.m_tos &&& 0xFC) >>> 2

/-- The method `RadeepHeader::GetEcn`. -/
def RadeepHeader.GetEcn (h : RadeepHeader) : Nat := h.m_tos &&& 0x3

/-! ## Static routing: access by index (Radeep-static-routing.cc) -/

/-- The `for` loop of `GetRoute` with the `NS_ASSERT (false)` that follows it, `tmp` being
the `uint32_t` counter. -/
def getRouteLoop (index : Nat) : NetworkRoutes → Nat → Except Fault RadeepRoutingTableEntry
  | [], _ => .error Fault.assertion
  | j :: rest, tmp =>
    if tmp == index then .ok j.1 else getRouteLoop index rest ((tmp + 1) % 4294967296)

/-- The method `RadeepStaticRouting::GetRoute (index)`. -/
def GetRoute (routes : NetworkRoutes) (index : Nat) : Except Fault RadeepRoutingTableEntry :=
  let tmp := 0
  getRouteLoop index routes tmp

/-- The `for` loop of `GetMetric` with the `NS_ASSERT (false)` that follows it. -/
def getMetricLoop (index : Nat) : NetworkRoutes → Nat → Except Fault Nat
  | [], _ => .error Fault.assertion
  | j :: rest, tmp =>
    if tmp == index then .ok j.2 else getMetricLoop index rest ((tmp + 1) % 4294967296)

/-- The method `RadeepStaticRouting::GetMetric (index)`. -/
def GetMetric (routes : NetworkRoutes) (index : Nat) : Except Fault Nat :=
  let tmp := 0
  getMetricLoop index routes tmp

/-! ## Forwarding (radeep-l3-protocol.cc, `RadeepForward`) -/

/-- The method `RadeepHeader::SetTtl`; the argument is a `uint8_t`. -/
def RadeepHeader.SetTtl (h : RadeepHeader) (ttl : Nat) : RadeepHeader :=
  { h with m_ttl := ttl % 256 }

/-- What `RadeepForward` tells its collaborators: the ICMP object, the drop trace, the
forwarding trace and `SendRealOut`. -/
inductive ForwardAction where
  | SendTimeExceededTtl (radeepHeader : RadeepHeader) (packet : List Nat)
  | dropTrace (header : RadeepHeader) (packet : List Nat) (reason : DropReason)
      (interface : Int)
  | unicastForwardTrace (radeepHeader : RadeepHeader) (packet : List Nat) (interface : Int)
  | SendRealOut (rtentry : RadeepRoute) (packet : List Nat) (radeepHeader : RadeepHeader)
  deriving DecidableEq, Repr

/-- The method `RadeepL3Protocol::RadeepForward`: the calls made, in order.  The argument of
`SetTtl` is `GetTtl () - 1` converted to `uint8_t`.  `GetInterfaceForDevice` belongs to the
protocol object, `IsBroadcast` and `IsMulticast` to `RadeepAddress`, and `PROT_NUMBER` is
`Icmpv4L4Protocol::PROT_NUMBER`.  Packet tags (the priority tag) are not part of the byte
model of a packet. -/
def RadeepForward (GetInterfaceForDevice : Nat → Int) (IsBroadcast IsMulticast : Nat → Bool)
    (PROT_NUMBER : Nat) (rtentry : RadeepRoute) (p : List Nat) (header : RadeepHeader) :
    List ForwardAction :=
  let radeepHeader := header
  let packet := p
  let interface := GetInterfaceForDevice rtentry.m_outputDevice
  let radeepHeader := radeepHeader.SetTtl (radeepHeader.GetTtl + 256 - 1)
  if radeepHeader.GetTtl == 0 then
    let icmp :=
      if radeepHeader.GetProtocol != PROT_NUMBER &&
          IsBroadcast radeepHeader.GetDestination == false &&
          IsMulticast radeepHeader.GetDestination == false then
        [ForwardAction.SendTimeExceededTtl radeepHeader packet]
      else []
    icmp ++ [ForwardAction.dropTrace header packet DropReason.DROP_TTL_EXPIRED interface]
  else
    [ForwardAction.unicastForwardTrace radeepHeader packet interface,
     ForwardAction.SendRealOut rtentry packet radeepHeader]

/-! ## Feeding fragments to the tables -/

/-- Hand the fragments to `ProcessFragment` one after another, all arriving on `iif`: the
tables at the end and, for every call, the packet it leaves in its reference argument and
the value it returns. -/
def processFragments (iif : Nat) :
    ReassemblyState → List RadeepPayloadHeaderPair →
    Except Fault (ReassemblyState × List (List Nat × Bool))
  | s, [] => .ok (s, [])
  | s, (p, h) :: rest =>
    match ProcessFragment s p h iif with
    | .error e => .error e
    | .ok (s1, packet, ret) =>
      match processFragments iif s1 rest with
      | .error e => .error e
      | .ok (s2, outs) => .ok (s2, (packet, ret) :: outs)

/-- What `ProcessFragment` hands to `AddFragment` from a fragment: the payload and the
fragment offset of its header. -/
def offsetTag (x : RadeepPayloadHeaderPair) : List Nat × Nat := (x.1, x.2.GetFragmentOffset)

/-! ## Examples used by the theorems on reassembly, allocation and lookup -/

/-- A buffered set in which the second fragment lies inside the first: 24 bytes at offset 0
and 8 bytes at offset 8, more to come. -/
def containedFragments : Fragments :=
  (Fragments.new.AddFragment (List.replicate 24 1) 0 true).AddFragment (List.replicate 8 2) 8
    true

/-- A generator in test mode in which 10.1.1.1 was allocated by hand and which was then
initialised to hand out 10.1.1.1 first: the state, if the calls return. -/
def collidingGenerator : Except Fault RadeepAddressGeneratorImpl :=
  match AddAllocated true [] 0x0a010101 with
  | .error e => .error e
  | .ok r =>
    ({ RadeepAddressGeneratorImpl.new.TestMode with m_entries := r.2 } :
      RadeepAddressGeneratorImpl).Init 0x0a010100 0xffffff00 1

/-- A table with one host route, to the link-local multicast address 224.0.0.5. -/
def multicastHostRoutes : NetworkRoutes :=
  AddNetworkRouteTo [] 0xe0000005 0xffffffff 0 1 0

/-! # Theorems -/

/-! ## Arithmetic of the byte codec -/

theorem and_255_eq_mod (x : Nat) : x &&& 0xff = x % 256 :=
  Nat.and_pow_two_sub_one_eq_mod x 8

theorem and_31_eq_mod (x : Nat) : x &&& 0x1f = x % 32 :=
  Nat.and_pow_two_sub_one_eq_mod x 5

theorem and_15_eq_mod (x : Nat) : x &&& 0x0f = x % 16 :=
  Nat.and_pow_two_sub_one_eq_mod x 4

theorem and_7_eq_mod (x : Nat) : x &&& 0x7 = x % 8 :=
  Nat.and_pow_two_sub_one_eq_mod x 3

theorem shl8_or (a b : Nat) (hb : b < 256) : (a <<< 8) ||| b = a * 256 + b := by
  rw [Nat.shiftLeft_eq, Nat.mul_comm, ← Nat.mul_add_lt_is_or (by simpa using hb)]

theorem exists_twenty_bytes (l : List Nat) (h : 20 ≤ l.length) :
    ∃ b0 b1 b2 b3 b4 b5 b6 b7 b8 b9 b10 b11 b12 b13 b14 b15 b16 b17 b18 b19 rest,
      l = b0 :: b1 :: b2 :: b3 :: b4 :: b5 :: b6 :: b7 :: b8 :: b9 :: b10 :: b11 :: b12 ::
        b13 :: b14 :: b15 :: b16 :: b17 :: b18 :: b19 :: rest := by
  obtain _ | ⟨b0, l⟩ := l
  · simp at h
  obtain _ | ⟨b1, l⟩ := l
  · simp at h
  obtain _ | ⟨b2, l⟩ := l
  · simp at h
  obtain _ | ⟨b3, l⟩ := l
  · simp at h
  obtain _ | ⟨b4, l⟩ := l
  · simp at h
  obtain _ | ⟨b5, l⟩ := l
  · simp at h
  obtain _ | ⟨b6, l⟩ := l
  · simp at h
  obtain _ | ⟨b7, l⟩ := l
  · simp at h
  obtain _ | ⟨b8, l⟩ := l
  · simp at h
  obtain _ | ⟨b9, l⟩ := l
  · simp at h
  obtain _ | ⟨b10, l⟩ := l
  · simp at h
  obtain _ | ⟨b11, l⟩ := l
  · simp at h
  obtain _ | ⟨b12, l⟩ := l
  · simp at h
  obtain _ | ⟨b13, l⟩ := l
  · simp at h
  obtain _ | ⟨b14, l⟩ := l
  · simp at h
  obtain _ | ⟨b15, l⟩ := l
  · simp at h
  obtain _ | ⟨b16, l⟩ := l
  · simp at h
  obtain _ | ⟨b17, l⟩ := l
  · simp at h
  obtain _ | ⟨b18, l⟩ := l
  · simp at h
  obtain _ | ⟨b19, l⟩ := l
  · simp at h
  exact ⟨b0, b1, b2, b3, b4, b5, b6, b7, b8, b9, b10, b11, b12, b13, b14, b15, b16, b17, b18,
    b19, l, rfl⟩

theorem flag_bits : ∀ x, x < 32 → ∀ f, f < 8 →
    (if f &&& 2 = 0 then (if f &&& 1 = 0 then x % 256 else x % 256 ||| 64)
      else (if f &&& 1 = 0 then x % 256 else x % 256 ||| 64) ||| 32) % 256 =
    ((if (f &&& 1 != 0) = true then 64 else 0) |||
      if (!(f &&& 2 != 0)) = true then 0 else 32) ||| x := by
  decide

theorem SerializeFields_eq (h : RadeepHeader) (buf : List Nat)
    (hr : h.InRange) (hlen : 20 ≤ buf.length) :
    h.SerializeFields ⟨buf, 0⟩ = ⟨wireLayout h 0 0 ++ buf.drop 20, 20⟩ := by
  obtain ⟨b0, b1, b2, b3, b4, b5, b6, b7, b8, b9, b10, b11, b12, b13, b14, b15, b16, b17, b18,
    b19, rest, rfl⟩ := exists_twenty_bytes buf hlen
  obtain ⟨h1, h2, h3, h4, h5, h6, h7, h8, h9, h10, h11⟩ := hr
  simp [RadeepHeader.SerializeFields, Iterator.WriteU8, Iterator.WriteHtonU16,
    Iterator.WriteHtonU32, wireLayout]
  have hx : (h.m_fragmentOffset / 8) >>> 8 &&& 31 < 32 := by
    rw [and_31_eq_mod]; omega
  have hfl := flag_bits _ hx _ h6
  simp only [and_255_eq_mod, Nat.shiftRight_eq_div_pow, RadeepHeader.IsDontFragment,
    RadeepHeader.IsLastFragment, MORE_FRAGMENTS, DONT_FRAGMENT] at hfl ⊢
  refine ⟨h3, ?_, ?_, ?_, ?_, hfl, ?_, h4, h5, ?_, ?_, ?_, ?_, ?_, ?_, ?_, ?_⟩ <;> omega

theorem checksumSlot_lt (cksum : List Nat → Nat) (h : RadeepHeader) :
    (checksumSlot cksum h).1 < 256 ∧ (checksumSlot cksum h).2 < 256 := by
  unfold checksumSlot
  split <;> simp; omega

theorem Serialize_buf (cksum : List Nat → Nat) (h : RadeepHeader) (buf : List Nat)
    (hr : h.InRange) (hlen : 20 ≤ buf.length) :
    (h.Serialize cksum ⟨buf, 0⟩).buf =
      wireLayout h (checksumSlot cksum h).1 (checksumSlot cksum h).2 ++ buf.drop 20 := by
  unfold RadeepHeader.Serialize checksumSlot
  rw [SerializeFields_eq h buf hr hlen]
  cases hc : h.m_calcChecksum
  · simp
  · simp only [if_true]
    generalize hcd : cksum (wireLayout h 0 0) % 65536 = c
    have hin : Iterator.checksumInput ⟨wireLayout h 0 0 ++ buf.drop 20, 0⟩ 20 = wireLayout h 0 0 := by
      simp [Iterator.checksumInput, wireLayout]
    simp only [hin, hcd]
    simp [Iterator.WriteU16, Iterator.WriteU8, Iterator.Next, wireLayout,
      and_255_eq_mod, Nat.shiftRight_eq_div_pow]
    have : c < 65536 := by omega
    omega

theorem shl8_mod_or (x b m : Nat) (hx : x * 256 < m) (hb : b < 256) :
    (x <<< 8) % m ||| b = x * 256 + b := by
  have e : x <<< 8 = x * 256 := by rw [Nat.shiftLeft_eq]
  rw [e, Nat.mod_eq_of_lt hx, Nat.mul_comm]
  exact (@Nat.mul_add_lt_is_or 8 b hb x).symm

theorem shl3_eq (x : Nat) : x <<< 3 = x * 8 := by rw [Nat.shiftLeft_eq]

set_option maxRecDepth 20000 in
theorem flag_tests : ∀ y, y < 256 →
    ((if y &&& 32 = 0 then if y &&& 64 = 0 then 0 else 1
      else (if y &&& 64 = 0 then 0 else 1) ||| 2) &&& 1 != 0) = decide (y / 64 % 2 = 1) ∧
    (!((if y &&& 32 = 0 then if y &&& 64 = 0 then 0 else 1
      else (if y &&& 64 = 0 then 0 else 1) ||| 2) &&& 2 != 0)) = decide (y / 32 % 2 = 0) := by
  decide

/-- What `Deserialize` makes of twenty bytes whose version nibble is 4, in arithmetic form. -/
theorem Deserialize_twenty (cksum : List Nat → Nat) (h : RadeepHeader)
    (b0 b1 b2 b3 b4 b5 b6 b7 b8 b9 b10 b11 b12 b13 b14 b15 b16 b17 b18 b19 : Nat)
    (rest : List Nat) (hv : (b0 % 256) >>> 4 = 4) :
    match h.Deserialize cksum ⟨b0 :: b1 :: b2 :: b3 :: b4 :: b5 :: b6 :: b7 :: b8 :: b9 :: b10 :: b11 :: b12 :: b13 :: b14 :: b15 :: b16 :: b17 :: b18 :: b19 :: rest, 0⟩ with
    | .error _ => False
    | .ok (n, h1) =>
      n = 4 * (b0 % 16) ∧
      h1.m_headerSize = 4 * (b0 % 16) ∧
      h1.m_payloadSize = (b2 % 256 * 256 + b3 % 256 + 65536 - 4 * (b0 % 16)) % 65536 ∧
      h1.m_identification = b4 % 256 * 256 + b5 % 256 ∧
      h1.m_tos = b1 % 256 ∧ h1.m_ttl = b8 % 256 ∧ h1.m_protocol = b9 % 256 ∧
      h1.IsDontFragment = decide (b6 % 256 / 64 % 2 = 1) ∧
      h1.IsLastFragment = decide (b6 % 256 / 32 % 2 = 0) ∧
      h1.m_fragmentOffset = (b6 % 32 * 256 + b7 % 256) * 8 ∧
      h1.m_source = ((b12 % 256 * 256 + b13 % 256) * 256 + b14 % 256) * 256 + b15 % 256 ∧
      h1.m_destination = ((b16 % 256 * 256 + b17 % 256) * 256 + b18 % 256) * 256 + b19 % 256 ∧
      h1.m_calcChecksum = h.m_calcChecksum := by
  have hfl := flag_tests (b6 % 256) (by omega)
  have hhs : (b0 % 256 &&& 15) * 4 % 65536 = 4 * (b0 % 16) := by
    rw [and_15_eq_mod]; omega
  have hoff : ((b6 % 256 &&& 31) <<< 8 % 65536 ||| b7 % 256) <<< 3 % 65536
      = (b6 % 32 * 256 + b7 % 256) * 8 := by
    rw [and_31_eq_mod, shl8_mod_or _ _ _ (by omega) (by omega), shl3_eq]; omega
  have h16 : ∀ x y : Nat, (x % 256) <<< 8 % 65536 ||| y % 256 = x % 256 * 256 + y % 256 :=
    fun x y => shl8_mod_or _ _ _ (by omega) (by omega)
  have h32 : ∀ x y z w : Nat,
      (((x % 256) <<< 8 % 4294967296 ||| y % 256) <<< 8 % 4294967296 ||| z % 256) <<< 8
        % 4294967296 ||| w % 256
      = ((x % 256 * 256 + y % 256) * 256 + z % 256) * 256 + w % 256 := by
    intro x y z w
    rw [shl8_mod_or (x % 256) _ _ (by omega) (by omega),
      shl8_mod_or (x % 256 * 256 + y % 256) _ _ (by omega) (by omega),
      shl8_mod_or _ _ _ (by omega) (by omega)]
  simp [RadeepHeader.Deserialize, Iterator.ReadU8, bind, Except.bind, hv, pure,
      Except.pure, Iterator.ReadNtohU16, Iterator.ReadNtohU32, Iterator.ReadU16, Iterator.Prev,
      RadeepHeader.GetSerializedSize, hhs, hoff, h16, h32,
      RadeepHeader.IsDontFragment, RadeepHeader.IsLastFragment, DONT_FRAGMENT, MORE_FRAGMENTS]
  simp at hfl
  exact hfl

/-- The same fact with the resulting header named. -/
theorem Deserialize_twenty_ok (cksum : List Nat → Nat) (h : RadeepHeader)
    (b0 b1 b2 b3 b4 b5 b6 b7 b8 b9 b10 b11 b12 b13 b14 b15 b16 b17 b18 b19 : Nat)
    (rest : List Nat) (hv : (b0 % 256) >>> 4 = 4) :
    ∃ h1 : RadeepHeader,
      h.Deserialize cksum ⟨b0 :: b1 :: b2 :: b3 :: b4 :: b5 :: b6 :: b7 :: b8 :: b9 :: b10 :: b11 :: b12 :: b13 :: b14 :: b15 :: b16 :: b17 :: b18 :: b19 :: rest, 0⟩ = .ok (4 * (b0 % 16), h1) ∧
      h1.m_headerSize = 4 * (b0 % 16) ∧
      h1.m_payloadSize = (b2 % 256 * 256 + b3 % 256 + 65536 - 4 * (b0 % 16)) % 65536 ∧
      h1.m_identification = b4 % 256 * 256 + b5 % 256 ∧
      h1.m_tos = b1 % 256 ∧ h1.m_ttl = b8 % 256 ∧ h1.m_protocol = b9 % 256 ∧
      h1.IsDontFragment = decide (b6 % 256 / 64 % 2 = 1) ∧
      h1.IsLastFragment = decide (b6 % 256 / 32 % 2 = 0) ∧
      h1.m_fragmentOffset = (b6 % 32 * 256 + b7 % 256) * 8 ∧
      h1.m_source = ((b12 % 256 * 256 + b13 % 256) * 256 + b14 % 256) * 256 + b15 % 256 ∧
      h1.m_destination = ((b16 % 256 * 256 + b17 % 256) * 256 + b18 % 256) * 256 + b19 % 256 ∧
      h1.m_calcChecksum = h.m_calcChecksum := by
  have key := Deserialize_twenty cksum h b0 b1 b2 b3 b4 b5 b6 b7 b8 b9 b10 b11 b12 b13 b14 b15
    b16 b17 b18 b19 rest hv
  rcases hd : h.Deserialize cksum ⟨b0 :: b1 :: b2 :: b3 :: b4 :: b5 :: b6 :: b7 :: b8 :: b9 :: b10 :: b11 :: b12 :: b13 :: b14 :: b15 :: b16 :: b17 :: b18 :: b19 :: rest, 0⟩ with e | ⟨n, h1⟩
  · rw [hd] at key; exact key.elim
  · rw [hd] at key
    obtain ⟨rfl, key⟩ := key
    exact ⟨h1, rfl, key⟩

/-- C7: a buffer whose first byte has a version nibble other than 4 makes `Deserialize`
return 0 and leave the header exactly as it was. -/
theorem Deserialize_rejects_wrong_version (cksum : List Nat → Nat) (h : RadeepHeader)
    (start : Iterator) (b : Nat) (hb : start.buf.get? start.cur = some b)
    (hv : (b % 256) >>> 4 ≠ 4) :
    h.Deserialize cksum start = .ok (0, h) := by
  have hr : start.ReadU8 = .ok (b % 256, { start with cur := start.cur + 1 }) := by
    simp only [Iterator.ReadU8, hb]
  simp [RadeepHeader.Deserialize, hr, bind, Except.bind, hv, pure, Except.pure]

theorem Deserialize_rejects_wrong_version_witness :
    RadeepHeader.new.Deserialize (fun _ => 0) ⟨[0x65, 1, 2, 3], 0⟩ = .ok (0, RadeepHeader.new) :=
  Deserialize_rejects_wrong_version (fun _ => 0) RadeepHeader.new ⟨[0x65, 1, 2, 3], 0⟩ 0x65
    (by decide) (by decide)

/-- C8: for a buffer of at least twenty bytes whose version nibble is 4, with low nibble
`IHL` and total-length field `T` (bytes 2 and 3, big-endian), `Deserialize` returns `4 * IHL`,
the serialized size of the header becomes `4 * IHL` and its payload size becomes
`(T - 4 * IHL) mod 2^16`. -/
theorem Deserialize_header_length (cksum : List Nat → Nat) (h : RadeepHeader) (buf : List Nat)
    (hlen : 20 ≤ buf.length) (hv : (buf.getD 0 0 % 256) >>> 4 = 4) :
    ∃ h1 : RadeepHeader,
      h.Deserialize cksum ⟨buf, 0⟩ = .ok (4 * (buf.getD 0 0 % 16), h1) ∧
      h1.GetSerializedSize = 4 * (buf.getD 0 0 % 16) ∧
      (h1.GetPayloadSize : Int) =
        (((buf.getD 2 0 % 256 * 256 + buf.getD 3 0 % 256 : Nat) : Int)
          - 4 * ((buf.getD 0 0 % 16 : Nat) : Int)) % 65536 := by
  obtain ⟨b0, b1, b2, b3, b4, b5, b6, b7, b8, b9, b10, b11, b12, b13, b14, b15, b16, b17, b18,
    b19, rest, rfl⟩ := exists_twenty_bytes buf hlen
  simp only [List.getD_cons_zero, List.getD_cons_succ] at hv ⊢
  obtain ⟨h1, hd, k1, k2, -⟩ := Deserialize_twenty_ok cksum h b0 b1 b2 b3 b4 b5 b6 b7 b8 b9 b10
    b11 b12 b13 b14 b15 b16 b17 b18 b19 rest hv
  refine ⟨h1, hd, k1, ?_⟩
  simp only [RadeepHeader.GetPayloadSize, k2]
  omega

theorem Deserialize_header_length_witness :
    ∃ h1 : RadeepHeader,
      RadeepHeader.new.Deserialize (fun _ => 0)
        ⟨[0x46, 0, 0, 30, 0, 0, 0, 0, 0, 0, 0, 0, 0, 0, 0, 0, 0, 0, 0, 0], 0⟩ = .ok (24, h1) ∧
      h1.GetSerializedSize = 24 ∧ (h1.GetPayloadSize : Int) = ((30 : Nat) - 4 * (6 : Nat)) % 65536 :=
  Deserialize_header_length (fun _ => 0) RadeepHeader.new
    [0x46, 0, 0, 30, 0, 0, 0, 0, 0, 0, 0, 0, 0, 0, 0, 0, 0, 0, 0, 0] (by decide) (by decide)

theorem wire_flag_byte : ∀ x, x < 32 → ∀ d l : Bool,
    decide ((((if d = true then 64 else 0) ||| if l = true then 0 else 32) ||| x) % 256 / 64 % 2 = 1)
      = d ∧
    decide ((((if d = true then 64 else 0) ||| if l = true then 0 else 32) ||| x) % 256 / 32 % 2 = 0)
      = l ∧
    (((if d = true then 64 else 0) ||| if l = true then 0 else 32) ||| x) % 32 = x := by
  decide

theorem rt_payload (p : Nat) (hp : p < 65536) :
    ((p + 20) % 65536 / 256 % 256 * 256 + (p + 20) % 65536 % 256 % 256 + 65536 - 4 * (69 % 16))
      % 65536 = p := by
  omega

theorem rt_u16 (x : Nat) (hx : x < 65536) : x / 256 % 256 * 256 + x % 256 % 256 = x := by
  omega

theorem rt_u32 (x : Nat) (hx : x < 4294967296) :
    ((x / 16777216 % 256 * 256 + x / 65536 % 256 % 256) * 256 + x / 256 % 256 % 256) * 256
      + x % 256 % 256 = x := by
  omega

theorem rt_offset (o : Nat) (ho : o % 8 = 0) (hlt : o < 65536) :
    (o / 8 / 256 % 32 * 256 + o / 8 % 256 % 256) * 8 = o := by
  omega

/-- C1: serializing a header whose fragment offset is a multiple of 8 and deserializing the
bytes into a fresh header returns 20 and reproduces payload size, identification, TOS, TTL,
protocol, both fragmentation flags, fragment offset, source and destination. -/
theorem Deserialize_Serialize_roundtrip (cksum cksum1 : List Nat → Nat) (h : RadeepHeader)
    (buf : List Nat) (hr : h.InRange) (ho : h.m_fragmentOffset % 8 = 0)
    (hlen : 20 ≤ buf.length) :
    ∃ h1 : RadeepHeader,
      RadeepHeader.new.Deserialize cksum1 ⟨(h.Serialize cksum ⟨buf, 0⟩).buf, 0⟩ = .ok (20, h1) ∧
      h1.GetSerializedSize = 20 ∧
      h1.GetPayloadSize = h.GetPayloadSize ∧
      h1.GetIdentification = h.GetIdentification ∧
      h1.GetTos = h.GetTos ∧ h1.GetTtl = h.GetTtl ∧ h1.GetProtocol = h.GetProtocol ∧
      h1.IsDontFragment = h.IsDontFragment ∧ h1.IsLastFragment = h.IsLastFragment ∧
      h1.GetFragmentOffset = h.GetFragmentOffset ∧
      h1.GetSource = h.GetSource ∧ h1.GetDestination = h.GetDestination := by
  rw [Serialize_buf cksum h buf hr hlen]
  obtain ⟨hc0, hc1⟩ := checksumSlot_lt cksum h
  generalize (checksumSlot cksum h).1 = c0 at *
  generalize (checksumSlot cksum h).2 = c1 at *
  obtain ⟨h1, h2, h3, h4, h5, h6, h7, h8, h9, h10, h11⟩ := hr
  have hx : (h.m_fragmentOffset / 8) >>> 8 &&& 31 < 32 := by
    rw [and_31_eq_mod]; omega
  obtain ⟨f1, f2, f3⟩ := wire_flag_byte _ hx h.IsDontFragment h.IsLastFragment
  obtain ⟨g, hg, k1, k2, k3, k4, k5, k6, k7, k8, k9, k10, k11, -⟩ :=
    Deserialize_twenty_ok cksum1 RadeepHeader.new 0x45 h.m_tos
      ((h.m_payloadSize + 20) % 65536 / 256) ((h.m_payloadSize + 20) % 65536 % 256)
      (h.m_identification / 256) (h.m_identification % 256)
      ((if h.IsDontFragment then 0x40 else 0) ||| (if h.IsLastFragment then 0 else 0x20) |||
        (((h.m_fragmentOffset / 8) >>> 8) &&& 0x1f))
      (h.m_fragmentOffset / 8 &&& 0xff) h.m_ttl h.m_protocol c0 c1
      (h.m_source / 16777216) (h.m_source / 65536 % 256) (h.m_source / 256 % 256)
      (h.m_source % 256) (h.m_destination / 16777216) (h.m_destination / 65536 % 256)
      (h.m_destination / 256 % 256) (h.m_destination % 256) (buf.drop 20) (by decide)
  refine ⟨g, hg, k1, ?_, ?_, ?_, ?_, ?_, ?_, ?_, ?_, ?_, ?_⟩
  · rw [RadeepHeader.GetPayloadSize, k2]; exact rt_payload _ h1
  · rw [RadeepHeader.GetIdentification, k3]; exact rt_u16 _ h2
  · rw [RadeepHeader.GetTos, k4]; exact Nat.mod_eq_of_lt h3
  · rw [RadeepHeader.GetTtl, k5]; exact Nat.mod_eq_of_lt h4
  · rw [RadeepHeader.GetProtocol, k6]; exact Nat.mod_eq_of_lt h5
  · rw [k7]; exact f1
  · rw [k8]; exact f2
  · rw [RadeepHeader.GetFragmentOffset, k9, f3]
    simp only [and_255_eq_mod, and_31_eq_mod, Nat.shiftRight_eq_div_pow]
    exact rt_offset _ ho h7
  · rw [RadeepHeader.GetSource, k10]; exact rt_u32 _ h8
  · rw [RadeepHeader.GetDestination, k11]; exact rt_u32 _ h9

theorem Deserialize_Serialize_roundtrip_witness :
    ∃ h1 : RadeepHeader,
      RadeepHeader.new.Deserialize (fun _ => 0)
        ⟨(exampleHeader.Serialize (fun _ => 0) ⟨List.replicate 20 0, 0⟩).buf, 0⟩ = .ok (20, h1) ∧
      h1.GetPayloadSize = exampleHeader.GetPayloadSize ∧
      h1.GetDestination = exampleHeader.GetDestination := by
  obtain ⟨h1, a, -, b, -, -, -, -, -, -, -, -, c⟩ :=
    Deserialize_Serialize_roundtrip (fun _ => 0) (fun _ => 0) exampleHeader
      (List.replicate 20 0) (by decide) (by decide) (by decide)
  exact ⟨h1, a, b, c⟩

/-- C6: `Serialize` writes exactly the first 20 bytes of the buffer: 0x45, the TOS byte, the
total length (payload size + 20 modulo 2^16) and the identification big-endian, the flags
byte, the low byte of the offset in 8-byte units, TTL, protocol, the checksum slot (zero
when the checksum is not enabled), source and destination big-endian; the bytes after them
are left as they were. -/
theorem Serialize_wire_format (cksum : List Nat → Nat) (h : RadeepHeader) (buf : List Nat)
    (hr : h.InRange) (hlen : 20 ≤ buf.length) :
    ∃ c0 c1 : Nat,
      (h.Serialize cksum ⟨buf, 0⟩).buf =
        [0x45, h.GetTos,
         (h.GetPayloadSize + 20) % 65536 / 256, (h.GetPayloadSize + 20) % 65536 % 256,
         h.GetIdentification / 256, h.GetIdentification % 256,
         (if h.IsDontFragment then 0x40 else 0) ||| (if h.IsLastFragment then 0 else 0x20) |||
           (((h.GetFragmentOffset / 8) >>> 8) &&& 0x1f),
         (h.GetFragmentOffset / 8) &&& 0xff,
         h.GetTtl, h.GetProtocol, c0, c1,
         h.GetSource / 16777216, h.GetSource / 65536 % 256, h.GetSource / 256 % 256,
         h.GetSource % 256,
         h.GetDestination / 16777216, h.GetDestination / 65536 % 256,
         h.GetDestination / 256 % 256, h.GetDestination % 256] ++ buf.drop 20 ∧
      (h.m_calcChecksum = false → c0 = 0 ∧ c1 = 0) := by
  refine ⟨(checksumSlot cksum h).1, (checksumSlot cksum h).2, Serialize_buf cksum h buf hr hlen,
    ?_⟩
  intro hc
  simp [checksumSlot, hc]

theorem Serialize_wire_format_witness :
    ∃ c0 c1 : Nat,
      (exampleHeader.Serialize (fun _ => 0) ⟨List.replicate 20 9, 0⟩).buf =
        [0x45, 0x2e, 11, 204, 0, 7, 0, 0, 64, 17, c0, c1, 10, 0, 0, 1, 10, 0, 0, 5] ∧
      (exampleHeader.m_calcChecksum = false → c0 = 0 ∧ c1 = 0) :=
  Serialize_wire_format (fun _ => 0) exampleHeader (List.replicate 20 9) (by decide) (by decide)
/-! ## Fragmentation -/

theorem SetFragmentOffset_ok (h : RadeepHeader) (x : Nat) (hx : x % 8 = 0) (hlt : x < 65536) :
    h.SetFragmentOffset x = .ok { h with m_fragmentOffset := x } := by
  have e : x &&& 7 = 0 := by rw [and_7_eq_mod]; omega
  simp [RadeepHeader.SetFragmentOffset, e, Nat.mod_eq_of_lt hlt]

/-- One iteration of the loop when more than a fragment remains. -/
theorem fragmentLoop_more (p : List Nat) (H : RadeepHeader) (ck : Bool) (fs o : Nat)
    (last : Bool) (fuel offset : Nat) (hL : p.length ≤ 65535) (hmore : offset + fs < p.length)
    (ho : (offset + o) % 8 = 0) (hoL : offset + o < 65536) :
    fragmentLoop p H ck fs o last (fuel + 1) offset =
      match fragmentLoop p H ck fs o last fuel (offset + fs) with
      | .error e => .error e
      | .ok rest => .ok (fragmentAt p H ck fs o last offset :: rest) := by
  have h1 : (offset + fs) % 4294967296 = offset + fs := Nat.mod_eq_of_lt (by omega)
  have h2 : (offset + fs) % 65536 = offset + fs := Nat.mod_eq_of_lt (by omega)
  have hm : decide (p.length > (offset + fs) % 4294967296) = true := by
    rw [h1]; exact decide_eq_true hmore
  have hm2 : decide (p.length > offset + fs) = true := decide_eq_true hmore
  have hc : CreateFragment p offset fs = .ok ((p.drop offset).take fs) := by
    simp [CreateFragment]; omega
  simp only [fragmentLoop, hm, if_true, hc, RadeepHeader.SetMoreFragments,
    SetFragmentOffset_ok _ _ ho hoL, h2, fragmentAt, hm2]

/-- The final iteration of the loop. -/
theorem fragmentLoop_last (p : List Nat) (H : RadeepHeader) (ck : Bool) (fs o : Nat)
    (last : Bool) (fuel offset : Nat) (hL : p.length ≤ 65535) (hoff : offset ≤ p.length)
    (hfs : fs < 4294967296 - 65536 ∨ offset = 0) (hfs2 : fs < 4294967296)
    (hlast : p.length ≤ offset + fs)
    (ho : (offset + o) % 8 = 0) (hoL : offset + o < 65536) :
    fragmentLoop p H ck fs o last (fuel + 1) offset =
      .ok [fragmentAt p H ck fs o last offset] := by
  have h1 : (offset + fs) % 4294967296 = offset + fs := Nat.mod_eq_of_lt (by omega)
  have hm : decide (p.length > (offset + fs) % 4294967296) = false := by
    rw [h1]; exact decide_eq_false (by omega)
  have hm2 : decide (p.length > offset + fs) = false := decide_eq_false (by omega)
  have hsz : (p.length + 4294967296 - offset) % 4294967296 = p.length - offset := by omega
  have hc : CreateFragment p offset (p.length - offset)
      = .ok ((p.drop offset).take (p.length - offset)) := by
    simp [CreateFragment]; omega
  simp only [fragmentLoop, hm, hsz, hc, fragmentAt, hm2]
  cases last <;> simp [RadeepHeader.SetMoreFragments, RadeepHeader.SetLastFragment,
    SetFragmentOffset_ok _ _ ho hoL, hc]

/-- The loop run from `offset` with `n` fragments still to produce. -/
theorem fragmentLoop_eq (p : List Nat) (H : RadeepHeader) (ck : Bool) (fs o : Nat)
    (last : Bool) (hL : p.length ≤ 65535) (hfs8 : fs % 8 = 0) (hfs2 : fs < 4294967296)
    (ho : o % 8 = 0) (hoL : o + p.length < 65536) :
    ∀ (n fuel offset : Nat), n + 1 ≤ fuel → offset % 8 = 0 → offset ≤ p.length →
      (fs < 4294967296 - 65536 ∨ offset = 0) →
      p.length - offset ≤ (n + 1) * fs → n * fs < p.length - offset ∨ n = 0 →
      fragmentLoop p H ck fs o last fuel offset =
        .ok (expectedFragments p H ck fs o last (n + 1) offset) := by
  intro n
  induction n with
  | zero =>
    intro fuel offset hfuel h8 hoff hw hup _
    obtain ⟨f, rfl⟩ : ∃ f, fuel = f + 1 := ⟨fuel - 1, by omega⟩
    rw [fragmentLoop_last p H ck fs o last f offset hL hoff hw hfs2 (by omega) (by omega)
      (by omega)]
    rfl
  | succ n ih =>
    intro fuel offset hfuel h8 hoff hw hup hlow
    obtain ⟨f, rfl⟩ : ∃ f, fuel = f + 1 := ⟨fuel - 1, by omega⟩
    have hlow1 : (n + 1) * fs < p.length - offset := by omega
    have hfsn : fs ≤ (n + 1) * fs := Nat.le_mul_of_pos_left fs (by omega)
    have hmore : offset + fs < p.length := by omega
    rw [fragmentLoop_more p H ck fs o last f offset hL hmore (by omega) (by omega)]
    have hup1 : p.length - (offset + fs) ≤ (n + 1) * fs := by
      have : (n + 1 + 1) * fs = (n + 1) * fs + fs := by ring
      omega
    have hlow2 : n * fs < p.length - (offset + fs) ∨ n = 0 := by
      rcases Nat.eq_zero_or_pos n with h0 | hpos
      · exact Or.inr h0
      · left
        have : (n + 1) * fs = n * fs + fs := by ring
        omega
    rw [ih f (offset + fs) (by omega) (by omega) (by omega) (Or.inl (by omega)) hup1 hlow2]
    rfl

theorem and_shl3 (x b : Nat) : x &&& (b <<< 3) = ((x >>> 3) &&& b) <<< 3 := by
  apply Nat.eq_of_testBit_eq
  intro i
  simp only [Nat.testBit_and, Nat.testBit_shiftLeft, Nat.testBit_shiftRight]
  by_cases h : 3 ≤ i
  · have : 3 + (i - 3) = i := by omega
    simp [h, this]
  · simp [h]

/-- Masking with `~uint32_t (0x7)` rounds a 32-bit value down to a multiple of 8. -/
theorem and_mask8 (x : Nat) (hx : x < 4294967296) : x &&& 4294967288 = x / 8 * 8 := by
  have e : (4294967288 : Nat) = (2 ^ 29 - 1) <<< 3 := by decide
  rw [e, and_shl3, Nat.and_pow_two_sub_one_eq_mod, Nat.shiftRight_eq_div_pow, Nat.shiftLeft_eq]
  have : x / 2 ^ 3 < 2 ^ 29 := by
    norm_num; omega
  rw [Nat.mod_eq_of_lt this]
  norm_num

theorem fragmentSizeOf_eq (H : RadeepHeader) (m : Nat) :
    fragmentSizeOf H m = (m + 4294967296 - H.GetSerializedSize) % 4294967296 / 8 * 8 := by
  unfold fragmentSizeOf
  exact and_mask8 _ (Nat.mod_lt _ (by norm_num))

theorem expectedFragments_length (p : List Nat) (H : RadeepHeader) (ck : Bool) (fs o : Nat)
    (last : Bool) : ∀ (n offset : Nat), (expectedFragments p H ck fs o last n offset).length = n
  | 0, _ => rfl
  | n + 1, offset => by
    simp [expectedFragments, expectedFragments_length p H ck fs o last n (offset + fs)]

theorem expectedFragments_getElem (p : List Nat) (H : RadeepHeader) (ck : Bool) (fs o : Nat)
    (last : Bool) : ∀ (n offset k : Nat), k < n →
      (expectedFragments p H ck fs o last n offset)[k]? =
        some (fragmentAt p H ck fs o last (offset + k * fs))
  | 0, _, _, h => absurd h (Nat.not_lt_zero _)
  | n + 1, offset, 0, _ => by simp [expectedFragments]
  | n + 1, offset, k + 1, h => by
    have ih := expectedFragments_getElem p H ck fs o last n (offset + fs) k (by omega)
    have e : offset + fs + k * fs = offset + (k + 1) * fs := by ring
    simp [expectedFragments, ih, e]

/-- The payloads of an exact run of fragments concatenate to the rest of the packet. -/
theorem expectedFragments_flatten (p : List Nat) (H : RadeepHeader) (ck : Bool) (fs o : Nat)
    (last : Bool) : ∀ (n offset : Nat), offset ≤ p.length →
      p.length - offset ≤ (n + 1) * fs → n * fs < p.length - offset ∨ n = 0 →
      ((expectedFragments p H ck fs o last (n + 1) offset).map Prod.fst).flatten =
        p.drop offset := by
  intro n
  induction n with
  | zero =>
    intro offset hoff hup _
    have hm : decide (p.length > offset + fs) = false := decide_eq_false (by omega)
    simp [expectedFragments, fragmentAt, hm]
  | succ n ih =>
    intro offset hoff hup hlow
    have hfsn : fs ≤ (n + 1) * fs := Nat.le_mul_of_pos_left fs (by omega)
    have hmore : offset + fs < p.length := by omega
    have hm : decide (p.length > offset + fs) = true := decide_eq_true hmore
    have hup1 : p.length - (offset + fs) ≤ (n + 1) * fs := by
      have : (n + 1 + 1) * fs = (n + 1) * fs + fs := by ring
      omega
    have hlow2 : n * fs < p.length - (offset + fs) ∨ n = 0 := by
      rcases Nat.eq_zero_or_pos n with h0 | hpos
      · exact Or.inr h0
      · left
        have : (n + 1) * fs = n * fs + fs := by ring
        omega
    have ih1 := ih (offset + fs) (by omega) hup1 hlow2
    rw [expectedFragments, List.map_cons, List.flatten_cons, ih1]
    simp only [fragmentAt, hm, if_true]
    rw [← List.drop_drop, List.take_append_drop]

theorem fragmentAt_fst (p : List Nat) (H : RadeepHeader) (ck : Bool) (fs o : Nat)
    (last : Bool) (off : Nat) :
    (fragmentAt p H ck fs o last off).1 =
      (p.drop off).take (if p.length > off + fs then fs else p.length - off) := by
  by_cases h : p.length > off + fs <;> simp [fragmentAt, h]

theorem fragmentAt_payloadSize (p : List Nat) (H : RadeepHeader) (ck : Bool) (fs o : Nat)
    (last : Bool) (off : Nat) :
    (fragmentAt p H ck fs o last off).2.GetPayloadSize =
      (if p.length > off + fs then fs else p.length - off) % 65536 := by
  by_cases h : p.length > off + fs <;> cases ck <;>
    simp [fragmentAt, h, RadeepHeader.SetPayloadSize, RadeepHeader.EnableChecksum,
      RadeepHeader.GetPayloadSize]

theorem fragmentAt_offset (p : List Nat) (H : RadeepHeader) (ck : Bool) (fs o : Nat)
    (last : Bool) (off : Nat) :
    (fragmentAt p H ck fs o last off).2.GetFragmentOffset = off + o := by
  cases ck <;>
    simp [fragmentAt, RadeepHeader.SetPayloadSize, RadeepHeader.EnableChecksum,
      RadeepHeader.GetFragmentOffset]

theorem IsLastFragment_SetMoreFragments (h : RadeepHeader) :
    h.SetMoreFragments.IsLastFragment = false := by
  have e : (h.m_flags ||| 2) &&& 2 = 2 := by
    apply Nat.eq_of_testBit_eq
    intro i
    simp only [Nat.testBit_and, Nat.testBit_or]
    cases h.m_flags.testBit i <;> simp
  simp [RadeepHeader.SetMoreFragments, RadeepHeader.IsLastFragment, MORE_FRAGMENTS, e]

theorem IsLastFragment_SetLastFragment (h : RadeepHeader) :
    h.SetLastFragment.IsLastFragment = true := by
  have e : (h.m_flags &&& 5) &&& 2 = 0 := by
    have : (5 : Nat) &&& 2 = 0 := by decide
    rw [Nat.and_assoc, this, Nat.and_zero]
  simp [RadeepHeader.SetLastFragment, RadeepHeader.IsLastFragment, MORE_FRAGMENTS, e]

theorem fragmentAt_isLast (p : List Nat) (H : RadeepHeader) (ck : Bool) (fs o : Nat)
    (last : Bool) (off : Nat) :
    (fragmentAt p H ck fs o last off).2.IsLastFragment =
      (if p.length > off + fs then false else last) := by
  have h1 := IsLastFragment_SetMoreFragments H
  have h2 := IsLastFragment_SetLastFragment H
  simp only [RadeepHeader.IsLastFragment] at h1 h2
  by_cases h : p.length > off + fs <;> cases ck <;> cases last <;>
    simp [fragmentAt, h, RadeepHeader.SetPayloadSize, RadeepHeader.EnableChecksum,
      RadeepHeader.IsLastFragment, h1, h2]

/-- Under the conditions on which fragmentation applies, `DoFragmentation` returns the
expected run of `n + 1 = ceil (L / fs)` fragments. -/
theorem DoFragmentation_expected (ck : Bool) (P : List Nat) (H : RadeepHeader) (m : Nat)
    (hL : P.length ≤ 65535) (hs : H.GetSerializedSize = 20)
    (ho8 : H.GetFragmentOffset % 8 = 0) (hoL : H.GetFragmentOffset + P.length ≤ 65535)
    (hfs : 8 ≤ (m - 20) &&& 4294967288) (hbig : P.length + 20 > m) :
    ∃ n : Nat,
      (P.length + ((m - 20) &&& 4294967288) - 1) / ((m - 20) &&& 4294967288) = n + 1 ∧
      P.length ≤ (n + 1) * ((m - 20) &&& 4294967288) ∧
      n * ((m - 20) &&& 4294967288) < P.length ∧
      ∀ fuel, n + 1 ≤ fuel → DoFragmentation fuel ck P H m =
        .ok (expectedFragments P H ck ((m - 20) &&& 4294967288) H.GetFragmentOffset
          H.IsLastFragment (n + 1) 0) := by
  have hm20 : 20 ≤ m := by
    rcases Nat.lt_or_ge m 20 with h | h
    · have : m - 20 = 0 := by omega
      rw [this] at hfs; simp at hfs
    · exact h
  have hfsc : fragmentSizeOf H m = (m - 20) &&& 4294967288 := by
    have e : (m + 4294967296 - 20) % 4294967296 = m - 20 := by omega
    unfold fragmentSizeOf; rw [hs, e]
  have hfse : (m - 20) &&& 4294967288 = (m - 20) / 8 * 8 := and_mask8 _ (by omega)
  generalize hfsdef : (m - 20) &&& 4294967288 = fs at *
  have hfsL : fs < P.length := by omega
  have hfs8 : fs % 8 = 0 := by omega
  obtain ⟨n, hn⟩ : ∃ n, (P.length + fs - 1) / fs = n + 1 := by
    refine ⟨(P.length + fs - 1) / fs - 1, ?_⟩
    have : 1 ≤ (P.length + fs - 1) / fs := (Nat.one_le_div_iff (by omega)).2 (by omega)
    omega
  have hdm := Nat.div_add_mod (P.length + fs - 1) fs
  have hml := Nat.mod_lt (P.length + fs - 1) (show fs > 0 by omega)
  rw [hn] at hdm
  have hup : P.length ≤ (n + 1) * fs := by
    have : (n + 1) * fs = fs * (n + 1) := Nat.mul_comm _ _
    omega
  have hlow : n * fs < P.length := by
    have : fs * (n + 1) = n * fs + fs := by ring
    omega
  refine ⟨n, hn, hup, hlow, ?_⟩
  intro fuel hfuel
  have hne : (H.GetSerializedSize != 5 * 4) = false := by rw [hs]; rfl
  simp only [DoFragmentation, hne, hfsc]
  exact fragmentLoop_eq P H ck fs _ _ hL hfs8 (by omega) ho8 (by omega) n fuel 0
    (by omega) rfl (by omega) (Or.inr rfl) (by omega) (Or.inl (by omega))

/-- C2: for a payload of at most 65535 bytes, a 20-byte header whose offset `o` is a multiple
of 8 with `o + L ≤ 65535`, and an MTU `m` with `fs = (m - 20) & ~7 ≥ 8` and `L + 20 > m`,
`DoFragmentation` returns (given fuel for its `ceil (L / fs)` iterations) exactly
`ceil (L / fs)` fragments; fragment `k` carries bytes `[k*fs, min ((k+1)*fs, L))`, its header
has that slice length as payload size and `o + k*fs` as fragment offset, and the slices
concatenate to the payload. -/
theorem DoFragmentation_slices (ck : Bool) (P : List Nat) (H : RadeepHeader) (m : Nat)
    (hL : P.length ≤ 65535) (hs : H.GetSerializedSize = 20)
    (ho8 : H.GetFragmentOffset % 8 = 0) (hoL : H.GetFragmentOffset + P.length ≤ 65535)
    (hfs : 8 ≤ (m - 20) &&& 4294967288) (hbig : P.length + 20 > m) :
    ∃ frags : List RadeepPayloadHeaderPair,
      (∀ fuel, (P.length + ((m - 20) &&& 4294967288) - 1) / ((m - 20) &&& 4294967288) ≤ fuel →
        DoFragmentation fuel ck P H m = .ok frags) ∧
      frags.length = (P.length + ((m - 20) &&& 4294967288) - 1) / ((m - 20) &&& 4294967288) ∧
      (∀ k, k < frags.length → ∃ pay hdr, frags[k]? = some (pay, hdr) ∧
        pay = (P.take (min ((k + 1) * ((m - 20) &&& 4294967288)) P.length)).drop
                (k * ((m - 20) &&& 4294967288)) ∧
        hdr.GetPayloadSize = pay.length ∧
        hdr.GetFragmentOffset = H.GetFragmentOffset + k * ((m - 20) &&& 4294967288)) ∧
      (frags.map Prod.fst).flatten = P := by
  obtain ⟨n, hn, hup, hlow, hrun⟩ := DoFragmentation_expected ck P H m hL hs ho8 hoL hfs hbig
  generalize (m - 20) &&& 4294967288 = fs at *
  refine ⟨expectedFragments P H ck fs H.GetFragmentOffset H.IsLastFragment (n + 1) 0, ?_, ?_,
    ?_, ?_⟩
  · intro fuel hfuel
    exact hrun fuel (by omega)
  · rw [expectedFragments_length, hn]
  · intro k hk
    rw [expectedFragments_length] at hk
    have hkfs : k * fs ≤ n * fs := Nat.mul_le_mul_right fs (by omega)
    have hk1 : (k + 1) * fs = k * fs + fs := by ring
    have hn1 : (n + 1) * fs = n * fs + fs := by ring
    refine ⟨(fragmentAt P H ck fs H.GetFragmentOffset H.IsLastFragment (k * fs)).1,
      (fragmentAt P H ck fs H.GetFragmentOffset H.IsLastFragment (k * fs)).2, ?_, ?_, ?_, ?_⟩
    · rw [expectedFragments_getElem _ _ _ _ _ _ _ _ k hk, Nat.zero_add]
    · rw [fragmentAt_fst, List.drop_take]
      congr 1
      split <;> omega
    · rw [fragmentAt_payloadSize, fragmentAt_fst, List.length_take, List.length_drop]
      split <;> omega
    · rw [fragmentAt_offset]; omega
  · have := expectedFragments_flatten P H ck fs H.GetFragmentOffset H.IsLastFragment n 0
      (by omega) (by omega) (Or.inl (by omega))
    simpa using this

theorem DoFragmentation_slices_witness :
    ∃ frags : List RadeepPayloadHeaderPair,
      DoFragmentation 3 false (List.range 100) exampleHeader 68 = .ok frags ∧
      frags.length = 3 ∧ (frags.map Prod.fst).flatten = List.range 100 := by
  obtain ⟨frags, h1, h2, -, h4⟩ := DoFragmentation_slices false (List.range 100) exampleHeader 68
    (by decide) (by decide) (by decide) (by decide) (by decide) (by decide)
  exact ⟨frags, h1 3 (by decide), h2, h4⟩

theorem SetFragmentOffset_flags (h h1 : RadeepHeader) (x : Nat)
    (hx : h.SetFragmentOffset x = .ok h1) : h1.m_flags = h.m_flags := by
  simp only [RadeepHeader.SetFragmentOffset] at hx
  split at hx
  · cases hx
  · cases hx; rfl

/-- Whatever the loop returns is a run of fragments with more-fragments set, closed by one
fragment whose flag is `isLastFragment`. -/
theorem fragmentLoop_flags (p : List Nat) (H : RadeepHeader) (ck : Bool) (fs o : Nat) :
    ∀ (fuel offset : Nat) (frags : List RadeepPayloadHeaderPair),
      fragmentLoop p H ck fs o H.IsLastFragment fuel offset = .ok frags →
      ∃ init lastp, frags = init ++ [lastp] ∧ (∀ x ∈ init, x.2.IsLastFragment = false) ∧
        lastp.2.IsLastFragment = H.IsLastFragment := by
  intro fuel
  induction fuel with
  | zero => intro offset frags h; simp [fragmentLoop] at h
  | succ fuel ih =>
    intro offset frags h
    have h1 := IsLastFragment_SetMoreFragments H
    have h2 := IsLastFragment_SetLastFragment H
    simp only [fragmentLoop] at h
    split at h
    · cases h
    · rename_i fragment hcf
      split at h
      · cases h
      · rename_i fh hsf
        have hfl := SetFragmentOffset_flags _ _ _ hsf
        split at h
        · rename_i hmore
          split at h
          · cases h
          · rename_i rest hrest
            obtain ⟨init, lastp, rfl, hi, hl⟩ := ih _ _ hrest
            cases h
            refine ⟨_ :: init, lastp, rfl, ?_, hl⟩
            intro x hx
            rcases List.mem_cons.1 hx with rfl | hx
            · simp only [hmore, if_true] at hfl
              simp only [RadeepHeader.IsLastFragment] at h1 ⊢
              cases ck <;> simpa [RadeepHeader.SetPayloadSize, RadeepHeader.EnableChecksum, hfl]
                using h1
            · exact hi x hx
        · rename_i hmore
          cases h
          refine ⟨[], _, rfl, by simp, ?_⟩
          simp only [hmore] at hfl
          cases hlast : H.IsLastFragment
          · simp only [hlast] at hfl
            simp only [RadeepHeader.IsLastFragment] at h1 ⊢
            cases ck <;> simpa [RadeepHeader.SetPayloadSize, RadeepHeader.EnableChecksum, hfl]
              using h1
          · simp only [hlast] at hfl
            simp only [RadeepHeader.IsLastFragment] at h2 ⊢
            cases ck <;> simpa [RadeepHeader.SetPayloadSize, RadeepHeader.EnableChecksum, hfl]
              using h2

/-- C9: whenever `DoFragmentation` returns fragments, every fragment but the last has
more-fragments set and the last one carries the flag of the original header, so a
non-terminal original leaves every fragment with more-fragments set; and with a 20-byte
header, a fragment size of at least 8 and a payload of at most 65535 bytes (longer than one
fragment or not) it does return fragments. -/
theorem DoFragmentation_more_fragments (ck : Bool) (P : List Nat) (H : RadeepHeader) (m : Nat) :
    (∀ fuel frags, DoFragmentation fuel ck P H m = .ok frags →
      ∃ init lastp, frags = init ++ [lastp] ∧
        (∀ x ∈ init, x.2.IsLastFragment = false) ∧
        lastp.2.IsLastFragment = H.IsLastFragment ∧
        (H.IsLastFragment = false → ∀ x ∈ frags, x.2.IsLastFragment = false)) ∧
    (P.length ≤ 65535 → H.GetSerializedSize = 20 → H.GetFragmentOffset % 8 = 0 →
      H.GetFragmentOffset + P.length ≤ 65535 → m < 4294967296 → 8 ≤ fragmentSizeOf H m →
      ∃ frags, ∀ fuel, P.length + 1 ≤ fuel → DoFragmentation fuel ck P H m = .ok frags) := by
  constructor
  · intro fuel frags h
    simp only [DoFragmentation] at h
    split at h
    · cases h
    · obtain ⟨init, lastp, rfl, hi, hl⟩ := fragmentLoop_flags P H ck _ _ fuel 0 frags h
      refine ⟨init, lastp, rfl, hi, hl, ?_⟩
      intro hnl x hx
      rcases List.mem_append.1 hx with hx | hx
      · exact hi x hx
      · rw [List.mem_singleton.1 hx, hl, hnl]
  · intro hL hs ho8 hoL hm hfs
    have hne : (H.GetSerializedSize != 5 * 4) = false := by rw [hs]; rfl
    have hfse := fragmentSizeOf_eq H m
    obtain ⟨fs, hfsc⟩ : ∃ fs, fragmentSizeOf H m = fs := ⟨_, rfl⟩
    rw [hfsc] at hfse hfs
    have hfs8 : fs % 8 = 0 := by omega
    have hfs2 : fs < 4294967296 := by omega
    have hdm := Nat.div_add_mod (P.length - 1) fs
    have hml := Nat.mod_lt (P.length - 1) (show fs > 0 by omega)
    have hdle : (P.length - 1) / fs ≤ P.length - 1 := Nat.div_le_self _ _
    generalize hn : (P.length - 1) / fs = n at *
    have hcomm : fs * n = n * fs := Nat.mul_comm _ _
    have hsucc : (n + 1) * fs = n * fs + fs := by ring
    refine ⟨expectedFragments P H ck fs H.GetFragmentOffset H.IsLastFragment (n + 1) 0, ?_⟩
    intro fuel hfuel
    simp only [DoFragmentation, hne, hfsc, Bool.false_eq_true, if_false]
    refine fragmentLoop_eq P H ck fs _ _ hL hfs8 hfs2 ho8 (by omega) n fuel 0
      (by omega) rfl (by omega) (Or.inr rfl) (by omega) ?_
    rcases Nat.eq_zero_or_pos n with h0 | hpos
    · exact Or.inr h0
    · left
      have : 1 * fs ≤ n * fs := Nat.mul_le_mul_right fs hpos
      omega

theorem DoFragmentation_more_fragments_witness :
    (exampleHeader.IsLastFragment = true ∧
      ∃ frags : List RadeepPayloadHeaderPair,
        DoFragmentation 3 false (List.range 100) exampleHeader 68 = .ok frags ∧
        frags.length = 3 ∧
        ∃ init lastp, frags = init ++ [lastp] ∧ init.length = 2 ∧
          (∀ x ∈ init, x.2.IsLastFragment = false) ∧
          lastp.2.IsLastFragment = true) ∧
    (exampleHeader.SetMoreFragments.IsLastFragment = false ∧
      ∃ frags : List RadeepPayloadHeaderPair,
        DoFragmentation 3 false (List.range 100) exampleHeader.SetMoreFragments 68
          = .ok frags ∧
        frags.length = 3 ∧ ∀ x ∈ frags, x.2.IsLastFragment = false) ∧
    (∃ frags : List RadeepPayloadHeaderPair, ∀ fuel, (List.range 100).length + 1 ≤ fuel →
      DoFragmentation fuel false (List.range 100) exampleHeader 68 = .ok frags) := by
  refine ⟨⟨by decide, ?_⟩, ⟨by decide, ?_⟩, ?_⟩
  · obtain ⟨init, lastp, h1, h2, h3, -⟩ :=
      (DoFragmentation_more_fragments false (List.range 100) exampleHeader 68).1 3 _ rfl
    refine ⟨_, rfl, rfl, init, lastp, h1, ?_, h2, by rw [h3]; decide⟩
    have hl := congrArg List.length h1
    rw [List.length_append] at hl
    have h3l : (3 : Nat) = init.length + 1 := hl
    omega
  · obtain ⟨init, lastp, -, -, -, h4⟩ :=
      (DoFragmentation_more_fragments false (List.range 100) exampleHeader.SetMoreFragments
        68).1 3 _ rfl
    exact ⟨_, rfl, rfl, h4 (by decide)⟩
  · exact (DoFragmentation_more_fragments false (List.range 100) exampleHeader 68).2
      (by decide) (by decide) (by decide) (by decide) (by decide) (by decide)
/-! ## Reassembly -/

theorem isEntireLoop_iff : ∀ (frs : List (List Nat × Nat)) (last : Nat),
    (∀ x ∈ frs, x.2 + x.1.length ≤ 65535) →
    (isEntireLoop frs last = true ↔
      ∀ k x, frs[k]? = some x → x.2 ≤ max last (maxEnd (frs.take k)))
  | [], last, _ => by simp [isEntireLoop]
  | y :: rest, last, hb => by
    have hy : y.2 + y.1.length ≤ 65535 := hb y (List.mem_cons_self _ _)
    have ih := isEntireLoop_iff rest (max last (y.2 + y.1.length))
      (fun x hx => hb x (List.mem_cons_of_mem _ hx))
    have e : (y.1.length + y.2) % 65536 = y.2 + y.1.length := by omega
    simp only [isEntireLoop, e]
    constructor
    · intro h
      split at h
      · cases h
      · rename_i hlt
        intro k x hk
        cases k with
        | zero =>
          simp only [List.getElem?_cons_zero, Option.some.injEq] at hk
          subst hk
          simp only [List.take_zero, maxEnd]
          omega
        | succ k =>
          simp only [List.getElem?_cons_succ] at hk
          have := (ih.1 h) k x hk
          simp only [List.take_succ_cons, maxEnd]
          omega
    · intro h
      have h0 := h 0 y (by simp)
      simp only [List.take_zero, maxEnd] at h0
      have hnlt : ¬ last < y.2 := by omega
      simp only [hnlt, if_false]
      apply ih.2
      intro k x hk
      have := h (k + 1) x (by simpa using hk)
      simp only [List.take_succ_cons, maxEnd] at this
      omega

theorem maxEnd_ge_of_mem : ∀ (frs : List (List Nat × Nat)) (x : List Nat × Nat), x ∈ frs →
    x.2 + x.1.length ≤ maxEnd frs
  | [], _, h => by cases h
  | y :: rest, x, h => by
    simp only [maxEnd]
    rcases List.mem_cons.1 h with rfl | h
    · omega
    · have := maxEnd_ge_of_mem rest x h
      omega

/-- For fragments in offset order, starting each fragment no later than the data before it
ends is the same as covering every position below the greatest end offset. -/
theorem gapFree_iff_covers : ∀ (frs : List (List Nat × Nat)) (last : Nat),
    frs.Pairwise (fun a b => a.2 ≤ b.2) →
    ((∀ k x, frs[k]? = some x → x.2 ≤ max last (maxEnd (frs.take k))) ↔
      ∀ pos, last ≤ pos → pos < max last (maxEnd frs) → covers frs pos)
  | [], last, _ => by
    simp only [maxEnd, covers]
    constructor
    · intro _ pos h1 h2; omega
    · intro _ k x hk; simp at hk
  | y :: rest, last, hs => by
    have hs1 := List.pairwise_cons.1 hs
    have ih := gapFree_iff_covers rest (max last (y.2 + y.1.length)) hs1.2
    constructor
    · intro h pos h1 h2
      have h0 := h 0 y (by simp)
      simp only [List.take_zero, maxEnd] at h0
      simp only [maxEnd] at h2
      by_cases hp : pos < y.2 + y.1.length
      · exact ⟨y, List.mem_cons_self _ _, by omega, hp⟩
      · have hrest : ∀ k x, rest[k]? = some x →
            x.2 ≤ max (max last (y.2 + y.1.length)) (maxEnd (rest.take k)) := by
          intro k x hk
          have := h (k + 1) x (by simpa using hk)
          simp only [List.take_succ_cons, maxEnd] at this
          omega
        obtain ⟨x, hx, hx1, hx2⟩ := (ih.1 hrest) pos (by omega) (by omega)
        exact ⟨x, List.mem_cons_of_mem _ hx, hx1, hx2⟩
    · intro h
      have hy : y.2 ≤ last := by
        by_contra hcon
        have hlt : last < max last (maxEnd (y :: rest)) := by
          simp only [maxEnd]; omega
        obtain ⟨x, hx, hx1, _⟩ := h last (Nat.le_refl _) hlt
        rcases List.mem_cons.1 hx with rfl | hx
        · omega
        · have := hs1.1 x hx
          omega
      have hrest : ∀ pos, max last (y.2 + y.1.length) ≤ pos →
          pos < max (max last (y.2 + y.1.length)) (maxEnd rest) → covers rest pos := by
        intro pos h1 h2
        obtain ⟨x, hx, hx1, hx2⟩ := h pos (by omega) (by simp only [maxEnd]; omega)
        rcases List.mem_cons.1 hx with rfl | hx
        · omega
        · exact ⟨x, hx, hx1, hx2⟩
      intro k x hk
      cases k with
      | zero =>
        simp only [List.getElem?_cons_zero, Option.some.injEq] at hk
        subst hk
        simp only [List.take_zero, maxEnd]
        omega
      | succ k =>
        simp only [List.getElem?_cons_succ] at hk
        have := (ih.2 hrest) k x hk
        simp only [List.take_succ_cons, maxEnd]
        omega

/-- C10: for a fragment set kept in offset order in which no fragment ends beyond 65535,
`IsEntire` is true iff the set is non-empty, the more-fragments marker is clear and every
fragment's offset is at most the greatest end offset of the fragments before it (0 for the
first); that last condition says the fragments cover every position below the greatest end
offset. -/
theorem IsEntire_iff (f : Fragments)
    (hsorted : f.m_fragments.Pairwise (fun a b => a.2 ≤ b.2))
    (hbound : ∀ x ∈ f.m_fragments, x.2 + x.1.length ≤ 65535) :
    (f.IsEntire = true ↔
      f.m_fragments ≠ [] ∧ f.m_moreFragment = false ∧ gapFree f.m_fragments) ∧
    (gapFree f.m_fragments ↔ ∀ pos, pos < maxEnd f.m_fragments → covers f.m_fragments pos) := by
  have h1 := isEntireLoop_iff f.m_fragments 0 hbound
  have h2 := gapFree_iff_covers f.m_fragments 0 hsorted
  simp only [Nat.zero_max, Nat.zero_le, true_implies] at h1 h2
  refine ⟨?_, h2⟩
  unfold Fragments.IsEntire gapFree
  rw [← h1]
  cases hm : f.m_moreFragment
  · cases hf : f.m_fragments with
    | nil => simp
    | cons y rest => simp
  · simp

theorem IsEntire_iff_witness :
    ((⟨false, [([1, 2, 3], 0), ([4, 5], 3)]⟩ : Fragments).IsEntire = true ↔
      [([1, 2, 3], 0), ([4, 5], 3)] ≠ [] ∧ false = false ∧
        gapFree [([1, 2, 3], 0), ([4, 5], 3)]) ∧
    (gapFree [([1, 2, 3], 0), ([4, 5], 3)] ↔
      ∀ pos, pos < maxEnd [([1, 2, 3], 0), ([4, 5], 3)] →
        covers [([1, 2, 3], 0), ([4, 5], 3)] pos) :=
  IsEntire_iff ⟨false, [([1, 2, 3], 0), ([4, 5], 3)]⟩ (by simp) (by simp)

/-! ## Fragmentation followed by reassembly -/

theorem insertFragment_contig (c : List Nat) : ∀ (cs : List (List Nat)) (base : Nat),
    insertFragment c (base + cs.flatten.length) (contig base cs) = (contig base (cs ++ [c]), true)
  | [], base => by simp [insertFragment, contig]
  | c0 :: cs, base => by
    have ih := insertFragment_contig c cs (base + c0.length)
    have e : base + (c0 :: cs).flatten.length = base + c0.length + cs.flatten.length := by
      simp [Nat.add_assoc]
    have hn : ¬ base > base + c0.length + cs.flatten.length := by omega
    simp only [List.cons_append, contig, insertFragment, e, hn, if_false, ih]
    rfl

theorem isEntireLoop_contig : ∀ (cs : List (List Nat)) (base last : Nat),
    base ≤ last → base + cs.flatten.length ≤ 65535 → isEntireLoop (contig base cs) last = true
  | [], _, _, _, _ => rfl
  | c0 :: cs, base, last, h1, h2 => by
    have hlen : (c0 :: cs).flatten.length = c0.length + cs.flatten.length := by simp
    have hn : ¬ last < base := by omega
    have e : (c0.length + base) % 65536 = c0.length + base := by omega
    simp only [contig, isEntireLoop, hn, if_false, e]
    exact isEntireLoop_contig cs (base + c0.length) _ (by omega) (by omega)

theorem getPacketLoop_contig : ∀ (cs : List (List Nat)) (p : List Nat),
    p.length + cs.flatten.length ≤ 65535 →
    getPacketLoop (contig p.length cs) p = .ok (p ++ cs.flatten)
  | [], p, _ => by simp [contig, getPacketLoop]
  | c0 :: cs, p, h => by
    have hlen : (c0 :: cs).flatten.length = c0.length + cs.flatten.length := by simp
    have e : p.length % 65536 = p.length := by omega
    have hn : ¬ p.length > p.length := by omega
    have ih := getPacketLoop_contig cs (p ++ c0) (by rw [List.length_append]; omega)
    simp only [List.length_append] at ih
    simp only [contig, getPacketLoop, e, hn, if_false, ih]
    simp

theorem addFragments_length : ∀ (frags : List RadeepPayloadHeaderPair) (f : Fragments),
    (addFragments f frags).length = frags.length
  | [], _ => rfl
  | x :: rest, f => by simp [addFragments, addFragments_length rest]

/-- Adding fragments whose offsets chain (each starts where the data so far ends) appends
them one by one. -/
theorem addFragments_chained (frags : List RadeepPayloadHeaderPair) :
    ∀ (cs0 : List (List Nat)) (b : Bool),
    frags.map (fun x => (x.1, x.2.GetFragmentOffset)) =
      contig cs0.flatten.length (frags.map Prod.fst) →
    ∀ k st, (addFragments ⟨b, contig 0 cs0⟩ frags)[k]? = some st →
      ∃ x, frags[k]? = some x ∧
        st = Fragments.mk (!x.2.IsLastFragment)
          (contig 0 (cs0 ++ (frags.take (k + 1)).map Prod.fst)) := by
  induction frags with
  | nil => intro cs0 b _ k st h; simp [addFragments] at h
  | cons x rest ih =>
    obtain ⟨pay, hdr⟩ := x
    intro cs0 b hv k st h
    simp only [List.map_cons, contig, List.cons.injEq, Prod.mk.injEq, true_and] at hv
    obtain ⟨hoff, hrest⟩ := hv
    have hins := insertFragment_contig pay cs0 0
    simp only [Nat.zero_add] at hins
    have hadd : (⟨b, contig 0 cs0⟩ : Fragments).AddFragment pay hdr.GetFragmentOffset
        (!hdr.IsLastFragment) = ⟨!hdr.IsLastFragment, contig 0 (cs0 ++ [pay])⟩ := by
      simp only [Fragments.AddFragment, hoff, hins, if_true]
    simp only [addFragments, hadd] at h
    cases k with
    | zero =>
      simp only [List.getElem?_cons_zero, Option.some.injEq] at h
      exact ⟨(pay, hdr), by simp, by simp [← h]⟩
    | succ k =>
      simp only [List.getElem?_cons_succ] at h
      have hlen : (cs0 ++ [pay]).flatten.length = cs0.flatten.length + pay.length := by simp
      obtain ⟨x, hx, hst⟩ := ih (cs0 ++ [pay]) _ (by rw [hlen]; exact hrest) k st h
      exact ⟨x, by simpa using hx, by simp [hst]⟩

theorem expectedFragments_chained (p : List Nat) (H : RadeepHeader) (ck : Bool) (fs : Nat)
    (last : Bool) : ∀ (n offset : Nat), offset ≤ p.length →
      n * fs < p.length - offset ∨ n = 0 →
      (expectedFragments p H ck fs 0 last (n + 1) offset).map
          (fun x => (x.1, x.2.GetFragmentOffset)) =
        contig offset ((expectedFragments p H ck fs 0 last (n + 1) offset).map Prod.fst) := by
  intro n
  induction n with
  | zero =>
    intro offset _ _
    simp [expectedFragments, contig, fragmentAt_offset]
  | succ n ih =>
    intro offset hoff hlow
    have hfsn : fs ≤ (n + 1) * fs := Nat.le_mul_of_pos_left fs (by omega)
    have hmore : offset + fs < p.length := by omega
    have hlow2 : n * fs < p.length - (offset + fs) ∨ n = 0 := by
      rcases Nat.eq_zero_or_pos n with h0 | hpos
      · exact Or.inr h0
      · left
        have : (n + 1) * fs = n * fs + fs := by ring
        omega
    have ih1 := ih (offset + fs) (by omega) hlow2
    have hlen : (fragmentAt p H ck fs 0 last offset).1.length = fs := by
      rw [fragmentAt_fst, List.length_take, List.length_drop]
      split <;> omega
    rw [expectedFragments, List.map_cons, List.map_cons, contig, ih1, hlen, fragmentAt_offset]
    rfl

/-- C3: when fragmentation applies to a payload `P` under a terminal header with fragment
offset 0, adding the fragments of `DoFragmentation` in order to an empty fragment set leaves
`IsEntire` false after every fragment but the last and true after the last, and `GetPacket`
then returns `P`. -/
theorem fragment_then_reassemble (ck : Bool) (P : List Nat) (H : RadeepHeader) (m : Nat)
    (hL : P.length ≤ 65535) (hs : H.GetSerializedSize = 20)
    (ho0 : H.GetFragmentOffset = 0) (hterm : H.IsLastFragment = true)
    (hfs : 8 ≤ (m - 20) &&& 4294967288) (hbig : P.length + 20 > m) :
    ∃ frags : List RadeepPayloadHeaderPair,
      (∀ fuel, P.length ≤ fuel → DoFragmentation fuel ck P H m = .ok frags) ∧
      (addFragments Fragments.new frags).length = frags.length ∧
      (∀ k st, (addFragments Fragments.new frags)[k]? = some st →
        st.IsEntire = decide (k + 1 = frags.length)) ∧
      ∃ st, (addFragments Fragments.new frags).getLast? = some st ∧ st.GetPacket = .ok P := by
  obtain ⟨n, hn, hup, hlow, hrun⟩ := DoFragmentation_expected ck P H m hL hs
    (by rw [ho0]) (by rw [ho0]; omega) hfs hbig
  generalize (m - 20) &&& 4294967288 = fs at *
  rw [ho0, hterm] at hrun
  have hfsn : fs ≤ (n + 1) * fs := Nat.le_mul_of_pos_left fs (by omega)
  have hn1 : (n + 1) * fs = n * fs + fs := by ring
  have hnL : n + 1 ≤ P.length := by
    have : n * 8 ≤ n * fs := Nat.mul_le_mul_left _ hfs
    omega
  generalize hfr : expectedFragments P H ck fs 0 true (n + 1) 0 = frags at hrun
  have hlenf : frags.length = n + 1 := by rw [← hfr, expectedFragments_length]
  have hflat : (frags.map Prod.fst).flatten = P := by
    have := expectedFragments_flatten P H ck fs 0 true n 0 (by omega) (by omega)
      (Or.inl (by omega))
    rw [hfr] at this
    simpa using this
  have hchain : frags.map (fun x => (x.1, x.2.GetFragmentOffset)) =
      contig ([] : List (List Nat)).flatten.length (frags.map Prod.fst) := by
    have := expectedFragments_chained P H ck fs true n 0 (by omega) (Or.inl (by omega))
    rw [hfr] at this
    simpa using this
  have hstates := addFragments_chained frags [] false hchain
  have hnew : (⟨false, contig 0 []⟩ : Fragments) = Fragments.new := rfl
  rw [hnew] at hstates
  have hlast : ∀ k x, frags[k]? = some x → x.2.IsLastFragment = decide (k = n) := by
    intro k x hk
    have hklt : k < n + 1 := by
      rw [← hlenf]
      exact (List.getElem?_eq_some.1 hk).1
    rw [← hfr, expectedFragments_getElem _ _ _ _ _ _ _ _ k hklt] at hk
    cases hk
    rw [fragmentAt_isLast]
    have hkfs : k * fs ≤ n * fs := Nat.mul_le_mul_right fs (by omega)
    by_cases hkn : k = n
    · subst hkn
      have : ¬ P.length > 0 + k * fs + fs := by omega
      rw [if_neg this]
      simp
    · have hk1 : (k + 1) * fs ≤ n * fs := Nat.mul_le_mul_right fs (by omega)
      have hk2 : (k + 1) * fs = k * fs + fs := by ring
      have : P.length > 0 + k * fs + fs := by omega
      rw [if_pos this]
      simp [hkn]
  refine ⟨frags, fun fuel hfuel => hrun fuel (by omega), addFragments_length _ _, ?_, ?_⟩
  · intro k st hk
    obtain ⟨x, hx, rfl⟩ := hstates k st hk
    have hxl := hlast k x hx
    have hklt : k < n + 1 := by
      rw [← hlenf]
      exact (List.getElem?_eq_some.1 hx).1
    by_cases hkn : k = n
    · subst hkn
      have htake : frags.take (k + 1) = frags := List.take_of_length_le (by omega)
      have hne : frags.map Prod.fst ≠ [] := by
        intro h0
        have := congrArg List.length h0
        rw [List.length_map, hlenf] at this
        simp at this
      have hent := isEntireLoop_contig (frags.map Prod.fst) 0 0 (Nat.le_refl _)
        (by rw [hflat]; omega)
      obtain ⟨c, cs, hcs⟩ := List.exists_cons_of_ne_nil hne
      simp only [Fragments.IsEntire, hxl, htake, List.nil_append, hlenf]
      rw [hcs] at hent ⊢
      simpa [contig] using hent
    · have : ¬ k + 1 = frags.length := by omega
      simp [Fragments.IsEntire, hxl, hkn, this]
  · have hlen2 := addFragments_length frags Fragments.new
    have hnth : (addFragments Fragments.new frags)[n]? ≠ none := by
      intro h0
      have := List.getElem?_eq_none_iff.1 h0
      rw [hlen2, hlenf] at this
      omega
    obtain ⟨st, hst⟩ := Option.ne_none_iff_exists'.1 hnth
    refine ⟨st, ?_, ?_⟩
    · rw [List.getLast?_eq_getElem?, hlen2, hlenf]
      simpa using hst
    · obtain ⟨x, hx, rfl⟩ := hstates n st hst
      have htake : frags.take (n + 1) = frags := List.take_of_length_le (by omega)
      have hne : frags.map Prod.fst ≠ [] := by
        intro h0
        have := congrArg List.length h0
        rw [List.length_map, hlenf] at this
        simp at this
      obtain ⟨c, cs, hcs⟩ := List.exists_cons_of_ne_nil hne
      have hfl2 : c ++ cs.flatten = P := by
        rw [hcs] at hflat
        simpa using hflat
      have hgp := getPacketLoop_contig cs c (by
        have := congrArg List.length hfl2
        rw [List.length_append] at this
        omega)
      simp only [Fragments.GetPacket, htake, List.nil_append, hcs, contig, Nat.zero_add]
      rw [hgp, hfl2]

theorem fragment_then_reassemble_witness :
    ∃ frags : List RadeepPayloadHeaderPair,
      DoFragmentation 100 false (List.range 100) exampleHeader 68 = .ok frags ∧
      ∃ st, (addFragments Fragments.new frags).getLast? = some st ∧
        st.GetPacket = .ok (List.range 100) := by
  obtain ⟨frags, h1, -, -, h4⟩ := fragment_then_reassemble false (List.range 100) exampleHeader
    68 (by decide) (by decide) (by decide) (by decide) (by decide) (by decide)
  exact ⟨frags, h1 100 (by decide), h4⟩

/-! ## Static routing lookup -/

theorem prefixLengthLoop_le : ∀ (fuel mask tmp : Nat), prefixLengthLoop fuel mask tmp ≤ tmp + fuel
  | 0, _, _ => by simp [prefixLengthLoop]
  | fuel + 1, mask, tmp => by
    simp only [prefixLengthLoop]
    split
    · have := prefixLengthLoop_le fuel ((mask <<< 1) % 4294967296) (tmp + 1)
      omega
    · omega

theorem GetPrefixLength_le (mask : Nat) : GetPrefixLength mask ≤ 32 := by
  have := prefixLengthLoop_le 32 mask 0
  simpa [GetPrefixLength] using this

/-- The length of the mask with `n` set high bits is `n`. -/
theorem GetPrefixLength_prefixMask : ∀ n, n ≤ 32 → GetPrefixLength (prefixMask n) = n := by
  decide

theorem lookupLoop_post (node : RadeepNode) (dest : Nat) :
    ∀ (rest pre : NetworkRoutes) (rt : Option RadeepRoute) (longest shortest : Nat),
      (∀ e ∈ rest, e.2 < 4294967296) →
      lookupInv node dest pre rt longest shortest →
      lookupPost node dest (pre ++ rest) (lookupLoop node dest none rest rt longest shortest) := by
  intro rest
  induction rest with
  | nil =>
    intro pre rt longest shortest _ hinv
    simp only [lookupLoop, List.append_nil]
    cases rt with
    | none => exact hinv.2.2
    | some r =>
      obtain ⟨e, he, hr, hm, hl, hmax⟩ := hinv
      exact ⟨e, he, hr, hm, fun e1 h1 hm1 => by rw [hl]; exact hmax e1 h1 hm1⟩
  | cons i rest ih =>
    intro pre rt longest shortest hmet hinv
    have hmi : i.2 < 4294967296 := hmet i (List.mem_cons_self _ _)
    have hmr : ∀ e ∈ rest, e.2 < 4294967296 := fun e he => hmet e (List.mem_cons_of_mem _ he)
    have happ : pre ++ i :: rest = (pre ++ [i]) ++ rest := by simp
    have hle := GetPrefixLength_le i.1.m_destNetworkMask
    have hmod : GetPrefixLength i.1.m_destNetworkMask % 65536
        = GetPrefixLength i.1.m_destNetworkMask := by omega
    rw [happ]
    simp only [lookupLoop, RadeepRoutingTableEntry.GetDestNetworkMask,
      RadeepRoutingTableEntry.GetDestNetwork, hmod, Option.isSome_none, Bool.false_and]
    by_cases hmatch : IsMatch i.1.m_destNetworkMask dest i.1.m_dest = true
    · simp only [hmatch, if_true, Bool.false_eq_true, if_false]
      have hpre_le : ∀ e1 ∈ pre, IsMatch e1.1.m_destNetworkMask dest e1.1.m_dest = true →
          GetPrefixLength e1.1.m_destNetworkMask ≤ longest := by
        intro e1 he1 hm1
        cases rt with
        | none => rw [hinv.2.2 e1 he1] at hm1; cases hm1
        | some r =>
          obtain ⟨e, he, hr, hm, hl, hmax⟩ := hinv
          exact hmax e1 he1 hm1
      by_cases hlt : GetPrefixLength i.1.m_destNetworkMask < longest
      · simp only [hlt, if_true]
        apply ih _ _ _ _ hmr
        cases rt with
        | none => have := hinv.1; omega
        | some r =>
          obtain ⟨e, he, hr, hm, hl, hmax⟩ := hinv
          refine ⟨e, List.mem_append_left _ he, hr, hm, hl, ?_⟩
          intro e1 he1 hm1
          rcases List.mem_append.1 he1 with he1 | he1
          · exact hmax e1 he1 hm1
          · rw [List.mem_singleton.1 he1]; omega
      · simp only [hlt, if_false]
        by_cases hmet2 : i.2 > (if GetPrefixLength i.1.m_destNetworkMask > longest
            then 0xffffffff else shortest)
        · simp only [hmet2, if_true]
          apply ih _ _ _ _ hmr
          have hgt : ¬ GetPrefixLength i.1.m_destNetworkMask > longest := by
            intro hgt
            rw [if_pos hgt] at hmet2
            omega
          rw [if_neg hgt] at hmet2 ⊢
          have heq : GetPrefixLength i.1.m_destNetworkMask = longest := by omega
          rw [heq]
          cases rt with
          | none => have := hinv.2.1; omega
          | some r =>
            obtain ⟨e, he, hr, hm, hl, hmax⟩ := hinv
            refine ⟨e, List.mem_append_left _ he, hr, hm, hl, ?_⟩
            intro e1 he1 hm1
            rcases List.mem_append.1 he1 with he1 | he1
            · exact hmax e1 he1 hm1
            · rw [List.mem_singleton.1 he1]; omega
        · simp only [hmet2, if_false]
          have hsel : lookupInv node dest (pre ++ [i]) (some (routeOfEntry node i.1))
              (GetPrefixLength i.1.m_destNetworkMask) i.2 := by
            refine ⟨i, by simp, rfl, hmatch, rfl, ?_⟩
            intro e1 he1 hm1
            rcases List.mem_append.1 he1 with he1 | he1
            · have := hpre_le e1 he1 hm1; omega
            · rw [List.mem_singleton.1 he1]
          by_cases h32 : GetPrefixLength i.1.m_destNetworkMask = 32
          · simp only [h32, beq_self_eq_true, if_true]
            refine ⟨i, by simp, rfl, hmatch, ?_⟩
            intro e1 _ _
            rw [h32]
            exact GetPrefixLength_le _
          · have hb : (GetPrefixLength i.1.m_destNetworkMask == 32) = false := by
              simpa using h32
            simp only [hb, Bool.false_eq_true, if_false]
            exact ih _ _ _ _ hmr hsel
    · have hmf : IsMatch i.1.m_destNetworkMask dest i.1.m_dest = false := by
        simpa using hmatch
      simp only [hmf, Bool.false_eq_true, if_false]
      apply ih _ _ _ _ hmr
      cases rt with
      | none =>
        refine ⟨hinv.1, hinv.2.1, ?_⟩
        intro e he
        rcases List.mem_append.1 he with he | he
        · exact hinv.2.2 e he
        · rw [List.mem_singleton.1 he]; exact hmf
      | some r =>
        obtain ⟨e, he, hr, hm, hl, hmax⟩ := hinv
        refine ⟨e, List.mem_append_left _ he, hr, hm, hl, ?_⟩
        intro e1 he1 hm1
        rcases List.mem_append.1 he1 with he1 | he1
        · exact hmax e1 he1 hm1
        · rw [List.mem_singleton.1 he1] at hm1
          exact absurd hm1 hmatch


/-- C4: for a table of contiguous masks and 32-bit metrics, a destination that is not
link-local multicast and no output-device filter, `LookupStatic` returns the null route iff
no entry matches (`d & mask = network & mask`); otherwise the route it returns is built from
an entry that matches and no matching entry has a longer mask.  With 10.0.0.0/24 and
10.0.0.0/16 in the table 10.0.0.5 resolves to the /24 entry, and after `RemoveRoute` of the
/24 to the /16 entry. -/
theorem LookupStatic_longest_prefix (node : RadeepNode) (routes : NetworkRoutes) (d : Nat)
    (hd : IsLocalMulticast d = false)
    (hmasks : ∀ e ∈ routes, ∃ n, n ≤ 32 ∧ e.1.m_destNetworkMask = prefixMask n)
    (hmetric : ∀ e ∈ routes, e.2 < 4294967296) :
    (∃ r, LookupStatic node routes d none = .ok r ∧
      (r = none ↔ ∀ e ∈ routes,
        d &&& e.1.m_destNetworkMask ≠ e.1.m_dest &&& e.1.m_destNetworkMask) ∧
      (∀ rt, r = some rt → ∃ e ∈ routes, rt = routeOfEntry node e.1 ∧
        d &&& e.1.m_destNetworkMask = e.1.m_dest &&& e.1.m_destNetworkMask ∧
        ∃ n, n ≤ 32 ∧ e.1.m_destNetworkMask = prefixMask n ∧
          ∀ e1 ∈ routes,
            d &&& e1.1.m_destNetworkMask = e1.1.m_dest &&& e1.1.m_destNetworkMask →
            ∃ n1, n1 ≤ n ∧ e1.1.m_destNetworkMask = prefixMask n1)) ∧
    LookupStatic exampleNode exampleRoutes 0x0a000005 none =
      .ok (some (routeOfEntry exampleNode ⟨0x0a000000, 0xffffff00, 0, 1⟩)) ∧
    (∃ routes1, RemoveRoute exampleRoutes 0 = .ok routes1 ∧
      LookupStatic exampleNode routes1 0x0a000005 none =
        .ok (some (routeOfEntry exampleNode ⟨0x0a000000, 0xffff0000, 0, 2⟩))) ∧
    LookupStatic exampleNode exampleRoutesRev 0x0a000005 none =
      .ok (some (routeOfEntry exampleNode ⟨0x0a000000, 0xffffff00, 0, 1⟩)) ∧
    (∃ routes1, RemoveRoute exampleRoutesRev 1 = .ok routes1 ∧
      LookupStatic exampleNode routes1 0x0a000005 none =
        .ok (some (routeOfEntry exampleNode ⟨0x0a000000, 0xffff0000, 0, 2⟩))) := by
  refine ⟨?_, rfl, ⟨_, rfl, rfl⟩, rfl, ⟨_, rfl, rfl⟩⟩
  have hpost := lookupLoop_post node d routes [] none 0 0xffffffff hmetric
    ⟨rfl, rfl, fun e he => by cases he⟩
  simp only [List.nil_append] at hpost
  have hmatch_iff : ∀ e : RadeepRoutingTableEntry × Nat,
      IsMatch e.1.m_destNetworkMask d e.1.m_dest = true ↔
        d &&& e.1.m_destNetworkMask = e.1.m_dest &&& e.1.m_destNetworkMask := by
    intro e; simp [IsMatch]
  refine ⟨lookupLoop node d none routes none 0 0xffffffff, by simp [LookupStatic, hd], ?_, ?_⟩
  · constructor
    · intro hr e he
      rw [hr] at hpost
      have := hpost e he
      intro hc
      rw [(hmatch_iff e).2 hc] at this
      cases this
    · intro hno
      cases hres : lookupLoop node d none routes none 0 0xffffffff with
      | none => rfl
      | some rt =>
        rw [hres] at hpost
        obtain ⟨e, he, _, hm, _⟩ := hpost
        exact absurd ((hmatch_iff e).1 hm) (hno e he)
  · intro rt hr
    rw [hr] at hpost
    obtain ⟨e, he, hrt, hm, hmax⟩ := hpost
    obtain ⟨n, hn, hmask⟩ := hmasks e he
    refine ⟨e, he, hrt, (hmatch_iff e).1 hm, n, hn, hmask, ?_⟩
    intro e1 he1 hm1
    obtain ⟨n1, hn1, hmask1⟩ := hmasks e1 he1
    have := hmax e1 he1 ((hmatch_iff e1).2 hm1)
    rw [hmask, hmask1, GetPrefixLength_prefixMask n hn, GetPrefixLength_prefixMask n1 hn1] at this
    exact ⟨n1, this, hmask1⟩

theorem LookupStatic_longest_prefix_witness :
    ∃ r, LookupStatic exampleNode exampleRoutes 0x0a000005 none = .ok r ∧ r ≠ none := by
  obtain ⟨⟨r, hr, -, -⟩, h2, -, -, -⟩ := LookupStatic_longest_prefix exampleNode exampleRoutes
    0x0a000005 (by decide)
    (by
      intro e he
      simp only [exampleRoutes, AddNetworkRouteTo, List.nil_append, List.cons_append,
        List.mem_cons, List.mem_singleton, List.not_mem_nil, or_false] at he
      rcases he with rfl | rfl
      · exact ⟨24, by decide, by decide⟩
      · exact ⟨16, by decide, by decide⟩)
    (by
      intro e he
      simp only [exampleRoutes, AddNetworkRouteTo, List.nil_append, List.cons_append,
        List.mem_cons, List.mem_singleton, List.not_mem_nil, or_false] at he
      rcases he with rfl | rfl <;> decide)
  refine ⟨r, hr, ?_⟩
  rw [hr] at h2
  intro h0
  rw [h0] at h2
  cases h2
/-! ## Address registry -/

theorem rangesAbove_mem : ∀ (s : List Entry) (lo : Nat), rangesAbove lo s →
    ∀ e ∈ s, lo < e.addrLow ∧ e.addrLow ≤ e.addrHigh ∧ e.addrHigh < 4294967296
  | [], _, _, e, he => by cases he
  | i :: rest, lo, h, e, he => by
    obtain ⟨h1, h2, h3, h4⟩ := h
    rcases List.mem_cons.1 he with rfl | he
    · exact ⟨h1, h2, h3⟩
    · have := rangesAbove_mem rest i.addrHigh h4 e he
      exact ⟨by omega, this.2.1, this.2.2⟩

theorem rangesAbove_mono : ∀ (s : List Entry) (lo lo1 : Nat), lo1 ≤ lo → rangesAbove lo s →
    rangesAbove lo1 s
  | [], _, _, _, _ => trivial
  | i :: rest, lo, lo1, hle, h => ⟨by have := h.1; omega, h.2.1, h.2.2.1, h.2.2.2⟩

theorem covered_cons (i : Entry) (rest : List Entry) (x : Nat) :
    covered (i :: rest) x ↔ (i.addrLow ≤ x ∧ x ≤ i.addrHigh) ∨ covered rest x := by
  simp [covered]

theorem covered_nil (x : Nat) : covered [] x ↔ False := by
  simp [covered]

theorem not_covered_of_lt (s : List Entry) (lo a : Nat) (h : rangesAbove lo s) (ha : a ≤ lo) :
    ¬ covered s a := by
  rintro ⟨e, he, h1, _⟩
  have := (rangesAbove_mem s lo h e he).1
  omega

/-- The loop of `AddAllocated` on a well-formed registry, for both modes at once: `b` says
whether the address was free, `s1` is the registry after a successful addition. -/
theorem addAllocatedLoop_spec : ∀ (s : List Entry) (lo a : Nat), rangesAbove lo s → lo < a →
    a < 4294967296 →
    ∃ (b : Bool) (s1 : List Entry),
      (∀ t : Bool, addAllocatedLoop t a s =
        if b then .ok (true, s1) else if t then .ok (false, s) else .error Fault.fatal) ∧
      (b = false ↔ covered s a) ∧
      (b = true → (∀ x, covered s1 x ↔ covered s x ∨ x = a) ∧ rangesAbove lo s1)
  | [], lo, a, _, hlo, ha => by
    refine ⟨true, [⟨a, a⟩], fun t => by simp [addAllocatedLoop], by simp [covered], fun _ => ?_⟩
    refine ⟨fun x => ?_, hlo, Nat.le_refl _, ha, trivial⟩
    simp [covered]
    omega
  | i :: rest, lo, a, hwf, hlo, ha => by
    obtain ⟨h1, h2, h3, h4⟩ := hwf
    have elow : (i.addrLow + 4294967296 - 1) % 4294967296 = i.addrLow - 1 := by omega
    by_cases hin : i.addrLow ≤ a ∧ a ≤ i.addrHigh
    · -- collision with the current range
      have hin1 : (decide (a ≥ i.addrLow) && decide (a ≤ i.addrHigh)) = true := by
        simpa using hin
      refine ⟨false, i :: rest, fun t => ?_, ?_, fun h => by cases h⟩
      · simp only [addAllocatedLoop, hin1, if_true]
        cases t <;> rfl
      · simp only [true_iff]
        exact (covered_cons i rest a).2 (Or.inl hin)
    · have hin1 : ¬ (decide (a ≥ i.addrLow) && decide (a ≤ i.addrHigh)) = true := by
        simpa using hin
      by_cases hbefore : a < i.addrLow - 1
      · -- new range before the current one
        refine ⟨true, ⟨a, a⟩ :: i :: rest, fun t => ?_, ?_, fun _ => ⟨fun x => ?_, ?_⟩⟩
        · simp only [addAllocatedLoop, hin1, elow, hbefore, if_true, if_false, Bool.false_eq_true]
        · simp only [Bool.true_eq_false, false_iff]
          exact not_covered_of_lt (i :: rest) a a ⟨by omega, h2, h3, h4⟩ (Nat.le_refl _)
        · rw [covered_cons]
          show (a ≤ x ∧ x ≤ a) ∨ covered (i :: rest) x ↔ covered (i :: rest) x ∨ x = a
          constructor
          · rintro (h | h)
            · right; omega
            · left; exact h
          · rintro (h | h)
            · right; exact h
            · left; omega
        · exact ⟨hlo, Nat.le_refl _, ha, show a < i.addrLow by omega, h2, h3, h4⟩
      · by_cases hext : a = (i.addrHigh + 1) % 4294967296
        · have hext1 : a = i.addrHigh + 1 := by omega
          have hextb : (a == (i.addrHigh + 1) % 4294967296) = true := by simpa using hext
          -- extension of the current range upwards, unless the next range starts here
          cases rest with
          | nil =>
            refine ⟨true, [{ i with addrHigh := a }], fun t => ?_, ?_,
              fun _ => ⟨fun x => ?_, ?_⟩⟩
            · simp only [addAllocatedLoop, hin1, elow, hbefore, hextb, if_true, if_false, Bool.false_eq_true]
            · simp only [Bool.true_eq_false, false_iff, covered_cons]
              rintro (h | h)
              · exact hin h
              · simp [covered] at h
            · simp only [covered_cons, covered_nil, or_false]
              show (i.addrLow ≤ x ∧ x ≤ a) ↔ (i.addrLow ≤ x ∧ x ≤ i.addrHigh) ∨ x = a
              omega
            · exact ⟨h1, show i.addrLow ≤ a by omega, ha, trivial⟩
          | cons j rest =>
            obtain ⟨j1, j2, j3, j4⟩ := h4
            by_cases hj : a = j.addrLow
            · have hjb : (a == j.addrLow) = true := by simpa using hj
              refine ⟨false, i :: j :: rest, fun t => ?_, ?_, fun h => by cases h⟩
              · simp only [addAllocatedLoop, hin1, elow, hbefore, hextb, hjb, if_true, if_false, Bool.false_eq_true]
                cases t <;> rfl
              · simp only [true_iff, covered_cons]
                right; left; omega
            · have hjb : ¬ (a == j.addrLow) = true := by simpa using hj
              refine ⟨true, { i with addrHigh := a } :: j :: rest, fun t => ?_, ?_,
                fun _ => ⟨fun x => ?_, ?_⟩⟩
              · simp only [addAllocatedLoop, hin1, elow, hbefore, hextb, hjb, if_true,
                  if_false, Bool.false_eq_true]
              · simp only [Bool.true_eq_false, false_iff, covered_cons]
                rintro (h | h | h)
                · exact hin h
                · omega
                · exact not_covered_of_lt rest j.addrHigh a j4 (by omega) h
              · simp only [covered_cons]
                show (i.addrLow ≤ x ∧ x ≤ a) ∨ (j.addrLow ≤ x ∧ x ≤ j.addrHigh) ∨ covered rest x
                  ↔ ((i.addrLow ≤ x ∧ x ≤ i.addrHigh) ∨ (j.addrLow ≤ x ∧ x ≤ j.addrHigh) ∨
                    covered rest x) ∨ x = a
                constructor
                · rintro (h | h | h)
                  · by_cases hx : x = a
                    · right; exact hx
                    · left; left; omega
                  · left; right; left; exact h
                  · left; right; right; exact h
                · rintro ((h | h | h) | h)
                  · left; omega
                  · right; left; exact h
                  · right; right; exact h
                  · left; omega
              · exact ⟨h1, show i.addrLow ≤ a by omega, ha, show a < j.addrLow by omega, j2,
                  j3, j4⟩
        · have hext2 : ¬ (a == (i.addrHigh + 1) % 4294967296) = true := by simpa using hext
          by_cases hdown : a = i.addrLow - 1
          · -- extension of the current range downwards
            have hdownb : (a == i.addrLow - 1) = true := by simpa using hdown
            refine ⟨true, { i with addrLow := a } :: rest, fun t => ?_, ?_,
              fun _ => ⟨fun x => ?_, ?_⟩⟩
            · simp only [addAllocatedLoop, hin1, elow, hbefore, hext2, hdownb, if_true,
                if_false, Bool.false_eq_true]
            · simp only [Bool.true_eq_false, false_iff, covered_cons]
              rintro (h | h)
              · exact hin h
              · exact not_covered_of_lt rest i.addrHigh a h4 (by omega) h
            · simp only [covered_cons]
              show (a ≤ x ∧ x ≤ i.addrHigh) ∨ covered rest x
                ↔ ((i.addrLow ≤ x ∧ x ≤ i.addrHigh) ∨ covered rest x) ∨ x = a
              constructor
              · rintro (h | h)
                · by_cases hx : x = a
                  · right; exact hx
                  · left; left; omega
                · left; right; exact h
              · rintro ((h | h) | h)
                · left; omega
                · right; exact h
                · left; omega
            · exact ⟨hlo, show a ≤ i.addrHigh by omega, h3, h4⟩
          · -- the address lies beyond this range: go on with the next one
            have hdown2 : ¬ (a == i.addrLow - 1) = true := by simpa using hdown
            have hgt : i.addrHigh < a := by omega
            obtain ⟨b, s1, hrun, hb, hs1⟩ := addAllocatedLoop_spec rest i.addrHigh a h4 hgt ha
            refine ⟨b, i :: s1, fun t => ?_, ?_, fun hbt => ⟨fun x => ?_, ?_⟩⟩
            · simp only [addAllocatedLoop, hin1, elow, hbefore, hext2, hdown2, if_false,
                Bool.false_eq_true, hrun t]
              cases b <;> cases t <;> rfl
            · rw [hb, covered_cons]
              constructor
              · intro h; right; exact h
              · rintro (h | h)
                · exact absurd h hin
                · exact h
            · rw [covered_cons, covered_cons, (hs1 hbt).1 x]
              constructor
              · rintro (h | h | h)
                · left; left; exact h
                · left; right; exact h
                · right; exact h
              · rintro ((h | h) | h)
                · left; exact h
                · right; left; exact h
                · right; right; exact h
            · exact ⟨h1, h2, h3, (hs1 hbt).2⟩

theorem AddAllocated_eq_loop (t : Bool) (s : List Entry) (a : Nat) (ha0 : a ≠ 0) :
    AddAllocated t s a = addAllocatedLoop t a s := by
  have : (a == 0) = false := by simpa using ha0
  simp [AddAllocated, this]

theorem AddAllocated_ok_ne_zero (t : Bool) (s : List Entry) (a : Nat) (r : Bool × List Entry)
    (h : AddAllocated t s a = .ok r) : a ≠ 0 := by
  rintro rfl
  simp [AddAllocated] at h

/-- A reachable registry is well formed and covers exactly the addresses added to it. -/
theorem Reachable_inv (as : List Nat) (s : List Entry) (h : Reachable as s) :
    rangesAbove 0 s ∧ ∀ x, covered s x ↔ x ∈ as := by
  induction h with
  | empty => exact ⟨trivial, fun x => by simp [covered]⟩
  | added as s s1 a _ ha hadd ih =>
    have ha0 := AddAllocated_ok_ne_zero _ _ _ _ hadd
    rw [AddAllocated_eq_loop _ _ _ ha0] at hadd
    obtain ⟨b, s2, hrun, hb, hs2⟩ := addAllocatedLoop_spec s 0 a ih.1 (by omega) ha
    rw [hrun true] at hadd
    cases b with
    | false => simp at hadd
    | true =>
      simp only [if_true, Except.ok.injEq, Prod.mk.injEq, true_and] at hadd
      subst hadd
      refine ⟨(hs2 rfl).2, fun x => ?_⟩
      rw [(hs2 rfl).1 x, ih.2 x, List.mem_cons]
      exact Or.comm
  | refused as s s1 a _ ha hadd ih =>
    have ha0 := AddAllocated_ok_ne_zero _ _ _ _ hadd
    rw [AddAllocated_eq_loop _ _ _ ha0] at hadd
    obtain ⟨b, s2, hrun, hb, hs2⟩ := addAllocatedLoop_spec s 0 a ih.1 (by omega) ha
    rw [hrun true] at hadd
    cases b with
    | false =>
      simp only [Bool.false_eq_true, if_false, if_true, Except.ok.injEq, Prod.mk.injEq,
        true_and] at hadd
      subst hadd
      exact ih
    | true => simp at hadd

/-- C5: on a registry reached from the empty one by test-mode `AddAllocated` calls, and for
a non-zero 32-bit address `a`: test-mode `AddAllocated` returns false iff `a` lies in an
existing range, which is so iff `a` was added before, and then the registry is unchanged;
otherwise it returns true and the covered addresses become the old ones plus exactly `a`.
Non-test mode ends in the fatal error where test mode returns false and agrees with it
otherwise. -/
theorem AddAllocated_collision (as : List Nat) (s : List Entry) (a : Nat)
    (hreach : Reachable as s) (ha0 : a ≠ 0) (ha : a < 4294967296) :
    ∃ (b : Bool) (s1 : List Entry),
      AddAllocated true s a = .ok (b, s1) ∧
      (b = false ↔ covered s a) ∧ (covered s a ↔ a ∈ as) ∧
      (b = false → s1 = s) ∧
      (b = true → ∀ x, covered s1 x ↔ covered s x ∨ x = a) ∧
      AddAllocated false s a = (if b then .ok (true, s1) else .error Fault.fatal) := by
  obtain ⟨hwf, hcov⟩ := Reachable_inv as s hreach
  obtain ⟨b, s2, hrun, hb, hs2⟩ := addAllocatedLoop_spec s 0 a hwf (by omega) ha
  rw [AddAllocated_eq_loop _ _ _ ha0, AddAllocated_eq_loop _ _ _ ha0, hrun true, hrun false]
  cases b with
  | false =>
    exact ⟨false, s, rfl, hb, hcov a, fun _ => rfl, (fun h => by cases h), rfl⟩
  | true =>
    exact ⟨true, s2, rfl, hb, hcov a, (fun h => by cases h), fun _ => (hs2 rfl).1, rfl⟩

theorem AddAllocated_collision_witness :
    ∃ (b : Bool) (s1 : List Entry),
      AddAllocated true [⟨5, 5⟩] 5 = .ok (b, s1) ∧
      (b = false ↔ covered [⟨5, 5⟩] 5) ∧ (covered [⟨5, 5⟩] 5 ↔ 5 ∈ [5]) ∧
      (b = false → s1 = [⟨5, 5⟩]) ∧
      (b = true → ∀ x, covered s1 x ↔ covered [⟨5, 5⟩] x ∨ x = 5) ∧
      AddAllocated false [⟨5, 5⟩] 5 = (if b then .ok (true, s1) else .error Fault.fatal) :=
  AddAllocated_collision [5] [⟨5, 5⟩] 5
    (Reachable.added [] [] [⟨5, 5⟩] 5 Reachable.empty (by decide) rfl) (by decide) (by decide)

/-! ## Reassembled payload -/

/-- One iteration of the `GetPacket` loop on a fragment that starts inside or at the end of
the data assembled so far: the fragment contributes its part beyond that data. -/
theorem getPacketLoop_step (it : List Nat × Nat) (rest : List (List Nat × Nat)) (p : List Nat)
    (hoff : it.2 ≤ p.length) (hp : p.length ≤ 65535) (hlen : it.1.length < 4294967296) :
    getPacketLoop (it :: rest) p = getPacketLoop rest (p ++ it.1.drop (p.length - it.2)) := by
  have e1 : p.length % 65536 = p.length := by omega
  simp only [getPacketLoop, e1]
  by_cases hgt : p.length > it.2
  · have e2 : (p.length + 4294967296 - it.2) % 4294967296 = p.length - it.2 := by omega
    simp only [hgt, if_true, e2]
    by_cases hsz : it.1.length > p.length - it.2
    · have e3 : (it.1.length + 4294967296 - (p.length - it.2)) % 4294967296
          = it.1.length - (p.length - it.2) := by omega
      have hc : CreateFragment it.1 (p.length - it.2) (it.1.length - (p.length - it.2))
          = .ok (it.1.drop (p.length - it.2)) := by
        have hle : p.length - it.2 + (it.1.length - (p.length - it.2)) ≤ it.1.length := by omega
        simp only [CreateFragment, hle, if_true]
        rw [List.take_of_length_le (by rw [List.length_drop])]
      simp only [hsz, if_true, e3, hc]
    · have hd : it.1.drop (p.length - it.2) = [] := List.drop_of_length_le (by omega)
      simp only [hsz, if_false, hd, List.append_nil]
  · have e0 : p.length - it.2 = 0 := by omega
    simp only [hgt, if_false, e0, List.drop_zero]

/-- The loop of `GetPacket` on fragments without gap and without 16-bit wrap: the data
assembled so far stays as it is, the result is as long as the greatest end offset, and every
new position holds the byte of the first fragment covering it. -/
theorem getPacketLoop_first_cover : ∀ (rest : List (List Nat × Nat)) (p : List Nat),
    (∀ x ∈ rest, x.2 + x.1.length ≤ 65535) → p.length ≤ 65535 →
    (∀ k x, rest[k]? = some x → x.2 ≤ max p.length (maxEnd (rest.take k))) →
    ∃ t, getPacketLoop rest p = .ok (p ++ t) ∧
      (p ++ t).length = max p.length (maxEnd rest) ∧
      ∀ k, p.length ≤ k → k < (p ++ t).length →
        ∃ (i : Nat) (x : List Nat × Nat), rest[i]? = some x ∧ x.2 ≤ k ∧ k < x.2 + x.1.length ∧
          (∀ (j : Nat) (y : List Nat × Nat), j < i → rest[j]? = some y → ¬ (y.2 ≤ k ∧ k < y.2 + y.1.length)) ∧
          (p ++ t)[k]? = x.1[k - x.2]?
  | [], p, _, _, _ => ⟨[], by simp [getPacketLoop], by simp [maxEnd], fun k h1 h2 => by
      simp at h2; omega⟩
  | it :: rest, p, hb, hp, hgap => by
    have hbit : it.2 + it.1.length ≤ 65535 := hb it (List.mem_cons_self _ _)
    have hoff : it.2 ≤ p.length := by
      have := hgap 0 it (by simp)
      simpa [maxEnd] using this
    have hlen1 : (p ++ it.1.drop (p.length - it.2)).length
        = max p.length (it.2 + it.1.length) := by
      rw [List.length_append, List.length_drop]; omega
    obtain ⟨t, hrun, hlen, hbytes⟩ := getPacketLoop_first_cover rest
      (p ++ it.1.drop (p.length - it.2))
      (fun x hx => hb x (List.mem_cons_of_mem _ hx)) (by rw [hlen1]; omega)
      (by
        intro k x hk
        have := hgap (k + 1) x (by simpa using hk)
        simp only [List.take_succ_cons, maxEnd] at this
        rw [hlen1]; omega)
    rw [List.append_assoc] at hrun hlen hbytes
    refine ⟨it.1.drop (p.length - it.2) ++ t, ?_, ?_, ?_⟩
    · rw [getPacketLoop_step it rest p hoff hp (by omega)]
      exact hrun
    · rw [hlen, hlen1]; simp only [maxEnd]; omega
    · intro k hk1 hk2
      by_cases hk : k < it.2 + it.1.length
      · refine ⟨0, it, by simp, by omega, hk, fun j y hj => by omega, ?_⟩
        rw [List.getElem?_append_right hk1, List.getElem?_append_left
          (by rw [List.length_drop]; omega), List.getElem?_drop]
        congr 1
        omega
      · obtain ⟨i, x, hx, hx1, hx2, hfirst, hbyte⟩ := hbytes k (by rw [hlen1]; omega) hk2
        refine ⟨i + 1, x, by simpa using hx, hx1, hx2, ?_, hbyte⟩
        intro j y hj hy
        cases j with
        | zero =>
          simp only [List.getElem?_cons_zero, Option.some.injEq] at hy
          subst hy
          omega
        | succ j =>
          exact hfirst j y (by omega) (by simpa using hy)

/-- C11 (amended): on a fragment set for which `IsEntire` holds and in which no fragment ends
beyond 65535, `GetPacket` returns a payload as long as the greatest end offset whose byte at
each position `k` is the byte of the first fragment, in the order of the set, that covers
`k`. -/
theorem GetPacket_first_cover (f : Fragments)
    (hbound : ∀ x ∈ f.m_fragments, x.2 + x.1.length ≤ 65535) (hent : f.IsEntire = true) :
    ∃ p, f.GetPacket = .ok p ∧ p.length = maxEnd f.m_fragments ∧
      ∀ k, k < p.length →
        ∃ (i : Nat) (x : List Nat × Nat), f.m_fragments[i]? = some x ∧ x.2 ≤ k ∧ k < x.2 + x.1.length ∧
          (∀ (j : Nat) (y : List Nat × Nat), j < i → f.m_fragments[j]? = some y →
            ¬ (y.2 ≤ k ∧ k < y.2 + y.1.length)) ∧
          p[k]? = x.1[k - x.2]? := by
  have hloop : isEntireLoop f.m_fragments 0 = true := by
    unfold Fragments.IsEntire at hent
    simp only at hent
    split at hent
    · exact hent
    · rename_i h; rw [hent] at h; exact absurd rfl h
  have hgap := (isEntireLoop_iff f.m_fragments 0 hbound).1 hloop
  obtain ⟨t, hrun, hlen, hbytes⟩ := getPacketLoop_first_cover f.m_fragments [] hbound
    (by simp) (by simpa using hgap)
  simp only [List.nil_append, List.length_nil, Nat.zero_max, Nat.zero_le, true_implies]
    at hrun hlen hbytes
  refine ⟨t, ?_, hlen, hbytes⟩
  cases hfr : f.m_fragments with
  | nil =>
    simp [Fragments.IsEntire, hfr] at hent
  | cons it rest =>
    rw [hfr] at hrun hgap
    have h0 : it.2 = 0 := by
      have := hgap 0 it (by simp)
      simpa [maxEnd] using this
    have hstep := getPacketLoop_step it rest [] (by simp [h0]) (by simp)
      (by have := hbound it (by rw [hfr]; exact List.mem_cons_self _ _); omega)
    simp only [List.nil_append, List.length_nil, Nat.zero_sub, List.drop_zero] at hstep
    simp only [Fragments.GetPacket, hfr]
    rw [← hstep]
    exact hrun

theorem GetPacket_first_cover_witness :
    ∃ p, (⟨false, [([1, 2, 3], 0), ([7, 8, 9], 1)]⟩ : Fragments).GetPacket = .ok p ∧
      p.length = 4 := by
  obtain ⟨p, h1, h2, -⟩ := GetPacket_first_cover ⟨false, [([1, 2, 3], 0), ([7, 8, 9], 1)]⟩
    (by simp) (by decide)
  exact ⟨p, h1, by rw [h2]; decide⟩

/-- One iteration of the `GetPacket` loop when the 16-bit length of the data assembled so far
does not exceed the offset of the fragment: the fragment is appended whole. -/
theorem getPacketLoop_append (it : List Nat × Nat) (rest : List (List Nat × Nat))
    (p : List Nat) (h : ¬ p.length % 65536 > it.2) :
    getPacketLoop (it :: rest) p = getPacketLoop rest (p ++ it.1) := by
  simp only [getPacketLoop, h, if_false]

theorem oversized_isEntire (A1 A2 B C : List Nat) (h1 : A1.length = 32768)
    (h2 : A2.length = 32760) (h3 : B.length = 16) :
    (⟨false, [(A1, 0), (A2, 32768), (B, 65528), (C, 65528)]⟩ : Fragments).IsEntire = true := by
  have e1 : (A1.length + 0) % 65536 = 32768 := by omega
  have e2 : (A2.length + 32768) % 65536 = 65528 := by omega
  have e3 : (B.length + 65528) % 65536 = 8 := by omega
  have m1 : max 0 32768 = 32768 := by omega
  have m2 : max 32768 65528 = 65528 := by omega
  have m3 : max 65528 8 = 65528 := by omega
  have n1 : ¬ (0 : Nat) < 0 := by omega
  have n2 : ¬ (32768 : Nat) < 32768 := by omega
  have n3 : ¬ (65528 : Nat) < 65528 := by omega
  have hret : (!false && decide ([(A1, 0), (A2, 32768), (B, 65528), (C, 65528)].length > 0))
      = true := rfl
  simp only [Fragments.IsEntire, hret, if_true, isEntireLoop, e1, e2, e3, m1, m2, m3, n1, n2,
    n3, if_false]

theorem oversized_maxEnd (A1 A2 B C : List Nat) (h1 : A1.length = 32768)
    (h2 : A2.length = 32760) (h3 : B.length = 16) (h4 : C.length = 24) :
    maxEnd [(A1, 0), (A2, 32768), (B, 65528), (C, 65528)] = 65552 := by
  have e : maxEnd [(A1, 0), (A2, 32768), (B, 65528), (C, 65528)] =
      max (0 + A1.length) (max (32768 + A2.length) (max (65528 + B.length)
        (max (65528 + C.length) 0))) := rfl
  rw [e, h1, h2, h3, h4]
  omega

theorem oversized_GetPacket (A1 A2 B C : List Nat) (h1 : A1.length = 32768)
    (h2 : A2.length = 32760) (h3 : B.length = 16) :
    (⟨false, [(A1, 0), (A2, 32768), (B, 65528), (C, 65528)]⟩ : Fragments).GetPacket
      = .ok (A1 ++ A2 ++ B ++ C) := by
  have hl2 : (A1 ++ A2).length = 65528 := by rw [List.length_append]; omega
  have hl3 : (A1 ++ A2 ++ B).length = 65544 := by rw [List.length_append]; omega
  have d1 : A1.length - 32768 = 0 := by omega
  have d2 : (A1 ++ A2).length - 65528 = 0 := by omega
  have e1 : (A1 ++ A2 ++ B).length % 65536 = 8 := by omega
  have n1 : ¬ (8 : Nat) > 65528 := by omega
  show getPacketLoop [(A2, 32768), (B, 65528), (C, 65528)] A1 = .ok (A1 ++ A2 ++ B ++ C)
  rw [getPacketLoop_step (A2, 32768) _ A1 (by show 32768 ≤ A1.length; omega) (by omega)
    (by show A2.length < 4294967296; omega)]
  simp only [d1, List.drop_zero]
  rw [getPacketLoop_step (B, 65528) _ (A1 ++ A2) (by show 65528 ≤ (A1 ++ A2).length; omega)
    (by omega) (by show B.length < 4294967296; omega)]
  simp only [d2, List.drop_zero]
  rw [getPacketLoop_append (C, 65528) [] (A1 ++ A2 ++ B)
    (by show ¬ (A1 ++ A2 ++ B).length % 65536 > 65528; omega), getPacketLoop]

theorem oversized_length (A1 A2 B C : List Nat) (h1 : A1.length = 32768)
    (h2 : A2.length = 32760) (h3 : B.length = 16) (h4 : C.length = 24) :
    (A1 ++ A2 ++ B ++ C).length = 65568 := by
  simp [h1, h2, h3, h4]

/-- C11 as stated fails once fragment ends pass 65535: `IsEntire` holds for the set
`oversizedFragments`, whose greatest end offset is 65552, yet `GetPacket` returns 65568 bytes
(the 24-byte fragment is appended whole after the 16-byte one that shares its offset). -/
theorem GetPacket_oversized_counterexample :
    oversizedFragments.IsEntire = true ∧
    maxEnd oversizedFragments.m_fragments = 65552 ∧
    ∃ p, oversizedFragments.GetPacket = .ok p ∧ p.length = 65568 := by
  have l1 : (List.replicate 32768 1).length = 32768 := List.length_replicate _ _
  have l2 : (List.replicate 32760 2).length = 32760 := List.length_replicate _ _
  have l3 : (List.replicate 16 3).length = 16 := List.length_replicate _ _
  have l4 : (List.replicate 24 4).length = 24 := List.length_replicate _ _
  exact ⟨oversized_isEntire _ _ _ _ l1 l2 l3, oversized_maxEnd _ _ _ _ l1 l2 l3 l4, _,
    oversized_GetPacket _ _ _ _ l1 l2 l3, oversized_length _ _ _ _ l1 l2 l3 l4⟩

/-! ## Fragment tables: completion and expiry -/

/-- C12: the last fragment (offset 8, 4 bytes) arrives first and is buffered; the first
fragment (offset 0, 8 bytes, more-fragments set) then completes the set.  `LocalDeliver` hands
on the 12 reassembled bytes under a header with fragment offset 0 and payload size 12 whose
more-fragments flag is still set, and both tables are empty again. -/
theorem LocalDeliver_out_of_order_keeps_more_fragments :
    ∃ s1 h p,
      LocalDeliver ReassemblyState.empty [9, 10, 11, 12] tailHeader 0 = .ok (s1, none) ∧
      LocalDeliver s1 [1, 2, 3, 4, 5, 6, 7, 8] headHeader 0
        = .ok (ReassemblyState.empty, some (h, p)) ∧
      p = [1, 2, 3, 4, 5, 6, 7, 8, 9, 10, 11, 12] ∧
      h.GetFragmentOffset = 0 ∧ h.GetPayloadSize = p.length ∧ h.IsLastFragment = false :=
  ⟨_, _, _, rfl, rfl, rfl, rfl, rfl, rfl⟩

/-- C13: a set holding the 8 bytes at offset 0 expires.  The partial payload is those 8
bytes, the set and its timer entry are removed and the drop is reported once with reason
`DROP_FRAGMENT_TIMEOUT`, but `SendTimeExceededTtl` is not called: the code tests
`GetSize () > 8`. -/
theorem HandleFragmentsTimeout_eight_bytes_no_icmp :
    LocalDeliver ReassemblyState.empty [1, 2, 3, 4, 5, 6, 7, 8] headHeader 0
      = .ok (oneFragmentState, none) ∧
    (mapFind (fragmentKey headHeader) oneFragmentState.m_fragments).map
      Fragments.GetPartialPacket = some (.ok [1, 2, 3, 4, 5, 6, 7, 8]) ∧
    HandleFragmentsTimeout oneFragmentState (fragmentKey headHeader) headHeader 0
      = .ok (ReassemblyState.empty,
          [TimeoutAction.dropTrace headHeader [1, 2, 3, 4, 5, 6, 7, 8]
            DropReason.DROP_FRAGMENT_TIMEOUT 0]) :=
  ⟨rfl, rfl, rfl⟩
/-! ## Static routing lookup: metric tie-break -/

/-- The scan from a state satisfying `lookupInvM`, no matching entry of mask length 32 having
been seen: it returns the first matching entry of mask length 32 among the remaining
entries, or, if there is none, a result satisfying `lookupPostM`. -/
theorem lookupLoop_postM (node : RadeepNode) (dest : Nat) :
    ∀ (rest pre : NetworkRoutes) (rt : Option RadeepRoute) (longest shortest : Nat),
      (∀ e ∈ rest, e.2 < 4294967296) →
      lookupInvM node dest pre rt longest shortest →
      longest < 32 →
      (∀ e, rest.find? (isHostMatch dest) = some e →
        lookupLoop node dest none rest rt longest shortest = some (routeOfEntry node e.1)) ∧
      (rest.find? (isHostMatch dest) = none →
        lookupPostM node dest (pre ++ rest)
          (lookupLoop node dest none rest rt longest shortest)) := by
  intro rest
  induction rest with
  | nil =>
    intro pre rt longest shortest _ hinv _
    refine ⟨fun e he => by simp at he, fun _ => ?_⟩
    simp only [lookupLoop, List.append_nil]
    cases rt with
    | none => exact hinv.2.2
    | some r =>
      obtain ⟨e, he, hr, hm, hl, hs, hmax⟩ := hinv
      refine ⟨e, he, hr, hm, fun e1 h1 hm1 => ?_⟩
      rw [hl, hs]
      exact hmax e1 h1 hm1
  | cons i rest ih =>
    intro pre rt longest shortest hmet hinv hlong
    have hmi : i.2 < 4294967296 := hmet i (List.mem_cons_self _ _)
    have hmr : ∀ e ∈ rest, e.2 < 4294967296 := fun e he => hmet e (List.mem_cons_of_mem _ he)
    have happ : pre ++ i :: rest = (pre ++ [i]) ++ rest := by simp
    have hle := GetPrefixLength_le i.1.m_destNetworkMask
    have hmod : GetPrefixLength i.1.m_destNetworkMask % 65536
        = GetPrefixLength i.1.m_destNetworkMask := by omega
    rw [happ]
    have hpre : ∀ e1 ∈ pre, entryMatches dest e1 = true →
        GetPrefixLength e1.1.m_destNetworkMask ≤ longest ∧
        (GetPrefixLength e1.1.m_destNetworkMask = longest → shortest ≤ e1.2) := by
      intro e1 he1 hm1
      cases rt with
      | none => rw [hinv.2.2 e1 he1] at hm1; cases hm1
      | some r =>
        obtain ⟨e, he, hr, hm, hl, hs, hmax⟩ := hinv
        exact hmax e1 he1 hm1
    -- the state is kept when the entry is passed over
    have hkeep : (entryMatches dest i = true → rt ≠ none) →
        (entryMatches dest i = true →
          GetPrefixLength i.1.m_destNetworkMask ≤ longest ∧
          (GetPrefixLength i.1.m_destNetworkMask = longest → shortest ≤ i.2)) →
        lookupInvM node dest (pre ++ [i]) rt longest shortest := by
      intro hsome hi
      cases rt with
      | none =>
        refine ⟨hinv.1, hinv.2.1, ?_⟩
        intro e he
        rcases List.mem_append.1 he with he | he
        · exact hinv.2.2 e he
        · rw [List.mem_singleton.1 he]
          cases hmi2 : entryMatches dest i with
          | false => rfl
          | true => exact absurd rfl (hsome hmi2)
      | some r =>
        obtain ⟨e, he, hr, hm, hl, hs, hmax⟩ := hinv
        refine ⟨e, List.mem_append_left _ he, hr, hm, hl, hs, ?_⟩
        intro e1 he1 hm1
        rcases List.mem_append.1 he1 with he1 | he1
        · exact hmax e1 he1 hm1
        · rw [List.mem_singleton.1 he1] at hm1 ⊢
          exact hi hm1
    simp only [lookupLoop, RadeepRoutingTableEntry.GetDestNetworkMask,
      RadeepRoutingTableEntry.GetDestNetwork, hmod, Option.isSome_none, Bool.false_and]
    by_cases hmatch : entryMatches dest i = true
    · have hmatch2 : IsMatch i.1.m_destNetworkMask dest i.1.m_dest = true := hmatch
      simp only [hmatch2, if_true, Bool.false_eq_true, if_false]
      by_cases hlt : GetPrefixLength i.1.m_destNetworkMask < longest
      · have hnh : isHostMatch dest i = false := by
          have : (GetPrefixLength i.1.m_destNetworkMask == 32) = false := by
            rw [beq_eq_false_iff_ne]; omega
          simp [isHostMatch, this]
        simp only [hlt, if_true, List.find?_cons, hnh]
        refine ih _ _ _ _ hmr (hkeep (fun _ hn => ?_) (fun _ => ⟨by omega, fun h => by omega⟩))
          hlong
        subst hn
        have := hinv.1
        omega
      · simp only [hlt, if_false]
        by_cases hmet2 : i.2 > (if GetPrefixLength i.1.m_destNetworkMask > longest
            then 0xffffffff else shortest)
        · have hgt : ¬ GetPrefixLength i.1.m_destNetworkMask > longest := by
            intro hgt
            rw [if_pos hgt] at hmet2
            omega
          have heq : GetPrefixLength i.1.m_destNetworkMask = longest := by omega
          have hnh : isHostMatch dest i = false := by
            have : (GetPrefixLength i.1.m_destNetworkMask == 32) = false := by
              rw [beq_eq_false_iff_ne]; omega
            simp [isHostMatch, this]
          simp only [hmet2, if_true, List.find?_cons, hnh]
          rw [if_neg hgt] at hmet2 ⊢
          rw [heq]
          refine ih _ _ _ _ hmr (hkeep (fun _ hn => ?_) (fun _ => ⟨by omega, fun _ => by omega⟩))
            hlong
          subst hn
          have := hinv.2.1
          omega
        · simp only [hmet2, if_false]
          have hsel : lookupInvM node dest (pre ++ [i]) (some (routeOfEntry node i.1))
              (GetPrefixLength i.1.m_destNetworkMask) i.2 := by
            refine ⟨i, by simp, rfl, hmatch, rfl, rfl, ?_⟩
            intro e1 he1 hm1
            rcases List.mem_append.1 he1 with he1 | he1
            · have h := hpre e1 he1 hm1
              refine ⟨by omega, fun h2 => ?_⟩
              have hgt : ¬ GetPrefixLength i.1.m_destNetworkMask > longest := by omega
              rw [if_neg hgt] at hmet2
              have := h.2 (by omega)
              omega
            · rw [List.mem_singleton.1 he1]
              exact ⟨le_refl _, fun _ => le_refl _⟩
          by_cases h32 : GetPrefixLength i.1.m_destNetworkMask = 32
          · have hh : isHostMatch dest i = true := by
              simp [isHostMatch, hmatch, h32]
            simp only [h32, beq_self_eq_true, if_true, List.find?_cons, hh]
            refine ⟨fun e he => ?_, fun h => by cases h⟩
            cases he
            rfl
          · have hb : (GetPrefixLength i.1.m_destNetworkMask == 32) = false := by
              simpa using h32
            have hnh : isHostMatch dest i = false := by
              simp [isHostMatch, hb]
            simp only [hb, Bool.false_eq_true, if_false, List.find?_cons, hnh]
            exact ih _ _ _ _ hmr hsel (by omega)
    · have hmf : entryMatches dest i = false := by simpa using hmatch
      have hmf2 : IsMatch i.1.m_destNetworkMask dest i.1.m_dest = false := hmf
      have hnh : isHostMatch dest i = false := by simp [isHostMatch, hmf]
      simp only [hmf2, Bool.false_eq_true, if_false, List.find?_cons, hnh]
      exact ih _ _ _ _ hmr (hkeep (fun h => by rw [hmf] at h; cases h)
        (fun h => by rw [hmf] at h; cases h)) hlong

/-- C14 (amended): for every static route table with 32-bit metrics and every destination
that is not link-local multicast, with no output-device filter: if a matching entry of mask
length 32 exists, `LookupStatic` returns the first such entry in table order, whatever its
metric; otherwise it returns the null route iff no entry matches, and else an entry that
matches, has the greatest mask length among the matching entries and the lowest metric among
the matching entries of that length.  Two /24 routes to the same prefix with metrics 5 and
1, inserted in either order, resolve to the metric-1 route. -/
theorem LookupStatic_lowest_metric (node : RadeepNode) (routes : NetworkRoutes) (d : Nat)
    (hd : IsLocalMulticast d = false) (hmetric : ∀ e ∈ routes, e.2 < 4294967296) :
    (∃ r, LookupStatic node routes d none = .ok r ∧
      (∀ e, routes.find? (isHostMatch d) = some e → r = some (routeOfEntry node e.1)) ∧
      (routes.find? (isHostMatch d) = none →
        (r = none ↔ ∀ e ∈ routes, entryMatches d e = false) ∧
        ∀ rt, r = some rt → ∃ e ∈ routes, rt = routeOfEntry node e.1 ∧
          entryMatches d e = true ∧
          ∀ e1 ∈ routes, entryMatches d e1 = true →
            GetPrefixLength e1.1.m_destNetworkMask ≤ GetPrefixLength e.1.m_destNetworkMask ∧
            (GetPrefixLength e1.1.m_destNetworkMask = GetPrefixLength e.1.m_destNetworkMask →
              e.2 ≤ e1.2))) ∧
    LookupStatic exampleNode metricRoutes 0x0a000005 none =
      .ok (some (routeOfEntry exampleNode ⟨0x0a000000, 0xffffff00, 0, 2⟩)) ∧
    LookupStatic exampleNode metricRoutesRev 0x0a000005 none =
      .ok (some (routeOfEntry exampleNode ⟨0x0a000000, 0xffffff00, 0, 2⟩)) := by
  refine ⟨?_, rfl, rfl⟩
  have hpost := lookupLoop_postM node d routes [] none 0 0xffffffff hmetric
    ⟨rfl, rfl, fun e he => by cases he⟩ (by omega)
  simp only [List.nil_append] at hpost
  refine ⟨lookupLoop node d none routes none 0 0xffffffff, by simp [LookupStatic, hd],
    hpost.1, fun hnone => ?_⟩
  have hp := hpost.2 hnone
  constructor
  · constructor
    · intro hr
      rw [hr] at hp
      exact hp
    · intro hno
      cases hres : lookupLoop node d none routes none 0 0xffffffff with
      | none => rfl
      | some rt =>
        rw [hres] at hp
        obtain ⟨e, he, _, hm, _⟩ := hp
        rw [hno e he] at hm
        cases hm
  · intro rt hr
    rw [hr] at hp
    exact hp

theorem LookupStatic_lowest_metric_witness :
    IsLocalMulticast 0x0a000005 = false ∧
    ∃ r, LookupStatic exampleNode metricRoutes 0x0a000005 none = .ok r ∧
      (metricRoutes.find? (isHostMatch 0x0a000005) = none →
        ∀ rt, r = some rt → ∃ e ∈ metricRoutes, rt = routeOfEntry exampleNode e.1 ∧
          entryMatches 0x0a000005 e = true ∧
          ∀ e1 ∈ metricRoutes, entryMatches 0x0a000005 e1 = true →
            GetPrefixLength e1.1.m_destNetworkMask ≤ GetPrefixLength e.1.m_destNetworkMask ∧
            (GetPrefixLength e1.1.m_destNetworkMask = GetPrefixLength e.1.m_destNetworkMask →
              e.2 ≤ e1.2)) := by
  refine ⟨by decide, ?_⟩
  obtain ⟨⟨r, hr, -, h2⟩, -, -⟩ := LookupStatic_lowest_metric exampleNode metricRoutes
    0x0a000005 (by decide)
    (by
      intro e he
      simp only [metricRoutes, AddNetworkRouteTo, List.nil_append, List.cons_append,
        List.mem_cons, List.mem_singleton, List.not_mem_nil, or_false] at he
      rcases he with rfl | rfl <;> decide)
  exact ⟨r, hr, fun hn => (h2 hn).2⟩

/-- C14 (counterexample): with two matching routes of mask length 32 to 10.0.0.5, metric 5
(via interface 1) inserted before metric 1 (via interface 2), `LookupStatic` returns the
metric-5 route, although the metric-1 entry matches with the same mask length. -/
theorem LookupStatic_host_route_ignores_metric :
    LookupStatic exampleNode hostRoutes 0x0a000005 none =
      .ok (some (routeOfEntry exampleNode ⟨0x0a000005, 0xffffffff, 0, 1⟩)) ∧
    hostRoutes = [(⟨0x0a000005, 0xffffffff, 0, 1⟩, 5), (⟨0x0a000005, 0xffffffff, 0, 2⟩, 1)] ∧
    routeOfEntry exampleNode ⟨0x0a000005, 0xffffffff, 0, 1⟩
      ≠ routeOfEntry exampleNode ⟨0x0a000005, 0xffffffff, 0, 2⟩ ∧
    (∀ e ∈ hostRoutes, entryMatches 0x0a000005 e = true ∧
      GetPrefixLength e.1.m_destNetworkMask = 32) ∧
    ¬ (∀ e ∈ hostRoutes, ∀ e1 ∈ hostRoutes, 
        LookupStatic exampleNode hostRoutes 0x0a000005 none
          = .ok (some (routeOfEntry exampleNode e.1)) → e.2 ≤ e1.2) := by
  refine ⟨rfl, rfl, by decide, by decide, ?_⟩
  intro h
  have := h (⟨0x0a000005, 0xffffffff, 0, 1⟩, 5) (by decide) (⟨0x0a000005, 0xffffffff, 0, 2⟩, 1)
    (by decide) rfl
  omega
/-! ## Global routing lookup -/

theorem hostRoutesLoop_eq (radeep : RadeepStack) (dest : Nat) :
    ∀ (l allRoutes : List RadeepRoutingTableEntry), (∀ e ∈ l, e.IsHost = true) →
      hostRoutesLoop radeep dest none l allRoutes
        = .ok (allRoutes ++ l.filter (fun e => e.m_dest == dest))
  | [], allRoutes, _ => by simp [hostRoutesLoop]
  | i :: rest, allRoutes, h => by
    have hi : i.IsHost = true := h i (List.mem_cons_self _ _)
    have hr : ∀ e ∈ rest, e.IsHost = true := fun e he => h e (List.mem_cons_of_mem _ he)
    simp only [hostRoutesLoop, hi, Bool.not_true, Bool.false_eq_true, if_false,
      RadeepRoutingTableEntry.GetDest, Option.isSome_none, Bool.false_and, List.filter_cons]
    by_cases hd : (i.m_dest == dest) = true
    · simp only [hd, if_true]
      rw [hostRoutesLoop_eq radeep dest rest _ hr]
      simp
    · simp only [hd, if_false, Bool.false_eq_true]
      exact hostRoutesLoop_eq radeep dest rest _ hr

theorem networkRoutesLoop_eq (radeep : RadeepStack) (dest : Nat) :
    ∀ (l allRoutes : List RadeepRoutingTableEntry),
      networkRoutesLoop radeep dest none l allRoutes
        = allRoutes ++ l.filter (fun e => IsMatch e.m_destNetworkMask dest e.m_dest)
  | [], allRoutes => by simp [networkRoutesLoop]
  | j :: rest, allRoutes => by
    simp only [networkRoutesLoop, RadeepRoutingTableEntry.GetDestNetworkMask,
      RadeepRoutingTableEntry.GetDestNetwork, Option.isSome_none, Bool.false_and,
      Bool.false_eq_true, if_false, List.filter_cons]
    by_cases hd : IsMatch j.m_destNetworkMask dest j.m_dest = true
    · simp only [hd, if_true]
      rw [networkRoutesLoop_eq radeep dest rest _]
      simp
    · simp only [hd, if_false, Bool.false_eq_true]
      exact networkRoutesLoop_eq radeep dest rest _

theorem externalRoutesLoop_eq (radeep : RadeepStack) (dest : Nat) :
    ∀ (l allRoutes : List RadeepRoutingTableEntry),
      externalRoutesLoop radeep dest none l allRoutes
        = allRoutes ++
          (l.find? (fun e => IsMatch e.m_destNetworkMask dest e.m_dest)).toList
  | [], allRoutes => by simp [externalRoutesLoop]
  | k :: rest, allRoutes => by
    simp only [externalRoutesLoop, RadeepRoutingTableEntry.GetDestNetworkMask,
      RadeepRoutingTableEntry.GetDestNetwork, Option.isSome_none, Bool.false_and,
      Bool.false_eq_true, if_false, List.find?_cons]
    by_cases hd : IsMatch k.m_destNetworkMask dest k.m_dest = true
    · simp only [hd, if_true, Option.toList_some]
    · have hf : IsMatch k.m_destNetworkMask dest k.m_dest = false := by simpa using hd
      simp only [hf, if_false, Bool.false_eq_true]
      exact externalRoutesLoop_eq radeep dest rest _

/-- The list of entries selected by a filter is empty iff `find?` finds none, and its first
element is the one `find?` finds. -/
theorem filter_find (p : RadeepRoutingTableEntry → Bool) :
    ∀ l : List RadeepRoutingTableEntry,
      (l.find? p = none → l.filter p = []) ∧
      (∀ e, l.find? p = some e → ∃ t, l.filter p = e :: t)
  | [] => by simp
  | x :: rest => by
    have ih := filter_find p rest
    by_cases hx : p x = true
    · simp [List.find?_cons, List.filter_cons, hx]
    · have hf : p x = false := by simpa using hx
      simp only [List.find?_cons, List.filter_cons, hf, Bool.false_eq_true, if_false]
      exact ih

/-- C15: with random ECMP disabled and no output-device filter, on host routes as
`AddHostRouteTo` builds them, `LookupGlobal d` returns the route built from the first host
route whose destination equals `d` if there is one; otherwise from the first network route
with `d & mask = network & mask`; otherwise from the first matching AS-external route;
otherwise the null route.  The network list decides only when no host route matches and the
AS-external list only when neither of the others matches. -/
theorem LookupGlobal_tiers (g : RadeepGlobalRouting) (radeep : RadeepStack)
    (GetInteger : Nat → Nat → Nat) (d : Nat)
    (hecmp : g.m_randomEcmpRouting = false)
    (hhost : ∀ e ∈ g.m_hostRoutes, e.IsHost = true) :
    LookupGlobal g radeep GetInteger d none = .ok
      (match g.m_hostRoutes.find? (fun e => e.m_dest == d) with
       | some e => some (globalRouteOfEntry radeep e)
       | none =>
         match g.m_networkRoutes.find?
             (fun e => d &&& e.m_destNetworkMask == e.m_dest &&& e.m_destNetworkMask) with
         | some e => some (globalRouteOfEntry radeep e)
         | none =>
           match g.m_ASexternalRoutes.find?
               (fun e => d &&& e.m_destNetworkMask == e.m_dest &&& e.m_destNetworkMask) with
           | some e => some (globalRouteOfEntry radeep e)
           | none => none) := by
  have hm : (fun e : RadeepRoutingTableEntry =>
      d &&& e.m_destNetworkMask == e.m_dest &&& e.m_destNetworkMask)
      = (fun e => IsMatch e.m_destNetworkMask d e.m_dest) := rfl
  rw [hm]
  simp only [LookupGlobal, hostRoutesLoop_eq radeep d _ _ hhost, networkRoutesLoop_eq,
    externalRoutesLoop_eq, List.nil_append, hecmp, Bool.false_eq_true, if_false]
  have h1 := filter_find (fun e => e.m_dest == d) g.m_hostRoutes
  cases hf1 : g.m_hostRoutes.find? (fun e => e.m_dest == d) with
  | some e =>
    obtain ⟨t, ht⟩ := h1.2 e hf1
    simp [ht]
  | none =>
    rw [h1.1 hf1]
    have h2 := filter_find (fun e => IsMatch e.m_destNetworkMask d e.m_dest) g.m_networkRoutes
    cases hf2 : g.m_networkRoutes.find? (fun e => IsMatch e.m_destNetworkMask d e.m_dest) with
    | some e =>
      obtain ⟨t, ht⟩ := h2.2 e hf2
      simp [ht]
    | none =>
      rw [h2.1 hf2]
      cases hf3 : g.m_ASexternalRoutes.find?
          (fun e => IsMatch e.m_destNetworkMask d e.m_dest) with
      | some e => simp
      | none => simp

theorem LookupGlobal_tiers_witness :
    LookupGlobal exampleGlobal exampleStack (fun _ _ => 0) 0x0a000005 none
        = .ok (some (globalRouteOfEntry exampleStack ⟨0x0a000005, 0xffffffff, 0, 1⟩)) ∧
    LookupGlobal exampleGlobal exampleStack (fun _ _ => 0) 0x0a000007 none
        = .ok (some (globalRouteOfEntry exampleStack ⟨0x0a000000, 0xffffff00, 0, 3⟩)) ∧
    LookupGlobal exampleGlobal exampleStack (fun _ _ => 0) 0x0b000007 none
        = .ok (some (globalRouteOfEntry exampleStack ⟨0, 0, 0, 5⟩)) :=
  ⟨LookupGlobal_tiers exampleGlobal exampleStack (fun _ _ => 0) 0x0a000005 rfl (by decide),
   LookupGlobal_tiers exampleGlobal exampleStack (fun _ _ => 0) 0x0a000007 rfl (by decide),
   LookupGlobal_tiers exampleGlobal exampleStack (fun _ _ => 0) 0x0b000007 rfl (by decide)⟩
/-! ## List routing: the order of the chain -/

theorem mem_stableInsert {α : Type} (comp : α → α → Bool) (x a : α) :
    ∀ l : List α, a ∈ stableInsert comp x l ↔ a = x ∨ a ∈ l
  | [] => by simp [stableInsert]
  | y :: ys => by
    simp only [stableInsert]
    split
    · rw [List.mem_cons, mem_stableInsert comp x a ys, List.mem_cons]
      tauto
    · simp only [List.mem_cons]

theorem stableInsert_sorted {σ : Type} (x : Int × σ) :
    ∀ l : List (Int × σ), l.Pairwise (fun a b => b.1 ≤ a.1) →
      (stableInsert Compare x l).Pairwise (fun a b => b.1 ≤ a.1)
  | [], _ => by simp [stableInsert]
  | y :: ys, h => by
    rw [List.pairwise_cons] at h
    simp only [stableInsert]
    by_cases hc : Compare y x = true
    · simp only [hc, if_true]
      rw [List.pairwise_cons]
      refine ⟨fun a ha => ?_, stableInsert_sorted x ys h.2⟩
      rcases (mem_stableInsert Compare x a ys).1 ha with rfl | ha
      · have : a.1 < y.1 := by simpa [Compare] using hc
        exact le_of_lt this
      · exact h.1 a ha
    · simp only [hc, if_false, Bool.false_eq_true]
      have hxy : y.1 ≤ x.1 := by simpa [Compare] using hc
      rw [List.pairwise_cons]
      refine ⟨fun a ha => ?_, List.pairwise_cons.2 h⟩
      rcases List.mem_cons.1 ha with rfl | ha
      · exact hxy
      · exact le_trans (h.1 a ha) hxy

theorem listSort_sorted {σ : Type} :
    ∀ l : List (Int × σ), (listSort Compare l).Pairwise (fun a b => b.1 ≤ a.1)
  | [] => by simp [listSort]
  | x :: xs => by
    simp only [listSort]
    exact stableInsert_sorted x _ (listSort_sorted xs)

theorem stableInsert_filter {σ : Type} (x : Int × σ) (q : Int) :
    ∀ l : List (Int × σ),
      (stableInsert Compare x l).filter (fun e => e.1 == q)
        = (x :: l).filter (fun e => e.1 == q)
  | [] => by simp [stableInsert]
  | y :: ys => by
    simp only [stableInsert]
    by_cases hc : Compare y x = true
    · simp only [hc, if_true]
      have hlt : x.1 < y.1 := by simpa [Compare] using hc
      rw [List.filter_cons, stableInsert_filter x q ys]
      by_cases hy : y.1 = q
      · have hx : ¬ x.1 = q := by omega
        simp [List.filter_cons, hy, hx]
      · by_cases hx : x.1 = q
        · simp [List.filter_cons, hy, hx]
        · simp [List.filter_cons, hy, hx]
    · simp only [hc, if_false, Bool.false_eq_true]

theorem listSort_filter {σ : Type} (q : Int) :
    ∀ l : List (Int × σ),
      (listSort Compare l).filter (fun e => e.1 == q) = l.filter (fun e => e.1 == q)
  | [] => by simp [listSort]
  | x :: xs => by
    simp only [listSort]
    rw [stableInsert_filter, List.filter_cons, List.filter_cons, listSort_filter q xs]

theorem addRoutingProtocols_sorted {σ : Type} :
    ∀ (calls init : List (Int × σ)), init.Pairwise (fun a b => b.1 ≤ a.1) →
      (addRoutingProtocols init calls).Pairwise (fun a b => b.1 ≤ a.1)
  | [], init, h => by simpa [addRoutingProtocols] using h
  | c :: cs, init, _ => by
    have := addRoutingProtocols_sorted cs (AddRoutingProtocol init c.2 c.1)
      (listSort_sorted _)
    simpa [addRoutingProtocols] using this

theorem addRoutingProtocols_filter {σ : Type} (q : Int) :
    ∀ (calls init : List (Int × σ)),
      (addRoutingProtocols init calls).filter (fun e => e.1 == q)
        = init.filter (fun e => e.1 == q) ++ calls.filter (fun e => e.1 == q)
  | [], init => by simp [addRoutingProtocols]
  | c :: cs, init => by
    have h := addRoutingProtocols_filter q cs (AddRoutingProtocol init c.2 c.1)
    have h2 : (AddRoutingProtocol init c.2 c.1).filter (fun e => e.1 == q)
        = init.filter (fun e => e.1 == q) ++ [c].filter (fun e => e.1 == q) := by
      simp only [AddRoutingProtocol]
      rw [listSort_filter, List.filter_append]
    have h3 : addRoutingProtocols init (c :: cs)
        = addRoutingProtocols (AddRoutingProtocol init c.2 c.1) cs := by
      simp [addRoutingProtocols]
    rw [h3, h, h2, List.append_assoc, ← List.filter_append]
    rfl

/-- C16: after any sequence of `AddRoutingProtocol` calls on an empty chain, the chain is
ordered by non-increasing priority; for every priority the strategies of that priority are
in the chain exactly as in the sequence of calls, in the order they were added; and, when at
least one call was made, `GetRoutingProtocol (0)` returns a strategy that was added and whose
priority, which it leaves in `priority`, is the greatest of all. -/
theorem AddRoutingProtocol_order {σ : Type} (calls : List (Int × σ)) (priority : Int) :
    (addRoutingProtocols [] calls).Pairwise (fun a b => b.1 ≤ a.1) ∧
    (∀ q : Int, (addRoutingProtocols [] calls).filter (fun e => e.1 == q)
      = calls.filter (fun e => e.1 == q)) ∧
    (calls ≠ [] → ∃ e ∈ calls,
      GetRoutingProtocol (addRoutingProtocols [] calls) 0 priority = .ok (some e.2, e.1) ∧
      ∀ c ∈ calls, c.1 ≤ e.1) := by
  have hs := addRoutingProtocols_sorted calls [] List.Pairwise.nil
  have hf : ∀ q : Int, (addRoutingProtocols [] calls).filter (fun e => e.1 == q)
      = calls.filter (fun e => e.1 == q) := by
    intro q
    rw [addRoutingProtocols_filter]
    rfl
  have hmem : ∀ e : Int × σ, e ∈ addRoutingProtocols [] calls ↔ e ∈ calls := by
    intro e
    have h1 := hf e.1
    constructor
    · intro he
      have : e ∈ (addRoutingProtocols [] calls).filter (fun x => x.1 == e.1) := by
        simp [List.mem_filter, he]
      rw [h1] at this
      exact (List.mem_filter.1 this).1
    · intro he
      have : e ∈ calls.filter (fun x => x.1 == e.1) := by
        simp [List.mem_filter, he]
      rw [← h1] at this
      exact (List.mem_filter.1 this).1
  refine ⟨hs, hf, fun hne => ?_⟩
  cases hch : addRoutingProtocols [] calls with
  | nil =>
    exfalso
    cases calls with
    | nil => exact hne rfl
    | cons c cs =>
      have := (hmem c).2 (List.mem_cons_self _ _)
      rw [hch] at this
      cases this
  | cons e rest =>
    rw [hch] at hs
    rw [List.pairwise_cons] at hs
    refine ⟨e, (hmem e).1 (by rw [hch]; exact List.mem_cons_self _ _), ?_, ?_⟩
    · simp [GetRoutingProtocol, getRoutingProtocolLoop]
    · intro c hc
      have h2 := (hmem c).2 hc
      rw [hch] at h2
      rcases List.mem_cons.1 h2 with rfl | h2
      · exact le_refl _
      · exact hs.1 c h2

theorem AddRoutingProtocol_order_witness :
    ([(5, 1), (10, 2), (5, 3)] : List (Int × Nat)) ≠ [] ∧
    addRoutingProtocols [] ([(5, 1), (10, 2), (5, 3)] : List (Int × Nat))
      = [(10, 2), (5, 1), (5, 3)] ∧
    ∃ e ∈ ([(5, 1), (10, 2), (5, 3)] : List (Int × Nat)),
      GetRoutingProtocol (addRoutingProtocols [] [(5, 1), (10, 2), (5, 3)]) 0 0
        = .ok (some e.2, e.1) ∧
      ∀ c ∈ ([(5, 1), (10, 2), (5, 3)] : List (Int × Nat)), c.1 ≤ e.1 :=
  ⟨by decide, by decide,
    (AddRoutingProtocol_order ([(5, 1), (10, 2), (5, 3)] : List (Int × Nat)) 0).2.2
      (by decide)⟩
/-! ## List routing: `RouteOutput` and `RouteInput` -/

theorem routeOutputCalls_succ (k n : Nat) :
    routeOutputCalls k (n + 1) = RoutingCall.RouteOutput k :: routeOutputCalls (k + 1) n := by
  simp only [routeOutputCalls, List.range_succ_eq_map, List.map_cons, List.map_map,
    Nat.add_zero]
  refine congrArg _ (List.map_congr_left (fun j _ => ?_))
  show RoutingCall.RouteOutput (k + (j + 1)) = RoutingCall.RouteOutput (k + 1 + j)
  rw [Nat.add_assoc, Nat.add_comm 1 j]

theorem routeInputCalls_succ (b : Bool) (k n : Nat) :
    routeInputCalls b k (n + 1)
      = RoutingCall.RouteInput k b :: routeInputCalls b (k + 1) n := by
  simp only [routeInputCalls, List.range_succ_eq_map, List.map_cons, List.map_map,
    Nat.add_zero]
  refine congrArg _ (List.map_congr_left (fun j _ => ?_))
  show RoutingCall.RouteInput (k + (j + 1)) b = RoutingCall.RouteInput (k + 1 + j) b
  rw [Nat.add_assoc, Nat.add_comm 1 j]

theorem routeOutputLoop_found (p : List Nat) (header : RadeepHeader) (oif : Option Nat)
    (e : Int × RadeepRoutingProtocol) (post : List (Int × RadeepRoutingProtocol))
    (route : RadeepRoute) (he : (e.2.RouteOutput p header oif).1 = some route) :
    ∀ (pre : List (Int × RadeepRoutingProtocol)) (k : Nat),
      (∀ x ∈ pre, (x.2.RouteOutput p header oif).1 = none) →
      routeOutputLoop p header oif (pre ++ e :: post) k
        = (some route, SocketErrno.ERROR_NOTERROR, routeOutputCalls k (pre.length + 1))
  | [], k, _ => by
    simp only [List.nil_append, routeOutputLoop, he, List.length_nil, routeOutputCalls_succ]
    rfl
  | x :: pre, k, h => by
    have hx := h x (List.mem_cons_self _ _)
    have ih := routeOutputLoop_found p header oif e post route he pre (k + 1)
      (fun y hy => h y (List.mem_cons_of_mem _ hy))
    rw [List.cons_append]
    simp only [routeOutputLoop, hx]
    rw [ih, List.length_cons, routeOutputCalls_succ k (pre.length + 1)]

theorem routeOutputLoop_none (p : List Nat) (header : RadeepHeader) (oif : Option Nat) :
    ∀ (chain : List (Int × RadeepRoutingProtocol)) (k : Nat),
      (∀ x ∈ chain, (x.2.RouteOutput p header oif).1 = none) →
      routeOutputLoop p header oif chain k
        = (none, SocketErrno.ERROR_NOROUTETOHOST, routeOutputCalls k chain.length)
  | [], k, _ => by simp [routeOutputLoop, routeOutputCalls]
  | x :: chain, k, h => by
    have hx := h x (List.mem_cons_self _ _)
    have ih := routeOutputLoop_none p header oif chain (k + 1)
      (fun y hy => h y (List.mem_cons_of_mem _ hy))
    simp only [routeOutputLoop, hx, ih, List.length_cons]
    rw [routeOutputCalls_succ k chain.length]

theorem routeInputLoop_found (p : List Nat) (header : RadeepHeader) (idev : Nat)
    (b retVal : Bool) (e : Int × RadeepRoutingProtocol)
    (post : List (Int × RadeepRoutingProtocol))
    (he : e.2.RouteInput p header idev b = true) :
    ∀ (pre : List (Int × RadeepRoutingProtocol)) (k : Nat),
      (∀ x ∈ pre, x.2.RouteInput p header idev b = false) →
      routeInputLoop p header idev b retVal (pre ++ e :: post) k
        = (true, routeInputCalls b k (pre.length + 1))
  | [], k, _ => by
    simp only [List.nil_append, routeInputLoop, he, if_true, List.length_nil,
      routeInputCalls_succ]
    rfl
  | x :: pre, k, h => by
    have hx := h x (List.mem_cons_self _ _)
    have ih := routeInputLoop_found p header idev b retVal e post he pre (k + 1)
      (fun y hy => h y (List.mem_cons_of_mem _ hy))
    rw [List.cons_append]
    simp only [routeInputLoop, hx, Bool.false_eq_true, if_false]
    rw [ih, List.length_cons, routeInputCalls_succ b k (pre.length + 1)]

theorem routeInputLoop_none (p : List Nat) (header : RadeepHeader) (idev : Nat)
    (b retVal : Bool) :
    ∀ (chain : List (Int × RadeepRoutingProtocol)) (k : Nat),
      (∀ x ∈ chain, x.2.RouteInput p header idev b = false) →
      routeInputLoop p header idev b retVal chain k
        = (retVal, routeInputCalls b k chain.length)
  | [], k, _ => by simp [routeInputLoop, routeInputCalls]
  | x :: chain, k, h => by
    have hx := h x (List.mem_cons_self _ _)
    have ih := routeInputLoop_none p header idev b retVal chain (k + 1)
      (fun y hy => h y (List.mem_cons_of_mem _ hy))
    simp only [routeInputLoop, hx, Bool.false_eq_true, if_false, ih, List.length_cons]
    rw [routeInputCalls_succ b k chain.length]

/-- The loop of `RouteInput` calls strategies only, from the first on without a gap, and
returns true or `retVal`. -/
theorem routeInputLoop_calls (p : List Nat) (header : RadeepHeader) (idev : Nat)
    (b retVal : Bool) :
    ∀ (chain : List (Int × RadeepRoutingProtocol)) (k : Nat),
      ∃ n, n ≤ chain.length ∧
        (routeInputLoop p header idev b retVal chain k).2 = routeInputCalls b k n ∧
        ((routeInputLoop p header idev b retVal chain k).1 = true ∨
          (routeInputLoop p header idev b retVal chain k).1 = retVal)
  | [], k => ⟨0, le_refl _, by simp [routeInputLoop, routeInputCalls], Or.inr rfl⟩
  | x :: chain, k => by
    by_cases hx : x.2.RouteInput p header idev b = true
    · refine ⟨1, by simp, ?_, Or.inl ?_⟩
      · simp only [routeInputLoop, hx, if_true, routeInputCalls_succ]
        rfl
      · simp only [routeInputLoop, hx, if_true]
    · obtain ⟨n, hn, ht, hr⟩ := routeInputLoop_calls p header idev b retVal chain (k + 1)
      have hf : x.2.RouteInput p header idev b = false := by simpa using hx
      refine ⟨n + 1, by simpa using hn, ?_, ?_⟩
      · simp only [routeInputLoop, hf, Bool.false_eq_true, if_false, ht,
          routeInputCalls_succ]
      · simpa only [routeInputLoop, hf, Bool.false_eq_true, if_false] using hr

theorem routeInputCalls_filter_isLcb (b : Bool) (k n : Nat) :
    (routeInputCalls b k n).filter RoutingCall.isLcb = [] := by
  simp [routeInputCalls, List.filter_eq_nil_iff, RoutingCall.isLcb]

theorem routeInputCalls_filter_isEcb (b : Bool) (k n : Nat) :
    (routeInputCalls b k n).filter RoutingCall.isEcb = [] := by
  simp [routeInputCalls, List.filter_eq_nil_iff, RoutingCall.isEcb]

/-- C17: `RouteOutput` of the chain asks the strategies in chain order; at the first that
returns a route it returns that route with the error code `ERROR_NOTERROR`, having asked no
later strategy, and if none returns a route it returns none with `ERROR_NOROUTETOHOST`.  For
a packet that is not locally deliverable and arrives on a forwarding interface, `RouteInput`
of the chain asks the strategies in chain order, returns true at the first that accepts,
having asked no later one, and returns false if none accepts. -/
theorem RouteOutput_RouteInput_first (l : RadeepListRouting) (radeep : RadeepEngine)
    (IsMulticast : Nat → Bool) (p : List Nat) (header : RadeepHeader) (oif : Option Nat)
    (idev : Nat) (lcbIsNull : Bool) :
    (∀ pre e post route, l.m_routingProtocols = pre ++ e :: post →
      (∀ x ∈ pre, (x.2.RouteOutput p header oif).1 = none) →
      (e.2.RouteOutput p header oif).1 = some route →
      l.RouteOutput p header oif
        = (some route, SocketErrno.ERROR_NOTERROR, routeOutputCalls 0 (pre.length + 1))) ∧
    ((∀ x ∈ l.m_routingProtocols, (x.2.RouteOutput p header oif).1 = none) →
      l.RouteOutput p header oif
        = (none, SocketErrno.ERROR_NOROUTETOHOST,
            routeOutputCalls 0 l.m_routingProtocols.length)) ∧
    (l.m_radeep = some radeep → 0 ≤ radeep.GetInterfaceForDevice idev →
      radeep.IsDestinationAddress header.GetDestination
        ((radeep.GetInterfaceForDevice idev).toNat % 4294967296) = false →
      radeep.IsForwarding ((radeep.GetInterfaceForDevice idev).toNat % 4294967296) = true →
      (∀ pre e post, l.m_routingProtocols = pre ++ e :: post →
        (∀ x ∈ pre, x.2.RouteInput p header idev lcbIsNull = false) →
        e.2.RouteInput p header idev lcbIsNull = true →
        l.RouteInput IsMulticast p header idev lcbIsNull
          = .ok (true, routeInputCalls lcbIsNull 0 (pre.length + 1))) ∧
      ((∀ x ∈ l.m_routingProtocols, x.2.RouteInput p header idev lcbIsNull = false) →
        l.RouteInput IsMulticast p header idev lcbIsNull
          = .ok (false, routeInputCalls lcbIsNull 0 l.m_routingProtocols.length))) := by
  refine ⟨?_, ?_, ?_⟩
  · intro pre e post route hch hpre he
    simp only [RadeepListRouting.RouteOutput, hch]
    exact routeOutputLoop_found p header oif e post route he pre 0 hpre
  · intro hall
    simp only [RadeepListRouting.RouteOutput]
    exact routeOutputLoop_none p header oif _ 0 hall
  · intro hr hif hdest hfwd
    have hnot : ¬ radeep.GetInterfaceForDevice idev < 0 := by omega
    constructor
    · intro pre e post hch hpre he
      simp only [RadeepListRouting.RouteInput, hr, hnot, if_false, hdest, routeInputForward,
        hfwd, Bool.false_eq_true, beq_self_eq_true, hch, Bool.true_eq_false,
        beq_iff_eq]
      rw [routeInputLoop_found p header idev lcbIsNull false e post he pre 0 hpre]
    · intro hall
      simp only [RadeepListRouting.RouteInput, hr, hnot, if_false, hdest, routeInputForward,
        hfwd, Bool.false_eq_true, beq_self_eq_true, Bool.true_eq_false, beq_iff_eq]
      rw [routeInputLoop_none p header idev lcbIsNull false _ 0 hall]

theorem RouteOutput_RouteInput_first_witness :
    exampleChain.RouteOutput [] exampleHeader none
      = (some { m_dest := 0x0a000005, m_source := 0x0a000001, m_gateway := 0,
                m_outputDevice := 7 },
          SocketErrno.ERROR_NOTERROR, [RoutingCall.RouteOutput 0, RoutingCall.RouteOutput 1]) ∧
    exampleChain.RouteInput exampleIsMulticast [] exampleHeader 1 false
      = .ok (true, [RoutingCall.RouteInput 0 false, RoutingCall.RouteInput 1 false]) :=
  ⟨(RouteOutput_RouteInput_first exampleChain exampleEngine exampleIsMulticast []
      exampleHeader none 1 false).1 [(10, emptyStrategy)] (5, fixedStrategy 7)
      [(5, fixedStrategy 8)] _ rfl
      (fun x hx => by rw [List.mem_singleton.1 hx]; rfl) rfl,
   ((RouteOutput_RouteInput_first exampleChain exampleEngine exampleIsMulticast []
      exampleHeader none 1 false).2.2 rfl (by decide) rfl rfl).1 [(10, emptyStrategy)]
      (5, fixedStrategy 7) [(5, fixedStrategy 8)] rfl
      (fun x hx => by rw [List.mem_singleton.1 hx]; rfl) rfl⟩

/-- C18: when the destination is locally deliverable (and a local-delivery callback was
handed in), `RouteInput` of the chain returns true and invokes local delivery exactly once.
For a non-multicast destination that is its only call: no strategy is asked.  For a
multicast destination on a forwarding interface it then asks the strategies in chain order,
handing them the null callback for local delivery, up to the first that accepts, or all of
them if none accepts. -/
theorem RouteInput_local_delivery (l : RadeepListRouting) (radeep : RadeepEngine)
    (IsMulticast : Nat → Bool) (p : List Nat) (header : RadeepHeader) (idev : Nat)
    (hr : l.m_radeep = some radeep) (hif : 0 ≤ radeep.GetInterfaceForDevice idev)
    (hdest : radeep.IsDestinationAddress header.GetDestination
      ((radeep.GetInterfaceForDevice idev).toNat % 4294967296) = true) :
    (∃ calls, l.RouteInput IsMulticast p header idev false = .ok (true, calls) ∧
      calls.filter RoutingCall.isLcb
        = [RoutingCall.lcb p header ((radeep.GetInterfaceForDevice idev).toNat % 4294967296)]) ∧
    (IsMulticast header.GetDestination = false →
      l.RouteInput IsMulticast p header idev false
        = .ok (true,
          [RoutingCall.lcb p header
            ((radeep.GetInterfaceForDevice idev).toNat % 4294967296)])) ∧
    (IsMulticast header.GetDestination = true →
      radeep.IsForwarding ((radeep.GetInterfaceForDevice idev).toNat % 4294967296) = true →
      (∀ pre e post, l.m_routingProtocols = pre ++ e :: post →
        (∀ x ∈ pre, x.2.RouteInput p header idev true = false) →
        e.2.RouteInput p header idev true = true →
        l.RouteInput IsMulticast p header idev false
          = .ok (true,
            RoutingCall.lcb p header ((radeep.GetInterfaceForDevice idev).toNat % 4294967296)
              :: routeInputCalls true 0 (pre.length + 1))) ∧
      ((∀ x ∈ l.m_routingProtocols, x.2.RouteInput p header idev true = false) →
        l.RouteInput IsMulticast p header idev false
          = .ok (true,
            RoutingCall.lcb p header ((radeep.GetInterfaceForDevice idev).toNat % 4294967296)
              :: routeInputCalls true 0 l.m_routingProtocols.length))) := by
  have hnot : ¬ radeep.GetInterfaceForDevice idev < 0 := by omega
  have hnonmc : IsMulticast header.GetDestination = false →
      l.RouteInput IsMulticast p header idev false
        = .ok (true,
          [RoutingCall.lcb p header
            ((radeep.GetInterfaceForDevice idev).toNat % 4294967296)]) := by
    intro hmc
    simp only [RadeepListRouting.RouteInput, hr, hnot, if_false, hdest, beq_self_eq_true,
      if_true, Bool.false_eq_true, hmc]
  refine ⟨?_, hnonmc, ?_⟩
  · by_cases hmc : IsMulticast header.GetDestination = true
    · by_cases hfwd : radeep.IsForwarding
          ((radeep.GetInterfaceForDevice idev).toNat % 4294967296) = true
      · obtain ⟨n, _, ht, hret⟩ := routeInputLoop_calls p header idev true true
          l.m_routingProtocols 0
        have hret2 : (routeInputLoop p header idev true true l.m_routingProtocols 0).1
            = true := by
          rcases hret with h | h <;> exact h
        refine ⟨RoutingCall.lcb p header
          ((radeep.GetInterfaceForDevice idev).toNat % 4294967296) ::
            routeInputCalls true 0 n, ?_, ?_⟩
        · simp only [RadeepListRouting.RouteInput, hr, hnot, if_false, hdest,
            beq_self_eq_true, if_true, Bool.false_eq_true, hmc, routeInputForward, hfwd,
            Bool.true_eq_false, beq_iff_eq, hret2, ht]
        · rw [List.filter_cons, routeInputCalls_filter_isLcb]
          rfl
      · have hf : radeep.IsForwarding
            ((radeep.GetInterfaceForDevice idev).toNat % 4294967296) = false := by
          simpa using hfwd
        refine ⟨[RoutingCall.lcb p header
          ((radeep.GetInterfaceForDevice idev).toNat % 4294967296),
          RoutingCall.ecb p header SocketErrno.ERROR_NOROUTETOHOST], ?_, rfl⟩
        simp only [RadeepListRouting.RouteInput, hr, hnot, if_false, hdest,
          beq_self_eq_true, if_true, Bool.false_eq_true, hmc, routeInputForward, hf]
    · have hf : IsMulticast header.GetDestination = false := by simpa using hmc
      exact ⟨_, hnonmc hf, rfl⟩
  · intro hmc hfwd
    constructor
    · intro pre e post hch hpre he
      simp only [RadeepListRouting.RouteInput, hr, hnot, if_false, hdest, beq_self_eq_true,
        if_true, Bool.false_eq_true, hmc, routeInputForward, hfwd, Bool.true_eq_false,
        beq_iff_eq, hch]
      rw [routeInputLoop_found p header idev true true e post he pre 0 hpre]
    · intro hall
      simp only [RadeepListRouting.RouteInput, hr, hnot, if_false, hdest, beq_self_eq_true,
        if_true, Bool.false_eq_true, hmc, routeInputForward, hfwd, Bool.true_eq_false,
        beq_iff_eq]
      rw [routeInputLoop_none p header idev true true _ 0 hall]

theorem RouteInput_local_delivery_witness :
    exampleChain.RouteInput exampleIsMulticast [] { exampleHeader with m_destination := 0x0a000001 }
      1 false
      = .ok (true,
          [RoutingCall.lcb [] { exampleHeader with m_destination := 0x0a000001 } 1]) ∧
    exampleChain.RouteInput exampleIsMulticast [] { exampleHeader with m_destination := 0xe0000101 }
      1 false
      = .ok (true,
          [RoutingCall.lcb [] { exampleHeader with m_destination := 0xe0000101 } 1,
           RoutingCall.RouteInput 0 true, RoutingCall.RouteInput 1 true]) :=
  ⟨(RouteInput_local_delivery exampleChain exampleEngine exampleIsMulticast []
      { exampleHeader with m_destination := 0x0a000001 } 1 rfl (by decide) rfl).2.1 rfl,
   ((RouteInput_local_delivery exampleChain exampleEngine exampleIsMulticast []
      { exampleHeader with m_destination := 0xe0000101 } 1 rfl (by decide) rfl).2.2
        rfl rfl).1 [(10, emptyStrategy)] (5, fixedStrategy 7) [(5, fixedStrategy 8)] rfl
      (fun x hx => by rw [List.mem_singleton.1 hx]; rfl) rfl⟩

/-- C19 (amended): `RouteInput` of the chain itself invokes the error callback exactly when
the incoming interface has forwarding disabled and the destination is not locally
deliverable or is a locally deliverable multicast destination; it then reports
`ERROR_NOROUTETOHOST` once, asks no strategy and returns true.  For a locally deliverable
destination that is not multicast the result does not depend on the forwarding setting and
no error is reported. -/
theorem RouteInput_error_callback (l : RadeepListRouting) (radeep : RadeepEngine)
    (IsMulticast : Nat → Bool) (p : List Nat) (header : RadeepHeader) (idev : Nat)
    (lcbIsNull : Bool)
    (hr : l.m_radeep = some radeep) (hif : 0 ≤ radeep.GetInterfaceForDevice idev)
    (hlcb : radeep.IsDestinationAddress header.GetDestination
      ((radeep.GetInterfaceForDevice idev).toNat % 4294967296) = true → lcbIsNull = false) :
    ∃ ret calls, l.RouteInput IsMulticast p header idev lcbIsNull = .ok (ret, calls) ∧
      ((∃ c ∈ calls, c.isEcb = true) ↔
        (radeep.IsForwarding ((radeep.GetInterfaceForDevice idev).toNat % 4294967296) = false ∧
          (radeep.IsDestinationAddress header.GetDestination
            ((radeep.GetInterfaceForDevice idev).toNat % 4294967296) = false ∨
           IsMulticast header.GetDestination = true))) ∧
      ((∃ c ∈ calls, c.isEcb = true) →
        ret = true ∧
        calls.filter RoutingCall.isEcb
          = [RoutingCall.ecb p header SocketErrno.ERROR_NOROUTETOHOST] ∧
        calls.filter RoutingCall.isStrategy = []) ∧
      (radeep.IsDestinationAddress header.GetDestination
          ((radeep.GetInterfaceForDevice idev).toNat % 4294967296) = true →
        IsMulticast header.GetDestination = false →
        ret = true ∧
        calls = [RoutingCall.lcb p header
          ((radeep.GetInterfaceForDevice idev).toNat % 4294967296)]) := by
  have hnot : ¬ radeep.GetInterfaceForDevice idev < 0 := by omega
  generalize hiif : (radeep.GetInterfaceForDevice idev).toNat % 4294967296 = iif at hlcb ⊢
  have hloop : ∀ b retVal, ¬ ∃ c ∈ (routeInputLoop p header idev b retVal
      l.m_routingProtocols 0).2, c.isEcb = true := by
    intro b retVal ⟨c, hc, hce⟩
    obtain ⟨n, _, ht, _⟩ := routeInputLoop_calls p header idev b retVal l.m_routingProtocols 0
    rw [ht] at hc
    have : c ∈ (routeInputCalls b 0 n).filter RoutingCall.isEcb :=
      List.mem_filter.2 ⟨hc, hce⟩
    rw [routeInputCalls_filter_isEcb] at this
    cases this
  by_cases hdest : radeep.IsDestinationAddress header.GetDestination iif = true
  · have hl := hlcb hdest
    subst hl
    by_cases hmc : IsMulticast header.GetDestination = true
    · by_cases hfwd : radeep.IsForwarding iif = true
      · refine ⟨_, _, by
          simp only [RadeepListRouting.RouteInput, hr, hnot, if_false, hiif, hdest,
            beq_self_eq_true, if_true, Bool.false_eq_true, hmc, routeInputForward, hfwd,
            Bool.true_eq_false, beq_iff_eq]
          rfl, ?_, ?_, ?_⟩
        · constructor
          · rintro ⟨c, hc, hce⟩
            rcases List.mem_cons.1 hc with rfl | hc
            · cases hce
            · exact absurd ⟨c, hc, hce⟩ (hloop true true)
          · rintro ⟨hf, _⟩
            rw [hfwd] at hf
            cases hf
        · rintro ⟨c, hc, hce⟩
          rcases List.mem_cons.1 hc with rfl | hc
          · cases hce
          · exact absurd ⟨c, hc, hce⟩ (hloop true true)
        · intro _ hm
          rw [hmc] at hm
          cases hm
      · have hf : radeep.IsForwarding iif = false := by simpa using hfwd
        refine ⟨true, [RoutingCall.lcb p header iif,
          RoutingCall.ecb p header SocketErrno.ERROR_NOROUTETOHOST], by
          simp only [RadeepListRouting.RouteInput, hr, hnot, if_false, hiif, hdest,
            beq_self_eq_true, if_true, Bool.false_eq_true, hmc, routeInputForward, hf],
          ?_, ?_, ?_⟩
        · exact ⟨fun _ => ⟨hf, Or.inr hmc⟩, fun _ => ⟨RoutingCall.ecb p header SocketErrno.ERROR_NOROUTETOHOST, by simp, rfl⟩⟩
        · intro _
          exact ⟨rfl, rfl, rfl⟩
        · intro _ hm
          rw [hmc] at hm
          cases hm
    · have hmf : IsMulticast header.GetDestination = false := by simpa using hmc
      refine ⟨true, [RoutingCall.lcb p header iif], by
        simp only [RadeepListRouting.RouteInput, hr, hnot, if_false, hiif, hdest,
          beq_self_eq_true, if_true, Bool.false_eq_true, hmf], ?_, ?_, ?_⟩
      · constructor
        · rintro ⟨c, hc, hce⟩
          rw [List.mem_singleton.1 hc] at hce
          cases hce
        · rintro ⟨_, h | h⟩
          · rw [hdest] at h
            cases h
          · rw [hmf] at h
            cases h
      · rintro ⟨c, hc, hce⟩
        rw [List.mem_singleton.1 hc] at hce
        cases hce
      · intro _ _
        exact ⟨rfl, rfl⟩
  · have hdf : radeep.IsDestinationAddress header.GetDestination iif = false := by
      simpa using hdest
    by_cases hfwd : radeep.IsForwarding iif = true
    · refine ⟨_, _, by
        simp only [RadeepListRouting.RouteInput, hr, hnot, if_false, hiif, hdf,
          Bool.false_eq_true, routeInputForward, hfwd, Bool.true_eq_false, beq_iff_eq]
        rfl, ?_, ?_, ?_⟩
      · constructor
        · intro h
          exact absurd h (hloop lcbIsNull false)
        · rintro ⟨hf, _⟩
          rw [hfwd] at hf
          cases hf
      · intro h
        exact absurd h (hloop lcbIsNull false)
      · intro h
        rw [hdf] at h
        cases h
    · have hf : radeep.IsForwarding iif = false := by simpa using hfwd
      refine ⟨true, [RoutingCall.ecb p header SocketErrno.ERROR_NOROUTETOHOST], by
        simp only [RadeepListRouting.RouteInput, hr, hnot, if_false, hiif, hdf,
          Bool.false_eq_true, routeInputForward, hf, beq_self_eq_true, if_true]
        rfl, ?_, ?_, ?_⟩
      · exact ⟨fun _ => ⟨hf, Or.inl hdf⟩, fun _ => ⟨RoutingCall.ecb p header SocketErrno.ERROR_NOROUTETOHOST, by simp, rfl⟩⟩
      · intro _
        exact ⟨rfl, rfl, rfl⟩
      · intro h
        rw [hdf] at h
        cases h

theorem RouteInput_error_callback_witness :
    ∃ ret calls, exampleChain.RouteInput exampleIsMulticast [] exampleHeader 0 false
        = .ok (ret, calls) ∧
      ((∃ c ∈ calls, c.isEcb = true) ↔
        (exampleEngine.IsForwarding 0 = false ∧
          (exampleEngine.IsDestinationAddress exampleHeader.GetDestination 0 = false ∨
           exampleIsMulticast exampleHeader.GetDestination = true))) := by
  obtain ⟨ret, calls, h1, h2, _, _⟩ := RouteInput_error_callback exampleChain exampleEngine
    exampleIsMulticast [] exampleHeader 0 false rfl (by decide) (fun _ => rfl)
  exact ⟨ret, calls, h1, h2⟩

/-- C19 (counterexample): a locally deliverable multicast destination arriving on an
interface with forwarding disabled: `RouteInput` of the chain delivers locally and then
invokes the error callback with `ERROR_NOROUTETOHOST`. -/
theorem RouteInput_multicast_error_counterexample :
    exampleEngine.IsDestinationAddress 0xe0000101 0 = true ∧
    exampleEngine.IsForwarding 0 = false ∧
    exampleChain.RouteInput exampleIsMulticast [] { exampleHeader with m_destination := 0xe0000101 }
      0 false
      = .ok (true,
          [RoutingCall.lcb [] { exampleHeader with m_destination := 0xe0000101 } 0,
           RoutingCall.ecb [] { exampleHeader with m_destination := 0xe0000101 }
             SocketErrno.ERROR_NOROUTETOHOST]) :=
  ⟨rfl, rfl, rfl⟩
/-! ## Address generator: consecutive addresses -/

theorem resetLoop_tableOk (t : Nat → NetworkState) : tableOk (resetLoop N_BITS 0 0 t) := by
  intro i hi
  interval_cases i <;> exact ⟨rfl, rfl⟩

theorem MaskToIndex_prefixMask (len : Nat) (h1 : 1 ≤ len) (h2 : len ≤ 31) :
    MaskToIndex (prefixMask len) = .ok len := by
  interval_cases len <;> rfl

set_option maxRecDepth 100000 in
theorem prefixMask_testBit : ∀ len < 32, ∀ i < 32, 32 - len ≤ i →
    (prefixMask len).testBit i = true := by
  decide

theorem hostBits_bounds (len : Nat) (h1 : 1 ≤ len) (h2 : len ≤ 31) :
    2 ≤ 2 ^ (32 - len) ∧ 2 ^ (32 - len) ≤ 2147483648 ∧
    prefixMask len = 4294967296 - 2 ^ (32 - len) := by
  refine ⟨?_, ?_, rfl⟩
  · have : 2 ^ 1 ≤ 2 ^ (32 - len) := Nat.pow_le_pow_right (by decide) (by omega)
    simpa using this
  · have : 2 ^ (32 - len) ≤ 2 ^ 31 := Nat.pow_le_pow_right (by decide) (by omega)
    simpa using this

/-- An address without a bit of the mask is below the first network bit. -/
theorem lt_of_and_prefixMask (a len : Nat) (ha : a < 4294967296) (h2 : len ≤ 31)
    (h : a &&& prefixMask len = 0) : a < 2 ^ (32 - len) := by
  apply Nat.lt_pow_two_of_testBit
  intro i hi
  by_cases hi32 : i < 32
  · have hb : (a &&& prefixMask len).testBit i = false := by rw [h]; simp
    rw [Nat.testBit_and, prefixMask_testBit len (by omega) i hi32 hi] at hb
    simpa using hb
  · apply Nat.testBit_lt_two_pow
    have : 2 ^ 32 ≤ 2 ^ i := Nat.pow_le_pow_right (by decide) (by omega)
    omega

/-- A network number without host bits combines with a host number by addition. -/
theorem or_eq_add_of_mod (net x k : Nat) (hnet : net % 2 ^ k = 0) (hx : x < 2 ^ k) :
    net ||| x = net + x := by
  have h := @Nat.mul_add_lt_is_or k x hx (net / 2 ^ k)
  have e : 2 ^ k * (net / 2 ^ k) = net := by
    have := Nat.div_add_mod net (2 ^ k)
    omega
  rw [e] at h
  exact h.symm

theorem shift_back (net k : Nat) (hnet : net % 2 ^ k = 0) (h : net < 4294967296) :
    ((net / 2 ^ k) <<< k) % 4294967296 = net := by
  rw [Nat.shiftLeft_eq]
  have e : net / 2 ^ k * 2 ^ k = net := by
    have := Nat.div_add_mod net (2 ^ k)
    rw [Nat.mul_comm] at this
    omega
  rw [e]
  omega

/-- One call of `NextAddress` while issuing: it returns the network combined with the current
host number and moves on to the next one. -/
theorem NextAddress_step (len net c : Nat) (g : RadeepAddressGeneratorImpl) (h1 : 1 ≤ len)
    (h2 : len ≤ 31) (hnet : net < 4294967296) (hnm : net % 2 ^ (32 - len) = 0)
    (hne : net ≠ 0 ∨ c ≠ 0) (hinv : issuing len net c g) (hc : c ≤ 2 ^ (32 - len) - 1) :
    ∃ g1, g.NextAddress (prefixMask len) = .ok (net ||| c, g1) ∧ issuing len net (c + 1) g1 := by
  obtain ⟨hshift, hmax, hnw, haddr, hwf, hfree⟩ := hinv
  obtain ⟨hk2, hk31, _⟩ := hostBits_bounds len h1 h2
  have hclt : c < 2 ^ (32 - len) := by omega
  have hor : net ||| c = net + c := or_eq_add_of_mod net c _ hnm hclt
  have hnetK : net + 2 ^ (32 - len) ≤ 4294967296 := by
    have := Nat.div_add_mod net (2 ^ (32 - len))
    have hdvd : 2 ^ (32 - len) ∣ 4294967296 :=
      (Nat.pow_dvd_pow_iff_le_right (by decide : 1 < 2)).2 (by omega : 32 - len ≤ 32)
    obtain ⟨q, hq⟩ := hdvd
    rw [hnm, Nat.add_zero] at this
    rw [hq]
    rw [← this, hq] at hnet
    have hlt : net / 2 ^ (32 - len) < q := Nat.lt_of_mul_lt_mul_left hnet
    calc net + 2 ^ (32 - len)
        = 2 ^ (32 - len) * (net / 2 ^ (32 - len) + 1) := by rw [Nat.mul_add, this, Nat.mul_one]
      _ ≤ 2 ^ (32 - len) * q := Nat.mul_le_mul_left _ hlt
  have ha0 : net ||| c ≠ 0 := by rw [hor]; omega
  have halt : net ||| c < 4294967296 := by rw [hor]; omega
  obtain ⟨b, s1, hrun, hb, hs1⟩ := addAllocatedLoop_spec g.m_entries 0 (net ||| c) hwf
    (by omega) halt
  have hbt : b = true := by
    cases b with
    | true => rfl
    | false => exact absurd (hb.1 rfl) (hfree c (le_refl _) hc)
  subst hbt
  obtain ⟨hcov, hwf1⟩ := hs1 rfl
  have hadd : AddAllocated g.m_test g.m_entries (net ||| c) = .ok (true, s1) := by
    rw [AddAllocated_eq_loop _ _ _ ha0, hrun]
    rfl
  have hval : ((g.m_netTable len).network <<< (g.m_netTable len).shift) % 4294967296
      ||| (g.m_netTable len).addr = net ||| c := by
    rw [hnw, hshift, haddr, shift_back net _ hnm hnet]
  have hle : (g.m_netTable len).addr ≤ (g.m_netTable len).addrMax := by
    rw [haddr, hmax]; exact hc
  refine ⟨{ g with
      m_netTable := Function.update g.m_netTable len
        { g.m_netTable len with addr := ((g.m_netTable len).addr + 1) % 4294967296 },
      m_entries := s1 }, ?_, ?_⟩
  · simp only [RadeepAddressGeneratorImpl.NextAddress, MaskToIndex_prefixMask len h1 h2,
      hle, decide_True, Bool.not_true, Bool.false_eq_true, if_false, hval, hadd]
  · refine ⟨?_, ?_, ?_, ?_, hwf1, ?_⟩
    · simpa using hshift
    · simpa using hmax
    · simpa using hnw
    · simp only [Function.update_same, haddr]
      omega
    · intro x hx1 hx2 hcx
      rcases (hcov _).1 hcx with h | h
      · exact hfree x (by omega) hx2 h
      · rw [hor, or_eq_add_of_mod net x _ hnm (by omega)] at h
        omega

theorem NextAddress_overflow (len net c : Nat) (g : RadeepAddressGeneratorImpl) (h1 : 1 ≤ len)
    (h2 : len ≤ 31) (hinv : issuing len net c g) (hc : c = 2 ^ (32 - len)) :
    g.NextAddress (prefixMask len) = .error Fault.abort ∧
    (g.m_netTable len).addr > (g.m_netTable len).addrMax := by
  obtain ⟨hshift, hmax, hnw, haddr, hwf, hfree⟩ := hinv
  obtain ⟨hk2, hk31, _⟩ := hostBits_bounds len h1 h2
  have hgt : ¬ (g.m_netTable len).addr ≤ (g.m_netTable len).addrMax := by
    rw [haddr, hmax]; omega
  refine ⟨?_, by omega⟩
  simp only [RadeepAddressGeneratorImpl.NextAddress, MaskToIndex_prefixMask len h1 h2,
    hgt, decide_False, Bool.not_false, if_true]

theorem nextAddressCalls_issuing (len net : Nat) (h1 : 1 ≤ len) (h2 : len ≤ 31)
    (hnet : net < 4294967296) (hnm : net % 2 ^ (32 - len) = 0) :
    ∀ (n c : Nat) (g : RadeepAddressGeneratorImpl), (net ≠ 0 ∨ c ≠ 0) → issuing len net c g →
      c + n ≤ 2 ^ (32 - len) →
      ∃ gn, nextAddressCalls (prefixMask len) n g
          = .ok ((List.range n).map (fun i => net ||| (c + i)), gn) ∧
        issuing len net (c + n) gn
  | 0, c, g, _, hinv, _ => ⟨g, rfl, hinv⟩
  | n + 1, c, g, hne, hinv, hcn => by
    obtain ⟨g1, hstep, hinv1⟩ := NextAddress_step len net c g h1 h2 hnet hnm hne hinv
      (by omega)
    obtain ⟨gn, hrest, hinvn⟩ := nextAddressCalls_issuing len net h1 h2 hnet hnm n (c + 1) g1
      (by omega) hinv1 (by omega)
    refine ⟨gn, ?_, ?_⟩
    · simp only [nextAddressCalls, hstep, hrest, List.range_succ_eq_map, List.map_cons,
        List.map_map, Nat.add_zero]
      congr 3
      apply List.map_congr_left
      intro j _
      show net ||| (c + 1 + j) = net ||| (c + (j + 1))
      rw [Nat.add_assoc, Nat.add_comm 1 j]
    · have e : c + 1 + n = c + (n + 1) := by omega
      rw [← e]
      exact hinvn

/-- C20: on a generator whose table is as `Reset` leaves it, with a well-formed registry in
which none of the addresses to come is allocated, and for a mask of prefix length 1 to 31
with `net & ~mask = 0`, `a & mask = 0` and `net | a != 0`: `Init (net, mask, a)` succeeds,
the `i`-th of the following consecutive calls `NextAddress (mask)` returns `net | (a + i)`
as long as `a + i <= ~mask`, so `~mask - a + 1` calls succeed, and the call after them
aborts on the overflow test, the host counter being beyond the greatest host number. -/
theorem NextAddress_sequence (g : RadeepAddressGeneratorImpl) (len net a : Nat)
    (h1 : 1 ≤ len) (h2 : len ≤ 31) (htab : tableOk g.m_netTable)
    (hnet : net < 4294967296) (ha : a < 4294967296)
    (hnm : net &&& (4294967295 - prefixMask len) = 0) (ham : a &&& prefixMask len = 0)
    (hne : net ||| a ≠ 0) (hwf : rangesAbove 0 g.m_entries)
    (hfree : ∀ i, a + i ≤ 4294967295 - prefixMask len →
      ¬ covered g.m_entries (net ||| (a + i))) :
    ∃ g0, g.Init net (prefixMask len) a = .ok g0 ∧
      ∀ n, a + n ≤ 4294967295 - prefixMask len + 1 →
        ∃ gn, nextAddressCalls (prefixMask len) n g0
            = .ok ((List.range n).map (fun i => net ||| (a + i)), gn) ∧
          (a + n = 4294967295 - prefixMask len + 1 →
            gn.NextAddress (prefixMask len) = .error Fault.abort ∧
            (gn.m_netTable len).addr > (gn.m_netTable len).addrMax) := by
  obtain ⟨hk2, hk31, hpm⟩ := hostBits_bounds len h1 h2
  have hinvmask : 4294967295 - prefixMask len = 2 ^ (32 - len) - 1 := by omega
  have hpmlt : prefixMask len < 4294967296 := by omega
  rw [hinvmask] at hnm hfree ⊢
  have hnmod : net % 2 ^ (32 - len) = 0 := by
    rw [← Nat.and_pow_two_sub_one_eq_mod]; exact hnm
  have halt : a < 2 ^ (32 - len) := lt_of_and_prefixMask a len ha h2 ham
  obtain ⟨hshift, hmax⟩ := htab len (by omega)
  rw [hinvmask] at hmax
  have hne2 : net ≠ 0 ∨ a ≠ 0 := by
    by_contra hcon
    have hn0 : net = 0 := by omega
    have ha0 : a = 0 := by omega
    rw [hn0, ha0] at hne
    exact hne rfl
  have hmodp : prefixMask len % 4294967296 = prefixMask len := Nat.mod_eq_of_lt hpmlt
  have hmodn : net % 4294967296 = net := Nat.mod_eq_of_lt hnet
  have hmoda : a % 4294967296 = a := Nat.mod_eq_of_lt ha
  have hle : a ≤ (g.m_netTable len).addrMax := by rw [hmax]; omega
  have hnm2 : net &&& (4294967295 - prefixMask len) = 0 := by rw [hinvmask]; exact hnm
  have hinit : g.Init net (prefixMask len) a = .ok
      (RadeepAddressGeneratorImpl.mk (Function.update g.m_netTable len
        (NetworkState.mk (g.m_netTable len).mask (g.m_netTable len).shift
          (net >>> (g.m_netTable len).shift) a (g.m_netTable len).addrMax))
        g.m_entries g.m_test) := by
    simp only [RadeepAddressGeneratorImpl.Init, hmodp, hmodn, hmoda, hnm2, ham,
      bne_self_eq_false, Bool.false_eq_true, if_false, MaskToIndex_prefixMask len h1 h2,
      hle, decide_True, Bool.not_true]
  refine ⟨_, hinit, ?_⟩
  intro n hn
  have hinv0 : issuing len net a
      (RadeepAddressGeneratorImpl.mk (Function.update g.m_netTable len
        (NetworkState.mk (g.m_netTable len).mask (g.m_netTable len).shift
          (net >>> (g.m_netTable len).shift) a (g.m_netTable len).addrMax))
        g.m_entries g.m_test) := by
    refine ⟨?_, ?_, ?_, ?_, hwf, ?_⟩
    · simpa using hshift
    · simpa using hmax
    · simp only [Function.update_same, hshift, Nat.shiftRight_eq_div_pow]
    · simp only [Function.update_same]
    · intro x hx1 hx2
      have := hfree (x - a) (by omega)
      have e : a + (x - a) = x := by omega
      rw [e] at this
      exact this
  obtain ⟨gn, hrun, hinvn⟩ := nextAddressCalls_issuing len net h1 h2 hnet hnmod n a _ hne2
    hinv0 (by omega)
  exact ⟨gn, hrun, fun hN => NextAddress_overflow len net (a + n) gn h1 h2 hinvn (by omega)⟩

theorem NextAddress_sequence_witness :
    ∃ g0, RadeepAddressGeneratorImpl.new.Init 0x0a010100 (prefixMask 30) 1 = .ok g0 ∧
      ∃ g3, nextAddressCalls (prefixMask 30) 3 g0
          = .ok ([0x0a010101, 0x0a010102, 0x0a010103], g3) ∧
        g3.NextAddress (prefixMask 30) = .error Fault.abort := by
  obtain ⟨g0, h0, hall⟩ := NextAddress_sequence RadeepAddressGeneratorImpl.new 30 0x0a010100 1
    (by decide) (by decide) (resetLoop_tableOk _) (by decide) (by decide) (by decide)
    (by decide) (by decide) trivial (fun i _ h => by
      obtain ⟨e, he, _⟩ := h
      cases he)
  obtain ⟨g3, hr, hov⟩ := hall 3 (by decide)
  exact ⟨g0, h0, g3, hr, (hov (by decide)).1⟩
/-! ## Address generator: `NextNetwork`, registry queries, `Init` -/

/-- C21: after `Init (10.1.1.0, /24, 0.0.0.1)` and one `NextAddress` (which returns
10.1.1.1), `NextNetwork` returns 10.1.2.0, which is also what `GetNetwork` then gives, but
the next `NextAddress` returns 10.1.2.2 and not 10.1.2.1: the host counter is not reset. -/
theorem NextNetwork_keeps_host_counter :
    ∃ g0 g1 g2 g3, initializedGenerator = .ok g0 ∧
      g0.NextAddress 0xffffff00 = .ok (0x0a010101, g1) ∧
      g1.NextNetwork 0xffffff00 = .ok (0x0a010200, g2) ∧
      g2.GetNetwork 0xffffff00 = .ok 0x0a010200 ∧
      g2.NextAddress 0xffffff00 = .ok (0x0a010202, g3) ∧
      (0x0a010200 ||| 1 : Nat) = 0x0a010201 :=
  ⟨_, _, _, _, rfl, rfl, rfl, rfl, rfl, rfl⟩

/-- A reachable registry is well formed. -/
theorem Registry_rangesAbove (s : List Entry) (h : Registry s) : rangesAbove 0 s := by
  induction h with
  | empty => trivial
  | call t s s1 a r _ ha hadd ih =>
    have ha0 := AddAllocated_ok_ne_zero _ _ _ _ hadd
    rw [AddAllocated_eq_loop _ _ _ ha0] at hadd
    obtain ⟨b, s2, hrun, _, hs2⟩ := addAllocatedLoop_spec s 0 a ih (by omega) ha
    rw [hrun t] at hadd
    cases b with
    | true =>
      simp only [if_true, Except.ok.injEq, Prod.mk.injEq] at hadd
      rw [← hadd.2]
      exact (hs2 rfl).2
    | false =>
      cases t with
      | true =>
        simp only [Bool.false_eq_true, if_false, if_true, Except.ok.injEq, Prod.mk.injEq]
          at hadd
        rw [← hadd.2]
        exact ih
      | false => simp at hadd

theorem rangesAbove_consecutive : ∀ (s : List Entry) (lo : Nat), rangesAbove lo s →
    ∀ (k : Nat) (r q : Entry), s[k]? = some r → s[k + 1]? = some q →
      r.addrLow ≤ r.addrHigh ∧ r.addrHigh < q.addrLow
  | [], _, _, k, r, q, hr, _ => by simp at hr
  | e :: rest, lo, h, 0, r, q, hr, hq => by
    obtain ⟨_, h2, _, h4⟩ := h
    simp only [List.getElem?_cons_zero, Option.some.injEq] at hr
    subst hr
    cases rest with
    | nil => simp at hq
    | cons e1 rest1 =>
      simp only [List.getElem?_cons_succ, List.getElem?_cons_zero, Option.some.injEq] at hq
      subst hq
      exact ⟨h2, h4.1⟩
  | e :: rest, lo, h, k + 1, r, q, hr, hq => by
    simp only [List.getElem?_cons_succ] at hr hq
    exact rangesAbove_consecutive rest e.addrHigh h.2.2.2 k r q hr hq

/-- C22 (amended): after any sequence of `AddAllocated` calls the ranges of the registry are
in increasing order and do not overlap: every range has `low <= high`, and for every two
consecutive ranges `r`, `q` in order, `r.high < q.low`. -/
theorem AddAllocated_ranges_disjoint (s : List Entry) (h : Registry s) :
    ∀ (k : Nat) (r q : Entry), s[k]? = some r → s[k + 1]? = some q →
      r.addrLow ≤ r.addrHigh ∧ r.addrHigh < q.addrLow :=
  rangesAbove_consecutive s 0 (Registry_rangesAbove s h)

theorem AddAllocated_ranges_disjoint_witness :
    Registry [⟨5, 6⟩, ⟨7, 7⟩] ∧ (5 : Nat) ≤ 6 ∧ (6 : Nat) < 7 :=
  have hreg : Registry [⟨5, 6⟩, ⟨7, 7⟩] :=
    Registry.call false [⟨5, 5⟩, ⟨7, 7⟩] _ 6 true
      (Registry.call false [⟨5, 5⟩] _ 7 true
        (Registry.call false [] _ 5 true Registry.empty (by decide) rfl) (by decide) rfl)
      (by decide) rfl
  ⟨hreg, AddAllocated_ranges_disjoint _ hreg 0 ⟨5, 6⟩ ⟨7, 7⟩ rfl rfl⟩

/-- C22 (counterexample): adding 5, 7 and then 6 leaves the ranges 5..6 and 7..7, which are
adjacent: extending a range upward does not merge it with the next one. -/
theorem AddAllocated_adjacent_counterexample :
    AddAllocated false [] 5 = .ok (true, [⟨5, 5⟩]) ∧
    AddAllocated false [⟨5, 5⟩] 7 = .ok (true, [⟨5, 5⟩, ⟨7, 7⟩]) ∧
    AddAllocated false [⟨5, 5⟩, ⟨7, 7⟩] 6 = .ok (true, [⟨5, 6⟩, ⟨7, 7⟩]) ∧
    ¬ ((⟨5, 6⟩ : Entry).addrHigh + 1 < (⟨7, 7⟩ : Entry).addrLow) :=
  ⟨rfl, rfl, rfl, by decide⟩

/-- C23: with the address 5 allocated, `IsAddressAllocated (5)` returns false and
`IsAddressAllocated (9)`, for an address in no range, returns true. -/
theorem IsAddressAllocated_inverted :
    AddAllocated false [] 5 = .ok (true, [⟨5, 5⟩]) ∧
    IsAddressAllocated [⟨5, 5⟩] 5 = .ok false ∧
    IsAddressAllocated [⟨5, 5⟩] 9 = .ok true :=
  ⟨rfl, rfl, rfl⟩

/-- C24: with the addresses 3, 4, 5 and 6 allocated the registry is the one range 3..6; for
the network 4 under the mask 255.255.255.254 (the addresses 4 and 5) `IsNetworkAllocated`
returns true, as for a network with no address allocated, because neither end of the range
lies in it. -/
theorem IsNetworkAllocated_misses_inner_network :
    AddAllocated false [] 3 = .ok (true, [⟨3, 3⟩]) ∧
    AddAllocated false [⟨3, 3⟩] 4 = .ok (true, [⟨3, 4⟩]) ∧
    AddAllocated false [⟨3, 4⟩] 5 = .ok (true, [⟨3, 5⟩]) ∧
    AddAllocated false [⟨3, 5⟩] 6 = .ok (true, [⟨3, 6⟩]) ∧
    (4 &&& 0xfffffffe : Nat) = 4 ∧
    IsNetworkAllocated [⟨3, 6⟩] 4 0xfffffffe = .ok true ∧
    IsNetworkAllocated [⟨3, 6⟩] 2 0xfffffffe = .ok false :=
  ⟨rfl, rfl, rfl, rfl, rfl, rfl, rfl⟩

theorem prefixMask_lt (len : Nat) : prefixMask len < 4294967296 := by
  have h1 : 1 ≤ 2 ^ (32 - len) := Nat.one_le_two_pow
  have h2 : prefixMask len = 4294967296 - 2 ^ (32 - len) := rfl
  omega

/-- C25: on a generator whose table is as `Reset` leaves it, for a contiguous mask of prefix
length `len` (0 to 32) and 32-bit `net` and `a`: `Init (net, mask, a)` fails if
`net & ~mask != 0`, or `a & mask != 0`, or `len` is outside 1..31, and otherwise succeeds;
after it `GetNetwork (mask)` is `net`, `GetAddress (mask)` is `net | a`, the table entries of
every other mask length are unchanged and so is the registry. -/
theorem Init_fails_iff (g : RadeepAddressGeneratorImpl) (len net a : Nat) (hlen : len ≤ 32)
    (htab : tableOk g.m_netTable) (hnet : net < 4294967296) (ha : a < 4294967296) :
    ((net &&& (4294967295 - prefixMask len) ≠ 0 ∨ a &&& prefixMask len ≠ 0 ∨ len < 1 ∨
        31 < len) →
      ∃ f, g.Init net (prefixMask len) a = .error f) ∧
    (net &&& (4294967295 - prefixMask len) = 0 → a &&& prefixMask len = 0 → 1 ≤ len →
      len ≤ 31 →
      ∃ g0, g.Init net (prefixMask len) a = .ok g0 ∧
        g0.GetNetwork (prefixMask len) = .ok net ∧
        g0.GetAddress (prefixMask len) = .ok (net ||| a) ∧
        (∀ j, j ≠ len → g0.m_netTable j = g.m_netTable j) ∧
        g0.m_entries = g.m_entries) := by
  have hmodp : prefixMask len % 4294967296 = prefixMask len :=
    Nat.mod_eq_of_lt (prefixMask_lt len)
  have hmodn : net % 4294967296 = net := Nat.mod_eq_of_lt hnet
  have hmoda : a % 4294967296 = a := Nat.mod_eq_of_lt ha
  constructor
  · intro hbad
    by_cases h1 : net &&& (4294967295 - prefixMask len) = 0
    · by_cases h2 : a &&& prefixMask len = 0
      · have hl : len = 0 ∨ len = 32 := by
          rcases hbad with h | h | h | h
          · exact absurd h1 h
          · exact absurd h2 h
          · omega
          · omega
        rcases hl with rfl | rfl
        · refine ⟨Fault.assertion, ?_⟩
          have hmi : MaskToIndex (prefixMask 0) = .error Fault.assertion := rfl
          simp only [RadeepAddressGeneratorImpl.Init, hmodp, hmodn, hmoda, h1, h2,
            bne_self_eq_false, Bool.false_eq_true, if_false, hmi]
        · refine ⟨Fault.abort, ?_⟩
          have hmi : MaskToIndex (prefixMask 32) = .error Fault.abort := rfl
          simp only [RadeepAddressGeneratorImpl.Init, hmodp, hmodn, hmoda, h1, h2,
            bne_self_eq_false, Bool.false_eq_true, if_false, hmi]
      · refine ⟨Fault.abort, ?_⟩
        have hb : (a &&& prefixMask len != 0) = true := by simpa using h2
        simp only [RadeepAddressGeneratorImpl.Init, hmodp, hmodn, hmoda, h1,
          bne_self_eq_false, Bool.false_eq_true, if_false, hb, if_true]
    · refine ⟨Fault.abort, ?_⟩
      have hb : (net &&& (4294967295 - prefixMask len) != 0) = true := by simpa using h1
      simp only [RadeepAddressGeneratorImpl.Init, hmodp, hmodn, hmoda, hb, if_true]
  · intro hnm ham h1 h2
    obtain ⟨hk2, hk31, hpm⟩ := hostBits_bounds len h1 h2
    have hinvmask : 4294967295 - prefixMask len = 2 ^ (32 - len) - 1 := by omega
    have hnmod : net % 2 ^ (32 - len) = 0 := by
      rw [← Nat.and_pow_two_sub_one_eq_mod, ← hinvmask]; exact hnm
    have halt : a < 2 ^ (32 - len) := lt_of_and_prefixMask a len ha h2 ham
    obtain ⟨hshift, hmax⟩ := htab len (by omega)
    have hle : a ≤ (g.m_netTable len).addrMax := by rw [hmax, hinvmask]; omega
    have hinit : g.Init net (prefixMask len) a = .ok
        (RadeepAddressGeneratorImpl.mk (Function.update g.m_netTable len
          (NetworkState.mk (g.m_netTable len).mask (g.m_netTable len).shift
            (net >>> (g.m_netTable len).shift) a (g.m_netTable len).addrMax))
          g.m_entries g.m_test) := by
      simp only [RadeepAddressGeneratorImpl.Init, hmodp, hmodn, hmoda, hnm, ham,
        bne_self_eq_false, Bool.false_eq_true, if_false, MaskToIndex_prefixMask len h1 h2,
        hle, decide_True, Bool.not_true]
    have hback : ((net >>> (32 - len)) <<< (32 - len)) % 4294967296 = net := by
      rw [Nat.shiftRight_eq_div_pow]
      exact shift_back net _ hnmod hnet
    refine ⟨_, hinit, ?_, ?_, ?_, rfl⟩
    · simp only [RadeepAddressGeneratorImpl.GetNetwork, MaskToIndex_prefixMask len h1 h2,
        Function.update_same, hshift, hback]
    · simp only [RadeepAddressGeneratorImpl.GetAddress, MaskToIndex_prefixMask len h1 h2,
        Function.update_same, hshift, hback]
    · intro j hj
      simp only [Function.update_noteq hj]

theorem Init_fails_iff_witness :
    (∃ f, RadeepAddressGeneratorImpl.new.Init 0x0a010101 (prefixMask 24) 1 = .error f) ∧
    ∃ g0, RadeepAddressGeneratorImpl.new.Init 0x0a010100 (prefixMask 24) 1 = .ok g0 ∧
      g0.GetNetwork (prefixMask 24) = .ok 0x0a010100 ∧
      g0.GetAddress (prefixMask 24) = .ok 0x0a010101 := by
  have h1 := (Init_fails_iff RadeepAddressGeneratorImpl.new 24 0x0a010101 1 (by decide)
    (resetLoop_tableOk _) (by decide) (by decide)).1 (Or.inl (by decide))
  obtain ⟨g0, h2, h3, h4, _⟩ := (Init_fails_iff RadeepAddressGeneratorImpl.new 24 0x0a010100 1
    (by decide) (resetLoop_tableOk _) (by decide) (by decide)).2 (by decide) (by decide)
    (by decide) (by decide)
  exact ⟨h1, g0, h2, h3, h4⟩
/-! ## Header setters -/

/-- C26: for every header and 16-bit value `v`, `SetFragmentOffset (v)` aborts iff `v` is not
a multiple of 8; when it succeeds `GetFragmentOffset` returns `v` and no other field changes.
`SetFragmentOffset (7)` fails and `SetFragmentOffset (8)` succeeds. -/
theorem SetFragmentOffset_multiple_of_8 (h : RadeepHeader) (v : Nat) (hv : v < 65536) :
    (v % 8 ≠ 0 → h.SetFragmentOffset v = .error Fault.abort) ∧
    (v % 8 = 0 → ∃ h1, h.SetFragmentOffset v = .ok h1 ∧ h1.GetFragmentOffset = v ∧
      h1 = { h with m_fragmentOffset := v }) ∧
    h.SetFragmentOffset 7 = .error Fault.abort ∧
    h.SetFragmentOffset 8 = .ok { h with m_fragmentOffset := 8 } := by
  refine ⟨fun h8 => ?_, fun h8 => ?_, rfl, rfl⟩
  · have e : v &&& 7 ≠ 0 := by rw [and_7_eq_mod]; exact h8
    have hb : (v &&& 7 != 0) = true := by simpa using e
    simp only [RadeepHeader.SetFragmentOffset, Nat.mod_eq_of_lt hv, hb, if_true]
  · exact ⟨_, SetFragmentOffset_ok h v h8 hv, rfl, rfl⟩

theorem SetFragmentOffset_multiple_of_8_witness :
    (7 % 8 ≠ 0 ∧ exampleHeader.SetFragmentOffset 7 = .error Fault.abort) ∧
    (1480 % 8 = 0 ∧ ∃ h1, exampleHeader.SetFragmentOffset 1480 = .ok h1 ∧
      h1.GetFragmentOffset = 1480 ∧ h1 = { exampleHeader with m_fragmentOffset := 1480 }) :=
  ⟨⟨by decide, (SetFragmentOffset_multiple_of_8 exampleHeader 7 (by decide)).1 (by decide)⟩,
   ⟨by decide,
    (SetFragmentOffset_multiple_of_8 exampleHeader 1480 (by decide)).2.1 (by decide)⟩⟩

set_option maxRecDepth 1000000 in
theorem dscp_bits : ∀ t < 256, ∀ d < 64,
    ((((t &&& 0x3) % 256 ||| (d <<< 2)) % 256) &&& 0xFC) >>> 2 = d ∧
    (((t &&& 0x3) % 256 ||| (d <<< 2)) % 256) &&& 0x3 = t &&& 0x3 := by
  decide

set_option maxRecDepth 1000000 in
theorem ecn_bits : ∀ t < 256, ∀ e < 4,
    (((t &&& 0xFC) % 256 ||| e) % 256) &&& 0x3 = e ∧
    ((((t &&& 0xFC) % 256 ||| e) % 256) &&& 0xFC) >>> 2 = (t &&& 0xFC) >>> 2 := by
  decide

/-- C27: for every header (type-of-service field within its 8 bits), every DSCP value `d` in
0..63 and every ECN value `e` in 0..3: after `SetDscp (d)`, `GetDscp` returns `d` and `GetEcn`
is unchanged; after `SetEcn (e)`, `GetEcn` returns `e` and `GetDscp` is unchanged; neither
changes a field other than the type-of-service byte. -/
theorem SetDscp_SetEcn_frame (h : RadeepHeader) (d e : Nat) (ht : h.m_tos < 256) (hd : d < 64)
    (he : e < 4) :
    (h.SetDscp d).GetDscp = d ∧ (h.SetDscp d).GetEcn = h.GetEcn ∧
    (h.SetEcn e).GetEcn = e ∧ (h.SetEcn e).GetDscp = h.GetDscp ∧
    h.SetDscp d = { h with m_tos := (h.SetDscp d).m_tos } ∧
    h.SetEcn e = { h with m_tos := (h.SetEcn e).m_tos } := by
  have h1 := dscp_bits h.m_tos ht d hd
  have h2 := ecn_bits h.m_tos ht e he
  exact ⟨h1.1, h1.2, h2.1, h2.2, rfl, rfl⟩

theorem SetDscp_SetEcn_frame_witness :
    (exampleHeader.SetDscp 10).GetDscp = 10 ∧
    (exampleHeader.SetDscp 10).GetEcn = exampleHeader.GetEcn ∧
    (exampleHeader.SetEcn 3).GetEcn = 3 ∧
    (exampleHeader.SetEcn 3).GetDscp = exampleHeader.GetDscp :=
  have h := SetDscp_SetEcn_frame exampleHeader 10 3 (by decide) (by decide) (by decide)
  ⟨h.1, h.2.1, h.2.2.1, h.2.2.2.1⟩
/-! ## Access by index: static routes and the chain of strategies -/

theorem getRouteLoop_eq (index : Nat) : ∀ (routes : NetworkRoutes) (tmp : Nat),
    tmp ≤ index → tmp + routes.length < 4294967296 →
    getRouteLoop index routes tmp =
      match routes[index - tmp]? with
      | some e => .ok e.1
      | none => .error Fault.assertion
  | [], _, _, _ => by simp [getRouteLoop]
  | j :: rest, tmp, h1, h2 => by
    simp only [getRouteLoop, List.length_cons] at h2 ⊢
    by_cases he : tmp = index
    · subst he
      simp
    · have hb : (tmp == index) = false := by simpa using he
      have hm : (tmp + 1) % 4294967296 = tmp + 1 := Nat.mod_eq_of_lt (by omega)
      have hi : index - tmp = (index - (tmp + 1)) + 1 := by omega
      rw [hb, hm, hi, List.getElem?_cons_succ]
      simp only [Bool.false_eq_true, if_false]
      exact getRouteLoop_eq index rest (tmp + 1) (by omega) (by omega)

theorem getMetricLoop_eq (index : Nat) : ∀ (routes : NetworkRoutes) (tmp : Nat),
    tmp ≤ index → tmp + routes.length < 4294967296 →
    getMetricLoop index routes tmp =
      match routes[index - tmp]? with
      | some e => .ok e.2
      | none => .error Fault.assertion
  | [], _, _, _ => by simp [getMetricLoop]
  | j :: rest, tmp, h1, h2 => by
    simp only [getMetricLoop, List.length_cons] at h2 ⊢
    by_cases he : tmp = index
    · subst he
      simp
    · have hb : (tmp == index) = false := by simpa using he
      have hm : (tmp + 1) % 4294967296 = tmp + 1 := Nat.mod_eq_of_lt (by omega)
      have hi : index - tmp = (index - (tmp + 1)) + 1 := by omega
      rw [hb, hm, hi, List.getElem?_cons_succ]
      simp only [Bool.false_eq_true, if_false]
      exact getMetricLoop_eq index rest (tmp + 1) (by omega) (by omega)

theorem GetRoute_eq (routes : NetworkRoutes) (index : Nat) (h : routes.length < 4294967296) :
    GetRoute routes index =
      match routes[index]? with
      | some e => .ok e.1
      | none => .error Fault.assertion := by
  have := getRouteLoop_eq index routes 0 (Nat.zero_le _) (by omega)
  simpa [GetRoute] using this

theorem GetMetric_eq (routes : NetworkRoutes) (index : Nat) (h : routes.length < 4294967296) :
    GetMetric routes index =
      match routes[index]? with
      | some e => .ok e.2
      | none => .error Fault.assertion := by
  have := getMetricLoop_eq index routes 0 (Nat.zero_le _) (by omega)
  simpa [GetMetric] using this

/-- C29: for a static table of `n` routes (fewer than 2^32) and every `i < n`,
`RemoveRoute (i)` leaves `n - 1` routes; `GetRoute (j)` and `GetMetric (j)` then return what
they returned before for `j < i`, and what they returned for `j + 1` before for
`i <= j < n - 1`.  For every `i >= n`, `RemoveRoute (i)`, `GetRoute (i)` and `GetMetric (i)`
end in the assertion failure. -/
theorem RemoveRoute_shifts (routes : NetworkRoutes) (i : Nat)
    (hn : routes.length < 4294967296) :
    (i < routes.length →
      ∃ routes1, RemoveRoute routes i = .ok routes1 ∧ routes1.length = routes.length - 1 ∧
        (∀ j, j < i → ∃ e m, GetRoute routes j = .ok e ∧ GetRoute routes1 j = .ok e ∧
          GetMetric routes j = .ok m ∧ GetMetric routes1 j = .ok m) ∧
        (∀ j, i ≤ j → j < routes.length - 1 →
          ∃ e m, GetRoute routes (j + 1) = .ok e ∧ GetRoute routes1 j = .ok e ∧
            GetMetric routes (j + 1) = .ok m ∧ GetMetric routes1 j = .ok m)) ∧
    (routes.length ≤ i →
      RemoveRoute routes i = .error Fault.assertion ∧
      GetRoute routes i = .error Fault.assertion ∧
      GetMetric routes i = .error Fault.assertion) := by
  constructor
  · intro hi
    have hlen : (routes.eraseIdx i).length = routes.length - 1 := List.length_eraseIdx_of_lt hi
    refine ⟨routes.eraseIdx i, by simp [RemoveRoute, hi], hlen, ?_, ?_⟩
    · intro j hj
      have hjl : j < routes.length := by omega
      have h1 : routes[j]? = some routes[j] := List.getElem?_eq_getElem hjl
      have h2 : (routes.eraseIdx i)[j]? = some routes[j] := by
        rw [List.getElem?_eraseIdx, if_pos hj, h1]
      refine ⟨routes[j].1, routes[j].2, ?_, ?_, ?_, ?_⟩
      · rw [GetRoute_eq routes j (by omega), h1]
      · rw [GetRoute_eq _ j (by omega), h2]
      · rw [GetMetric_eq routes j (by omega), h1]
      · rw [GetMetric_eq _ j (by omega), h2]
    · intro j hj hjn
      have hjl : j + 1 < routes.length := by omega
      have h1 : routes[j + 1]? = some routes[j + 1] := List.getElem?_eq_getElem hjl
      have h2 : (routes.eraseIdx i)[j]? = some routes[j + 1] := by
        rw [List.getElem?_eraseIdx, if_neg (by omega), h1]
      refine ⟨routes[j + 1].1, routes[j + 1].2, ?_, ?_, ?_, ?_⟩
      · rw [GetRoute_eq routes (j + 1) (by omega), h1]
      · rw [GetRoute_eq _ j (by omega), h2]
      · rw [GetMetric_eq routes (j + 1) (by omega), h1]
      · rw [GetMetric_eq _ j (by omega), h2]
  · intro hi
    have h1 : routes[i]? = none := List.getElem?_eq_none_iff.2 hi
    refine ⟨?_, ?_, ?_⟩
    · have : ¬ i < routes.length := by omega
      simp [RemoveRoute, this]
    · rw [GetRoute_eq routes i (by omega), h1]
    · rw [GetMetric_eq routes i (by omega), h1]

theorem RemoveRoute_shifts_witness :
    (∃ routes1, RemoveRoute exampleRoutes 0 = .ok routes1 ∧ routes1.length = 1 ∧
      ∃ e m, GetRoute exampleRoutes 1 = .ok e ∧ GetRoute routes1 0 = .ok e ∧
        GetMetric exampleRoutes 1 = .ok m ∧ GetMetric routes1 0 = .ok m) ∧
    RemoveRoute exampleRoutes 2 = .error Fault.assertion ∧
    GetRoute exampleRoutes 2 = .error Fault.assertion ∧
    GetMetric exampleRoutes 2 = .error Fault.assertion := by
  obtain ⟨routes1, h1, h2, _, h4⟩ := (RemoveRoute_shifts exampleRoutes 0 (by decide)).1
    (by decide)
  exact ⟨⟨routes1, h1, h2, h4 0 (le_refl _) (by decide)⟩,
    (RemoveRoute_shifts exampleRoutes 2 (by decide)).2 (by decide)⟩

/-- C30: on a chain of one strategy, `GetRoutingProtocol (0)` returns that strategy with its
priority and `GetRoutingProtocol (2)` ends in the fatal error, but `GetRoutingProtocol (1)`
returns the null pointer and leaves `priority` as it was: the range test is
`index > size`. -/
theorem GetRoutingProtocol_index_equal_size :
    addRoutingProtocols [] [((5 : Int), (1 : Nat))] = [(5, 1)] ∧
    GetRoutingProtocol [((5 : Int), (1 : Nat))] 0 0 = .ok (some 1, 5) ∧
    GetRoutingProtocol [((5 : Int), (1 : Nat))] 1 0 = .ok (none, 0) ∧
    GetRoutingProtocol [((5 : Int), (1 : Nat))] 2 0 = .error Fault.fatal :=
  ⟨rfl, rfl, rfl, rfl⟩
/-! ## The scenario of 3000 bytes over a link of MTU 1500 -/

/-- The fragments of a payload of 3000 bytes under a 20-byte header with fragment offset 0,
for MTU 1500: three, at the offsets 0, 1480 and 2960, of 1480, 1480 and 40 bytes. -/
theorem DoFragmentation_3000 (ck : Bool) (P : List Nat) (H : RadeepHeader)
    (hlen : P.length = 3000) (hs : H.GetSerializedSize = 20) (ho0 : H.GetFragmentOffset = 0) :
    (∀ fuel, 3 ≤ fuel → DoFragmentation fuel ck P H 1500 =
      .ok (expectedFragments P H ck 1480 0 H.IsLastFragment 3 0)) ∧
    (expectedFragments P H ck 1480 0 H.IsLastFragment 3 0).map
      (fun x => x.2.GetFragmentOffset) = [0, 1480, 2960] ∧
    (expectedFragments P H ck 1480 0 H.IsLastFragment 3 0).map
      (fun x => x.1.length) = [1480, 1480, 40] := by
  have hfs : (1500 - 20) &&& 4294967288 = 1480 := by decide
  obtain ⟨n, hn, _, _, hrun⟩ := DoFragmentation_expected ck P H 1500 (by omega) hs
    (by rw [ho0]) (by rw [ho0]; omega) (by rw [hfs]; omega) (by omega)
  rw [hfs, hlen] at hn
  have hn2 : n = 2 := by omega
  subst hn2
  rw [hfs, ho0] at hrun
  have l1 : ((P.drop 0).take 1480).length = 1480 := by
    rw [List.length_take, List.length_drop, hlen]; omega
  have l2 : ((P.drop 1480).take 1480).length = 1480 := by
    rw [List.length_take, List.length_drop, hlen]; omega
  have l3 : ((P.drop 2960).take (P.length - 2960)).length = 40 := by
    rw [List.length_take, List.length_drop, hlen]; omega
  have c1 : P.length > 0 + 1480 := by omega
  have c2 : P.length > 0 + 1480 + 1480 := by omega
  have c3 : ¬ P.length > 0 + 1480 + 1480 + 1480 := by omega
  refine ⟨fun fuel hfuel => hrun fuel (by omega), ?_, ?_⟩
  · simp only [expectedFragments, List.map_cons, List.map_nil, fragmentAt_offset]
  · simp only [expectedFragments, List.map_cons, List.map_nil, fragmentAt_fst]
    rw [if_pos c1, if_pos c2, if_neg c3]
    show [((P.drop 0).take 1480).length, ((P.drop 1480).take 1480).length,
      ((P.drop 2960).take (P.length - 2960)).length] = [1480, 1480, 40]
    rw [l1, l2, l3]

/-- C28 (amended): fragmenting a payload of 3000 bytes under a terminal 20-byte header with
fragment offset 0 for a link of MTU 1500 yields three fragments, with offsets 0, 1480 and
2960 (all multiples of 8) and payloads of 1480, 1480 and 40 bytes, which sum to 3000; adding
them in order to an empty fragment set gives a complete set whose `GetPacket` is the original
payload. -/
theorem fragment_3000_at_1500 (ck : Bool) (P : List Nat) (H : RadeepHeader)
    (hlen : P.length = 3000) (hs : H.GetSerializedSize = 20) (ho0 : H.GetFragmentOffset = 0)
    (hterm : H.IsLastFragment = true) :
    ∃ frags : List RadeepPayloadHeaderPair,
      (∀ fuel, 3 ≤ fuel → DoFragmentation fuel ck P H 1500 = .ok frags) ∧
      frags.map (fun x => x.2.GetFragmentOffset) = [0, 1480, 2960] ∧
      (∀ x ∈ frags, x.2.GetFragmentOffset % 8 = 0) ∧
      frags.map (fun x => x.1.length) = [1480, 1480, 40] ∧
      (frags.map (fun x => x.1.length)).sum = 3000 ∧
      ∃ st, (addFragments Fragments.new frags).getLast? = some st ∧ st.IsEntire = true ∧
        st.GetPacket = .ok P := by
  obtain ⟨hrun, hoffs, hlens⟩ := DoFragmentation_3000 ck P H hlen hs ho0
  rw [hterm] at hrun hoffs hlens
  have hflat := expectedFragments_flatten P H ck 1480 0 true 2 0 (by omega) (by omega)
    (Or.inl (by omega))
  have hchain := expectedFragments_chained P H ck 1480 true 2 0 (by omega) (Or.inl (by omega))
  have hlenf := expectedFragments_length P H ck 1480 0 true 3 0
  have hlastflag : ∀ x, (expectedFragments P H ck 1480 0 true 3 0)[2]? = some x →
      x.2.IsLastFragment = true := by
    intro x hx
    rw [expectedFragments_getElem _ _ _ _ _ _ _ _ 2 (by omega)] at hx
    cases hx
    rw [fragmentAt_isLast, if_neg (by omega)]
  generalize expectedFragments P H ck 1480 0 true 3 0 = frags at *
  have hflat2 : (frags.map Prod.fst).flatten = P := by simpa using hflat
  have hchain2 : frags.map (fun x => (x.1, x.2.GetFragmentOffset)) =
      contig ([] : List (List Nat)).flatten.length (frags.map Prod.fst) := by
    simpa using hchain
  have hstates := addFragments_chained frags [] false hchain2
  have hnew : (⟨false, contig 0 []⟩ : Fragments) = Fragments.new := rfl
  rw [hnew] at hstates
  have hlen2 := addFragments_length frags Fragments.new
  have hnth : (addFragments Fragments.new frags)[2]? ≠ none := by
    intro h0
    have := List.getElem?_eq_none_iff.1 h0
    rw [hlen2, hlenf] at this
    omega
  obtain ⟨st, hst⟩ := Option.ne_none_iff_exists'.1 hnth
  refine ⟨frags, hrun, hoffs, ?_, hlens, by rw [hlens]; rfl, st, ?_, ?_, ?_⟩
  · intro x hx
    have hm : x.2.GetFragmentOffset ∈ frags.map (fun x => x.2.GetFragmentOffset) :=
      List.mem_map_of_mem _ hx
    rw [hoffs] at hm
    simp only [List.mem_cons, List.mem_singleton, List.not_mem_nil, or_false] at hm
    rcases hm with h | h | h <;> rw [h]
  · rw [List.getLast?_eq_getElem?, hlen2, hlenf]
    simpa using hst
  all_goals
    obtain ⟨x, hx, rfl⟩ := hstates 2 st hst
    have hxl := hlastflag x hx
    have htake : frags.take (2 + 1) = frags := List.take_of_length_le (by omega)
    have hne : frags.map Prod.fst ≠ [] := by
      intro h0
      have := congrArg List.length h0
      rw [List.length_map, hlenf] at this
      simp at this
    obtain ⟨c, cs, hcs⟩ := List.exists_cons_of_ne_nil hne
  · have hent := isEntireLoop_contig (frags.map Prod.fst) 0 0 (Nat.le_refl _)
      (by rw [hflat2]; omega)
    simp only [Fragments.IsEntire, hxl, htake, List.nil_append]
    rw [hcs] at hent ⊢
    simpa [contig] using hent
  · have hfl2 : c ++ cs.flatten = P := by
      rw [hcs] at hflat2
      simpa using hflat2
    have hgp := getPacketLoop_contig cs c (by
      have := congrArg List.length hfl2
      rw [List.length_append] at this
      omega)
    simp only [Fragments.GetPacket, htake, List.nil_append, hcs, contig, Nat.zero_add]
    rw [hgp, hfl2]

theorem fragment_3000_at_1500_witness :
    ∃ frags : List RadeepPayloadHeaderPair,
      DoFragmentation 3 false (List.replicate 3000 0) exampleHeader 1500 = .ok frags ∧
      frags.map (fun x => x.2.GetFragmentOffset) = [0, 1480, 2960] ∧
      ∃ st, (addFragments Fragments.new frags).getLast? = some st ∧
        st.GetPacket = .ok (List.replicate 3000 0) := by
  obtain ⟨frags, h1, h2, -, -, -, st, h3, -, h4⟩ := fragment_3000_at_1500 false
    (List.replicate 3000 0) exampleHeader (List.length_replicate _ _) rfl rfl rfl
  exact ⟨frags, h1 3 (le_refl _), h2, st, h3, h4⟩

/-- C28 (counterexample): for a payload of 3000 bytes the fragments are three, and their
offsets are 0, 1480 and 2960, not 0 and 1480; the first two hold 2960 bytes only. -/
theorem fragment_3000_three_fragments :
    ∃ frags : List RadeepPayloadHeaderPair,
      DoFragmentation 3 false (List.replicate 3000 0) exampleHeader 1500 = .ok frags ∧
      frags.map (fun x => x.2.GetFragmentOffset) = [0, 1480, 2960] ∧
      frags.map (fun x => x.2.GetFragmentOffset) ≠ [0, 1480] ∧
      frags.map (fun x => x.1.length) = [1480, 1480, 40] := by
  obtain ⟨h1, h2, h3⟩ := DoFragmentation_3000 false (List.replicate 3000 0) exampleHeader
    (List.length_replicate _ _) rfl rfl
  refine ⟨_, h1 3 (le_refl _), h2, ?_, h3⟩
  rw [h2]
  decide
/-! ## Partial reassembly, registry invariant, forwarding -/

/-- C31: on the set holding 24 bytes at offset 0 and 8 bytes at offset 8 (the second fragment
lies inside the first), `GetPartialPacket` computes the slice start 24 - 8 = 16, beyond the 8
bytes of the fragment, and the slice length 8 - 16, which wraps to 4294967288, and hands
both to `CreateFragment`, whose assertion fails; `GetPacket` guards the same step and
returns the 24 bytes. -/
theorem GetPartialPacket_contained_fragment :
    containedFragments.m_fragments = [(List.replicate 24 1, 0), (List.replicate 8 2, 8)] ∧
    ((List.replicate 24 1).length % 65536 + 4294967296 - 8) % 4294967296 = 16 ∧
    ((List.replicate 8 2).length + 4294967296 - 16) % 4294967296 = 4294967288 ∧
    CreateFragment (List.replicate 8 2) 16 4294967288 = .error Fault.assertion ∧
    containedFragments.GetPartialPacket = .error Fault.assertion ∧
    containedFragments.GetPacket = .ok (List.replicate 24 1) :=
  ⟨rfl, rfl, rfl, rfl, rfl, rfl⟩

/-- C35: after any sequence of `AddAllocated` calls starting from the empty registry, the
ranges are in strictly ascending order and do not overlap (for consecutive `r`, `q`:
`r.low < q.low` and `r.high < q.low`), each range has `low <= high`, and address 0 is covered
by no range. -/
theorem Registry_invariant (s : List Entry) (h : Registry s) :
    (∀ (k : Nat) (r q : Entry), s[k]? = some r → s[k + 1]? = some q →
      r.addrLow < q.addrLow ∧ r.addrHigh < q.addrLow) ∧
    (∀ r ∈ s, r.addrLow ≤ r.addrHigh) ∧
    ¬ covered s 0 := by
  have hwf := Registry_rangesAbove s h
  refine ⟨fun k r q hr hq => ?_, fun r hr => (rangesAbove_mem s 0 hwf r hr).2.1,
    not_covered_of_lt s 0 0 hwf (le_refl _)⟩
  have := rangesAbove_consecutive s 0 hwf k r q hr hq
  omega

theorem Registry_invariant_witness :
    Registry [⟨3, 4⟩, ⟨9, 9⟩] ∧ ((3 : Nat) < 9 ∧ (4 : Nat) < 9) ∧ ¬ covered [⟨3, 4⟩, ⟨9, 9⟩] 0 :=
  have hreg : Registry [⟨3, 4⟩, ⟨9, 9⟩] :=
    Registry.call true [⟨3, 3⟩, ⟨9, 9⟩] _ 4 true
      (Registry.call true [⟨3, 3⟩] _ 9 true
        (Registry.call true [] _ 3 true Registry.empty (by decide) rfl) (by decide) rfl)
      (by decide) rfl
  ⟨hreg, (Registry_invariant _ hreg).1 0 ⟨3, 4⟩ ⟨9, 9⟩ rfl rfl, (Registry_invariant _ hreg).2.2⟩

/-- C37: a datagram that arrives with TTL 0 is not dropped: the TTL handed to `SetTtl` is
`0 - 1` as a `uint8_t`, 255, the test `GetTtl () == 0` fails, and the datagram is sent on
with TTL 255.  A datagram arriving with TTL 1 is dropped with reason `DROP_TTL_EXPIRED` and
one arriving with TTL 64 is sent with TTL 63. -/
theorem RadeepForward_ttl_zero (GetInterfaceForDevice : Nat → Int)
    (IsBroadcast IsMulticast : Nat → Bool) (PROT_NUMBER : Nat) (rtentry : RadeepRoute)
    (p : List Nat) (header : RadeepHeader) :
    RadeepForward GetInterfaceForDevice IsBroadcast IsMulticast PROT_NUMBER rtentry p
        { header with m_ttl := 0 }
      = [ForwardAction.unicastForwardTrace { header with m_ttl := 255 } p
           (GetInterfaceForDevice rtentry.m_outputDevice),
         ForwardAction.SendRealOut rtentry p { header with m_ttl := 255 }] ∧
    (∃ icmp, RadeepForward GetInterfaceForDevice IsBroadcast IsMulticast PROT_NUMBER rtentry p
        { header with m_ttl := 1 }
      = icmp ++ [ForwardAction.dropTrace { header with m_ttl := 1 } p
          DropReason.DROP_TTL_EXPIRED (GetInterfaceForDevice rtentry.m_outputDevice)] ∧
      (icmp = [] ∨ icmp = [ForwardAction.SendTimeExceededTtl { header with m_ttl := 0 } p])) ∧
    RadeepForward GetInterfaceForDevice IsBroadcast IsMulticast PROT_NUMBER rtentry p
        { header with m_ttl := 64 }
      = [ForwardAction.unicastForwardTrace { header with m_ttl := 63 } p
           (GetInterfaceForDevice rtentry.m_outputDevice),
         ForwardAction.SendRealOut rtentry p { header with m_ttl := 63 }] := by
  refine ⟨?_, ⟨if (header.m_protocol != PROT_NUMBER && IsBroadcast header.m_destination == false
      && IsMulticast header.m_destination == false) = true
      then [ForwardAction.SendTimeExceededTtl { header with m_ttl := 0 } p] else [], ?_, ?_⟩, ?_⟩
  · simp [RadeepForward, RadeepHeader.SetTtl, RadeepHeader.GetTtl]
  · simp [RadeepForward, RadeepHeader.SetTtl, RadeepHeader.GetTtl, RadeepHeader.GetProtocol,
      RadeepHeader.GetDestination]
  · split
    · exact Or.inr rfl
    · exact Or.inl rfl
  · simp [RadeepForward, RadeepHeader.SetTtl, RadeepHeader.GetTtl]
/-! ## `NextAddress` and the registry -/

theorem maskToIndexLoop_lt : ∀ (n i maskBits index : Nat),
    maskToIndexLoop n i maskBits = .ok index → index < 32
  | 0, _, _, _, h => by simp [maskToIndexLoop] at h
  | n + 1, i, maskBits, index, h => by
    simp only [maskToIndexLoop] at h
    split at h
    · split at h
      · rename_i hc
        cases h
        simp only [N_BITS, Bool.and_eq_true, decide_eq_true_eq] at hc
        exact hc.2
      · cases h
    · exact maskToIndexLoop_lt n (i + 1) (maskBits >>> 1) index h

/-- C36 (amended): whenever `NextAddress (mask)` returns an address `a`, `a` is in the
registry afterwards; when the generator is not in test mode, `a` was not in the registry
before the call.  In test mode an address that was already allocated is returned all the
same, the registry staying as it was. -/
theorem NextAddress_registers (g g1 : RadeepAddressGeneratorImpl) (mask a : Nat)
    (hwf : rangesAbove 0 g.m_entries)
    (haddr : ∀ i, i < 32 → (g.m_netTable i).addr < 4294967296)
    (h : g.NextAddress mask = .ok (a, g1)) :
    covered g1.m_entries a ∧
    (g.m_test = false → ¬ covered g.m_entries a) ∧
    (covered g.m_entries a → g1.m_entries = g.m_entries) := by
  simp only [RadeepAddressGeneratorImpl.NextAddress] at h
  split at h
  · cases h
  · rename_i index hidx
    have hi : index < 32 := maskToIndexLoop_lt _ _ _ _ hidx
    split at h
    · cases h
    · split at h
      · cases h
      · rename_i r hadd
        simp only [Except.ok.injEq, Prod.mk.injEq] at h
        obtain ⟨ha, hg1⟩ := h
        have hent : g1.m_entries = r.2 := by rw [← hg1]
        rw [ha] at hadd
        have ha0 := AddAllocated_ok_ne_zero _ _ _ _ hadd
        have halt : a < 4294967296 := by
          rw [← ha]
          exact @Nat.or_lt_two_pow _ _ 32 (Nat.mod_lt _ (by decide)) (haddr index hi)
        rw [AddAllocated_eq_loop _ _ _ ha0] at hadd
        obtain ⟨b, s1, hrun, hb, hs1⟩ := addAllocatedLoop_spec g.m_entries 0 a hwf
          (by omega) halt
        rw [hrun] at hadd
        cases b with
        | true =>
          simp only [if_true, Except.ok.injEq] at hadd
          have hnc : ¬ covered g.m_entries a := fun hc => by
            have := hb.2 hc
            cases this
          refine ⟨?_, fun _ => hnc, fun hc => absurd hc hnc⟩
          rw [hent, ← hadd]
          exact ((hs1 rfl).1 a).2 (Or.inr rfl)
        | false =>
          have hc : covered g.m_entries a := hb.1 rfl
          cases ht : g.m_test with
          | true =>
            rw [ht] at hadd
            simp only [Bool.false_eq_true, if_false, if_true, Except.ok.injEq] at hadd
            have hr2 : r.2 = g.m_entries := by rw [← hadd]
            rw [hent, hr2]
            exact ⟨hc, (fun hf => by cases hf), fun _ => rfl⟩
          | false =>
            rw [ht] at hadd
            simp at hadd

theorem NextAddress_registers_witness :
    ∃ g1, RadeepAddressGeneratorImpl.new.NextAddress 0xffffff00 = .ok (257, g1) ∧
      covered g1.m_entries 257 ∧ ¬ covered RadeepAddressGeneratorImpl.new.m_entries 257 :=
  have h : RadeepAddressGeneratorImpl.new.NextAddress 0xffffff00
      = .ok (257, _) := rfl
  have hall := NextAddress_registers RadeepAddressGeneratorImpl.new _ 0xffffff00 257 trivial
    (fun i hi => by interval_cases i <;> decide) h
  ⟨_, h, hall.1, hall.2.1 rfl⟩

/-- C36 (counterexample): in test mode, with 10.1.1.1 already allocated and the generator
initialised to start at 10.1.1.1, `NextAddress` returns 10.1.1.1. -/
theorem NextAddress_test_mode_reissues :
    ∃ g g1, collidingGenerator = .ok g ∧ g.m_test = true ∧
      g.m_entries = [⟨0x0a010101, 0x0a010101⟩] ∧ covered g.m_entries 0x0a010101 ∧
      g.NextAddress 0xffffff00 = .ok (0x0a010101, g1) ∧ g1.m_entries = g.m_entries :=
  ⟨_, _, rfl, rfl, rfl, ⟨⟨0x0a010101, 0x0a010101⟩, List.mem_singleton.2 rfl, le_refl _, le_refl _⟩,
    rfl, rfl⟩

/-! ## The reassembly key and the tables -/

theorem mapFind_mapErase_ne {β : Type} (k key : FragmentKey) (hk : k ≠ key) :
    ∀ m : List (FragmentKey × β), mapFind k (mapErase key m) = mapFind k m
  | [] => rfl
  | e :: rest => by
    have ih := mapFind_mapErase_ne k key hk rest
    by_cases he : e.1 = key
    · have hb : (e.1 == key) = true := by simpa using he
      have hn : (e.1 == k) = false := by
        rw [he]
        simpa using fun h => hk h.symm
      simp only [mapErase, List.filter_cons, hb, Bool.not_true, Bool.false_eq_true, if_false,
        mapFind, hn]
      exact ih
    · have hb : (e.1 == key) = false := by simpa using he
      simp only [mapErase, List.filter_cons, hb, Bool.not_false, if_true, mapFind]
      split
      · rfl
      · exact ih

theorem mapFind_mapSet_ne {β : Type} (k key : FragmentKey) (v : β) (hk : k ≠ key)
    (m : List (FragmentKey × β)) : mapFind k (mapSet key v m) = mapFind k m := by
  have hn : (key == k) = false := by simpa using fun h => hk h.symm
  simp only [mapSet, mapFind, hn, Bool.false_eq_true, if_false]
  exact mapFind_mapErase_ne k key hk m

theorem mapFind_mapSet_self {β : Type} (key : FragmentKey) (v : β)
    (m : List (FragmentKey × β)) : mapFind key (mapSet key v m) = some v := by
  simp [mapSet, mapFind]

theorem fragmentKey_eq (h : RadeepHeader) (hr : h.InRange) :
    fragmentKey h = (4294967296 * h.m_source + h.m_destination,
      65536 * h.m_identification + h.m_protocol) := by
  obtain ⟨_, hid, _, _, hp, _, _, hs, hd, _, _⟩ := hr
  have e1 : h.m_source % 18446744073709551616 = h.m_source := Nat.mod_eq_of_lt (by omega)
  have e2 : h.m_destination % 18446744073709551616 = h.m_destination :=
    Nat.mod_eq_of_lt (by omega)
  have e3 : h.m_identification % 4294967296 = h.m_identification :=
    Nat.mod_eq_of_lt (by omega)
  have e4 : h.m_protocol % 4294967296 = h.m_protocol := Nat.mod_eq_of_lt (by omega)
  have e5 : (h.m_source <<< 32) % 18446744073709551616 = 2 ^ 32 * h.m_source := by
    rw [Nat.shiftLeft_eq, Nat.mul_comm]
    exact Nat.mod_eq_of_lt (by omega)
  have e6 : (h.m_identification <<< 16) % 4294967296 = 2 ^ 16 * h.m_identification := by
    rw [Nat.shiftLeft_eq, Nat.mul_comm]
    exact Nat.mod_eq_of_lt (by omega)
  have o1 := @Nat.mul_add_lt_is_or 32 h.m_destination (by omega) h.m_source
  have o2 := @Nat.mul_add_lt_is_or 16 h.m_protocol (by omega) h.m_identification
  simp only [fragmentKey, RadeepHeader.GetSource, RadeepHeader.GetDestination,
    RadeepHeader.GetIdentification, RadeepHeader.GetProtocol, e1, e2, e3, e4, e5, e6,
    ← o1, ← o2]

/-- C39: on headers whose fields are within their widths, two headers have the same
reassembly key iff they agree in source, destination, identification and protocol; and
`ProcessFragment` for a fragment leaves, in both tables, the entry of every key other than
the fragment's as it was. -/
theorem fragmentKey_injective_frame (h1 h2 : RadeepHeader) (hr1 : h1.InRange)
    (hr2 : h2.InRange) :
    (fragmentKey h1 = fragmentKey h2 ↔
      (h1.m_source = h2.m_source ∧ h1.m_destination = h2.m_destination ∧
        h1.m_identification = h2.m_identification ∧ h1.m_protocol = h2.m_protocol)) ∧
    (∀ (s s1 : ReassemblyState) (p packet : List Nat) (iif : Nat) (ret : Bool),
      ProcessFragment s p h1 iif = .ok (s1, packet, ret) →
      ∀ k, k ≠ fragmentKey h1 →
        mapFind k s1.m_fragments = mapFind k s.m_fragments ∧
        mapFind k s1.m_fragmentsTimers = mapFind k s.m_fragmentsTimers) := by
  constructor
  · rw [fragmentKey_eq h1 hr1, fragmentKey_eq h2 hr2]
    obtain ⟨_, hid1, _, _, hp1, _, _, hs1, hd1, _, _⟩ := hr1
    obtain ⟨_, hid2, _, _, hp2, _, _, hs2, hd2, _, _⟩ := hr2
    constructor
    · intro h
      simp only [Prod.mk.injEq] at h
      obtain ⟨ha, hb⟩ := h
      refine ⟨?_, ?_, ?_, ?_⟩ <;> omega
    · rintro ⟨a, b, c, d⟩
      rw [a, b, c, d]
  · intro s s1 p packet iif ret hrun k hk
    simp only [ProcessFragment] at hrun
    cases hf : mapFind (fragmentKey h1) s.m_fragments with
    | none =>
      rw [hf] at hrun
      simp only at hrun
      split at hrun
      · split at hrun
        · cases hrun
        · simp only [Except.ok.injEq, Prod.mk.injEq] at hrun
          obtain ⟨hs, _, _⟩ := hrun
          rw [← hs]
          simp only [mapFind_mapErase_ne k _ hk, mapFind_mapSet_ne k _ _ hk]
          exact ⟨trivial, trivial⟩
      · simp only [Except.ok.injEq, Prod.mk.injEq] at hrun
        obtain ⟨hs, _, _⟩ := hrun
        rw [← hs]
        simp only [mapFind_mapSet_ne k _ _ hk]
        exact ⟨trivial, trivial⟩
    | some fr =>
      rw [hf] at hrun
      simp only at hrun
      split at hrun
      · split at hrun
        · cases hrun
        · simp only [Except.ok.injEq, Prod.mk.injEq] at hrun
          obtain ⟨hs, _, _⟩ := hrun
          rw [← hs]
          simp only [mapFind_mapErase_ne k _ hk, mapFind_mapSet_ne k _ _ hk]
          exact ⟨trivial, trivial⟩
      · simp only [Except.ok.injEq, Prod.mk.injEq] at hrun
        obtain ⟨hs, _, _⟩ := hrun
        rw [← hs]
        simp only [mapFind_mapSet_ne k _ _ hk]
        exact ⟨trivial, trivial⟩

theorem fragmentKey_injective_frame_witness :
    (fragmentKey headHeader = fragmentKey tailHeader ↔
      (headHeader.m_source = tailHeader.m_source ∧
        headHeader.m_destination = tailHeader.m_destination ∧
        headHeader.m_identification = tailHeader.m_identification ∧
        headHeader.m_protocol = tailHeader.m_protocol)) ∧
    (∀ k, k ≠ fragmentKey headHeader →
      mapFind k oneFragmentState.m_fragments = mapFind k ReassemblyState.empty.m_fragments) :=
  have h := fragmentKey_injective_frame headHeader tailHeader (by decide) (by decide)
  ⟨h.1, fun k hk => (h.2 ReassemblyState.empty oneFragmentState [1, 2, 3, 4, 5, 6, 7, 8]
    [1, 2, 3, 4, 5, 6, 7, 8] 0 false rfl k hk).1⟩

/-! ## `AddFragment`: order and the more-fragments marker -/

theorem insertFragment_eq (c : List Nat) (o : Nat) : ∀ l : List (List Nat × Nat),
    insertFragment c o l =
      (l.takeWhile (fun x => decide (x.2 ≤ o)) ++ (c, o) ::
        l.dropWhile (fun x => decide (x.2 ≤ o)), l.all (fun x => decide (x.2 ≤ o)))
  | [] => rfl
  | it :: rest => by
    have ih := insertFragment_eq c o rest
    by_cases h : it.2 > o
    · have hn : decide (it.2 ≤ o) = false := decide_eq_false (by omega)
      simp [insertFragment, h, List.takeWhile_cons, List.dropWhile_cons, hn]
    · have hn : decide (it.2 ≤ o) = true := decide_eq_true (by omega)
      simp [insertFragment, h, List.takeWhile_cons, List.dropWhile_cons, hn, ih]

/-- C40 (amended): `AddFragment` keeps a fragment list sorted by non-decreasing offset, the
new fragment being placed behind the existing fragments whose offset is not greater than
its own (so behind those of equal offset).  When no existing fragment has a greater offset
(the new one goes to the end), the more-fragments marker of the set becomes the flag of the
new fragment, so a fragment without the flag then records the final boundary as known; when
the new fragment is inserted before an existing one the marker is left as it was. -/
theorem AddFragment_sorted (f : Fragments) (c : List Nat) (o : Nat) (more : Bool)
    (hs : f.m_fragments.Pairwise (fun a b => a.2 ≤ b.2)) :
    (f.AddFragment c o more).m_fragments.Pairwise (fun a b => a.2 ≤ b.2) ∧
    (f.AddFragment c o more).m_fragments =
      f.m_fragments.takeWhile (fun x => decide (x.2 ≤ o)) ++ (c, o) ::
        f.m_fragments.dropWhile (fun x => decide (x.2 ≤ o)) ∧
    (f.AddFragment c o more).m_moreFragment =
      (if f.m_fragments.all (fun x => decide (x.2 ≤ o)) then more else f.m_moreFragment) := by
  have heq := insertFragment_eq c o f.m_fragments
  refine ⟨?_, by simp only [Fragments.AddFragment, heq], by
    simp only [Fragments.AddFragment, heq]⟩
  simp only [Fragments.AddFragment, heq]
  have hsplit := List.takeWhile_append_dropWhile (fun x => decide (x.2 ≤ o)) f.m_fragments
  rw [← hsplit] at hs
  rw [List.pairwise_append] at hs ⊢
  obtain ⟨h1, h2, h3⟩ := hs
  refine ⟨h1, ?_, ?_⟩
  · rw [List.pairwise_cons]
    refine ⟨fun b hb => ?_, h2⟩
    -- the first element of the rest has a greater offset, the others follow it
    cases hd : f.m_fragments.dropWhile (fun x => decide (x.2 ≤ o)) with
    | nil => rw [hd] at hb; cases hb
    | cons y ys =>
      have hy : ¬ decide (y.2 ≤ o) = true := by
        have := List.head_dropWhile_not (fun x => decide (x.2 ≤ o)) f.m_fragments
          (by rw [hd]; simp)
        simpa [hd] using this
      have hy2 : o < y.2 := by simpa using hy
      rw [hd] at hb h2
      rcases List.mem_cons.1 hb with rfl | hb
      · exact le_of_lt hy2
      · have := (List.pairwise_cons.1 h2).1 b hb
        show o ≤ b.2
        omega
  · intro a ha b hb
    rcases List.mem_cons.1 hb with rfl | hb
    · have := List.mem_takeWhile_imp ha
      simpa using this
    · exact h3 a ha b hb

theorem AddFragment_sorted_witness :
    ((⟨true, [([1], 0), ([2], 8)]⟩ : Fragments).AddFragment [3] 8 false).m_fragments
        = [([1], 0), ([2], 8), ([3], 8)] ∧
    ((⟨true, [([1], 0), ([2], 8)]⟩ : Fragments).AddFragment [3] 8 false).m_moreFragment
        = false :=
  have h := AddFragment_sorted ⟨true, [([1], 0), ([2], 8)]⟩ [3] 8 false (by simp)
  ⟨h.2.1, h.2.2⟩

/-- C40 (counterexample): a set holds one fragment at offset 16 and expects more; a fragment
without the more-fragments flag at offset 0 is inserted before it, and the marker of the set
still says that more fragments are to come. -/
theorem AddFragment_marker_unchanged_counterexample :
    ((⟨true, [([1, 2, 3, 4, 5, 6, 7, 8], 16)]⟩ : Fragments).AddFragment
        [9, 9, 9, 9, 9, 9, 9, 9] 0 false)
      = ⟨true, [([9, 9, 9, 9, 9, 9, 9, 9], 0), ([1, 2, 3, 4, 5, 6, 7, 8], 16)]⟩ :=
  rfl
/-! ## Static routing lookup: host routes -/

set_option maxRecDepth 100000 in
theorem prefixMask_ones : ∀ n ≤ 32, GetPrefixLength (prefixMask n) = 32 → prefixMask n = 0xffffffff := by
  decide

/-- C38 (amended): in a static table of contiguous masks and 32-bit metrics, for a
destination that is not link-local multicast and with no output-device filter: if `e` is the
first host route (mask of all ones) that matches the destination, `LookupStatic` returns
the route of `e`, whatever the metrics, and whatever entries follow `e` in the table. -/
theorem LookupStatic_first_host_route (node : RadeepNode) (d : Nat)
    (pre post : NetworkRoutes) (e : RadeepRoutingTableEntry × Nat)
    (hd : IsLocalMulticast d = false)
    (hmasks : ∀ x ∈ pre, ∃ n, n ≤ 32 ∧ x.1.m_destNetworkMask = prefixMask n)
    (hmetric : ∀ x ∈ pre ++ e :: post, x.2 < 4294967296)
    (hmask : e.1.m_destNetworkMask = 0xffffffff) (hmatch : entryMatches d e = true)
    (hpre : ∀ x ∈ pre, ¬ (x.1.m_destNetworkMask = 0xffffffff ∧ entryMatches d x = true)) :
    LookupStatic node (pre ++ e :: post) d none = .ok (some (routeOfEntry node e.1)) ∧
    LookupStatic node (pre ++ [e]) d none = .ok (some (routeOfEntry node e.1)) := by
  have hfind : ∀ post1 : NetworkRoutes,
      (pre ++ e :: post1).find? (isHostMatch d) = some e := by
    intro post1
    have hnone : pre.find? (isHostMatch d) = none := by
      rw [List.find?_eq_none]
      intro x hx hh
      simp only [isHostMatch, Bool.and_eq_true, beq_iff_eq] at hh
      obtain ⟨n, hn, hxm⟩ := hmasks x hx
      have h32 := hh.2
      rw [hxm] at h32
      exact hpre x hx ⟨by rw [hxm]; exact prefixMask_ones n hn h32, hh.1⟩
    have he : isHostMatch d e = true := by
      have h32 : GetPrefixLength 0xffffffff = 32 := by decide
      simp [isHostMatch, hmatch, hmask, h32]
    rw [List.find?_append, hnone]
    simp [List.find?_cons, he]
  have hrun : ∀ post1 : NetworkRoutes, (∀ x ∈ pre ++ e :: post1, x.2 < 4294967296) →
      LookupStatic node (pre ++ e :: post1) d none = .ok (some (routeOfEntry node e.1)) := by
    intro post1 hm
    have hpost := (lookupLoop_postM node d (pre ++ e :: post1) [] none 0 0xffffffff hm
      ⟨rfl, rfl, fun x hx => by cases hx⟩ (by omega)).1 e (hfind post1)
    simp [LookupStatic, hd, hpost]
  refine ⟨hrun post hmetric, hrun [] ?_⟩
  intro x hx
  apply hmetric x
  rcases List.mem_append.1 hx with h | h
  · exact List.mem_append_left _ h
  · rw [List.mem_singleton.1 h]
    exact List.mem_append_right _ (List.mem_cons_self _ _)

theorem LookupStatic_first_host_route_witness :
    LookupStatic exampleNode hostRoutes 0x0a000005 none
      = .ok (some (routeOfEntry exampleNode ⟨0x0a000005, 0xffffffff, 0, 1⟩)) :=
  (LookupStatic_first_host_route exampleNode 0x0a000005 []
    [(⟨0x0a000005, 0xffffffff, 0, 2⟩, 1)] (⟨0x0a000005, 0xffffffff, 0, 1⟩, 5) (by decide)
    (fun x hx => by cases hx)
    (fun x hx => by
      simp only [List.nil_append, List.mem_cons, List.mem_singleton, List.not_mem_nil,
        or_false] at hx
      rcases hx with rfl | rfl <;> decide)
    rfl (by decide) (fun x hx => by cases hx)).1

/-- C38 (counterexample): the table holds one host route, to 224.0.0.5, which matches the
link-local multicast destination 224.0.0.5; with no output device given `LookupStatic` does
not return it but fails the assertion that guards the link-local multicast branch. -/
theorem LookupStatic_multicast_host_route_counterexample :
    multicastHostRoutes = [(⟨0xe0000005, 0xffffffff, 0, 1⟩, 0)] ∧
    (∀ e ∈ multicastHostRoutes, e.1.m_destNetworkMask = 0xffffffff ∧
      entryMatches 0xe0000005 e = true) ∧
    LookupStatic exampleNode multicastHostRoutes 0xe0000005 none = .error Fault.assertion :=
  ⟨rfl, by decide, rfl⟩
/-! ## Fragmentation: sizes, offsets and the number of iterations -/

theorem ceil_count (L fs : Nat) (hfs : 0 < fs) :
    ∃ n, n + 1 = max 1 ((L + fs - 1) / fs) ∧ L ≤ (n + 1) * fs ∧ (n * fs < L ∨ n = 0) := by
  rcases Nat.eq_zero_or_pos L with h0 | hpos
  · refine ⟨0, ?_, by omega, Or.inr rfl⟩
    have : (L + fs - 1) / fs = 0 := Nat.div_eq_of_lt (by omega)
    rw [this]
    rfl
  · have h1 : 1 ≤ (L + fs - 1) / fs := (Nat.one_le_div_iff hfs).2 (by omega)
    obtain ⟨n, hn⟩ : ∃ n, (L + fs - 1) / fs = n + 1 := ⟨(L + fs - 1) / fs - 1, by omega⟩
    have hdm := Nat.div_add_mod (L + fs - 1) fs
    have hml := Nat.mod_lt (L + fs - 1) hfs
    rw [hn] at hdm
    have e1 : (n + 1) * fs = fs * (n + 1) := Nat.mul_comm _ _
    have e2 : fs * (n + 1) = n * fs + fs := by ring
    refine ⟨n, by rw [hn]; omega, by omega, Or.inl (by omega)⟩

theorem fragmentSizeOf_mtu (H : RadeepHeader) (m : Nat) (hs : H.GetSerializedSize = 20)
    (hm : 20 ≤ m) (hm32 : m < 4294967296) :
    fragmentSizeOf H m = (m - 20) &&& 4294967288 ∧
    (m - 20) &&& 4294967288 = (m - 20) / 8 * 8 := by
  have e : (m + 4294967296 - 20) % 4294967296 = m - 20 := by omega
  refine ⟨by unfold fragmentSizeOf; rw [hs, e], and_mask8 _ (by omega)⟩

/-- C33: for every payload of length `L`, every 20-byte header whose fragment offset `o` is a
multiple of 8 with `o + L <= 65535`, and every MTU `m >= 28` (a 32-bit value),
`DoFragmentation` returns its fragments, so no abort or assertion is reached; every fragment
satisfies payload length + 20 <= `m`, every fragment but the last has a payload length that
is a positive multiple of 8, and every fragment offset is a multiple of 8. -/
theorem DoFragmentation_sizes (ck : Bool) (P : List Nat) (H : RadeepHeader) (m : Nat)
    (hs : H.GetSerializedSize = 20) (ho8 : H.GetFragmentOffset % 8 = 0)
    (hoL : H.GetFragmentOffset + P.length ≤ 65535) (hm : 28 ≤ m) (hm32 : m < 4294967296) :
    ∃ frags : List RadeepPayloadHeaderPair,
      (∀ fuel, frags.length ≤ fuel → DoFragmentation fuel ck P H m = .ok frags) ∧
      frags ≠ [] ∧
      ∀ k x, frags[k]? = some x →
        x.1.length + 20 ≤ m ∧ x.2.GetFragmentOffset % 8 = 0 ∧
        (k + 1 < frags.length → 0 < x.1.length ∧ x.1.length % 8 = 0) := by
  obtain ⟨hfsc, hfse⟩ := fragmentSizeOf_mtu H m hs (by omega) hm32
  generalize (m - 20) &&& 4294967288 = fs at *
  have hfs8 : fs % 8 = 0 := by omega
  have hfspos : 8 ≤ fs := by omega
  obtain ⟨n, _, hup, hlow⟩ := ceil_count P.length fs (by omega)
  have hne : (H.GetSerializedSize != 5 * 4) = false := by rw [hs]; rfl
  have hlen := expectedFragments_length P H ck fs H.GetFragmentOffset H.IsLastFragment (n + 1) 0
  refine ⟨expectedFragments P H ck fs H.GetFragmentOffset H.IsLastFragment (n + 1) 0, ?_, ?_,
    ?_⟩
  · intro fuel hfuel
    rw [hlen] at hfuel
    simp only [DoFragmentation, hne, hfsc]
    exact fragmentLoop_eq P H ck fs _ _ (by omega) hfs8 (by omega) ho8 (by omega) n fuel 0
      hfuel rfl (by omega) (Or.inr rfl) (by omega) (by omega)
  · intro h0
    rw [h0] at hlen
    simp at hlen
  · intro k x hx
    have hk : k < n + 1 := by
      rw [← hlen]
      exact (List.getElem?_eq_some.1 hx).1
    rw [expectedFragments_getElem _ _ _ _ _ _ _ _ k hk, Nat.zero_add] at hx
    cases hx
    have hkm : k * fs % 8 = 0 := by
      rw [Nat.mul_mod, hfs8]
      simp
    rw [fragmentAt_fst, fragmentAt_offset, List.length_take, List.length_drop, hlen]
    refine ⟨?_, by omega, fun hkn => ?_⟩
    · split <;> omega
    · have hkn1 : k + 1 ≤ n := by omega
      have h1 : (k + 1) * fs ≤ n * fs := Nat.mul_le_mul_right fs hkn1
      have h2 : (k + 1) * fs = k * fs + fs := by ring
      have hmore : P.length > k * fs + fs := by omega
      rw [if_pos hmore]
      constructor <;> omega

theorem DoFragmentation_sizes_witness :
    (exampleHeader.GetSerializedSize = 20 ∧ exampleHeader.GetFragmentOffset % 8 = 0) ∧
    ∃ frags : List RadeepPayloadHeaderPair,
      (∀ fuel, frags.length ≤ fuel →
        DoFragmentation fuel false (List.range 100) exampleHeader 68 = .ok frags) ∧
      frags ≠ [] ∧
      ∀ (k : Nat) (x : RadeepPayloadHeaderPair), frags[k]? = some x →
        x.1.length + 20 ≤ 68 ∧ x.2.GetFragmentOffset % 8 = 0 ∧
        (k + 1 < frags.length → 0 < x.1.length ∧ x.1.length % 8 = 0) :=
  ⟨by decide, DoFragmentation_sizes false (List.range 100) exampleHeader 68
    (by decide) (by decide) (by decide) (by decide) (by decide)⟩
theorem SetFragmentOffset_ok_mod (h : RadeepHeader) (x : Nat) (hx : x % 8 = 0) :
    h.SetFragmentOffset x = .ok { h with m_fragmentOffset := x % 65536 } := by
  have e : (x % 65536) &&& 7 = 0 := by rw [and_7_eq_mod]; omega
  simp [RadeepHeader.SetFragmentOffset, e]

theorem Except_map_eq_ok {ε α β : Type} (f : α → β) (r : Except ε α) (b : β)
    (h : Except.map f r = .ok b) : ∃ a, r = .ok a ∧ f a = b := by
  cases r with
  | error e => cases h
  | ok a =>
    refine ⟨a, rfl, ?_⟩
    simp only [Except.map] at h
    cases h
    rfl

theorem Except_map_eq_error {ε α β : Type} (f : α → β) (r : Except ε α) (e : ε)
    (h : Except.map f r = .error e) : r = .error e := by
  cases r with
  | error e1 =>
    simp only [Except.map] at h
    cases h
    rfl
  | ok a => cases h

/-- The payloads cut by the loop, and whether it returns, do not depend on the fragment offset
of the original header as long as that offset is a multiple of 8. -/
theorem fragmentLoop_payloads (p : List Nat) (H : RadeepHeader) (ck : Bool) (fs o : Nat)
    (last : Bool) (hfs8 : fs % 8 = 0) (ho : o % 8 = 0) :
    ∀ fuel offset, offset % 8 = 0 →
      Except.map (List.map Prod.fst) (fragmentLoop p H ck fs o last fuel offset) =
        Except.map (List.map Prod.fst) (fragmentLoop p H ck fs 0 last fuel offset)
  | 0, _, _ => rfl
  | fuel + 1, offset, h8 => by
    have ih := fragmentLoop_payloads p H ck fs o last hfs8 ho fuel ((offset + fs) % 65536)
      (by omega)
    have e1 : (offset + o) % 8 = 0 := by omega
    have e2 : (offset + 0) % 8 = 0 := by omega
    by_cases hm : p.length > (offset + fs) % 4294967296
    · have hmd : decide (p.length > (offset + fs) % 4294967296) = true := decide_eq_true hm
      simp only [fragmentLoop, hmd, if_true, SetFragmentOffset_ok_mod _ _ e1,
        SetFragmentOffset_ok_mod _ _ e2]
      cases CreateFragment p offset fs with
      | error e => rfl
      | ok fr =>
        revert ih
        cases fragmentLoop p H ck fs o last fuel ((offset + fs) % 65536) <;>
          cases fragmentLoop p H ck fs 0 last fuel ((offset + fs) % 65536) <;>
          simp [Except.map]
    · have hmd : decide (p.length > (offset + fs) % 4294967296) = false := decide_eq_false hm
      simp only [fragmentLoop, hmd, Bool.false_eq_true, if_false,
        SetFragmentOffset_ok_mod _ _ e1, SetFragmentOffset_ok_mod _ _ e2]
      cases CreateFragment p offset ((p.length + 4294967296 - offset) % 4294967296) with
      | error e => rfl
      | ok fr => simp [Except.map]

/-- With fewer iterations allowed than fragments remain, the loop does not return. -/
theorem fragmentLoop_short (p : List Nat) (H : RadeepHeader) (ck : Bool) (fs : Nat)
    (last : Bool) (hL : p.length ≤ 65535) (hfs8 : fs % 8 = 0) :
    ∀ fuel n offset, fuel ≤ n → offset % 8 = 0 → n * fs < p.length - offset →
      fragmentLoop p H ck fs 0 last fuel offset = .error Fault.outOfFuel
  | 0, _, _, _, _, _ => rfl
  | fuel + 1, n, offset, hn, h8, hlt => by
    obtain ⟨k, rfl⟩ : ∃ k, n = k + 1 := ⟨n - 1, by omega⟩
    have e : (k + 1) * fs = k * fs + fs := by ring
    have hmore : offset + fs < p.length := by omega
    rw [fragmentLoop_more p H ck fs 0 last fuel offset hL hmore (by omega) (by omega)]
    rw [fragmentLoop_short p H ck fs last hL hfs8 fuel k (offset + fs) (by omega) (by omega)
      (by omega)]

/-- C32 (amended): `DoFragmentation`, called with a 20-byte header whose fragment offset is a
multiple of 8, terminates for every payload of length `L <= 65535` and every 32-bit MTU `m`
with `fs = (m - 20) & ~7 >= 8`: the loop ends after exactly `max(1, ceil(L / fs))`
iterations (with fewer iterations allowed it has not returned, with that many it returns one
fragment per iteration), iteration `k` cuts the payload bytes from offset `k * fs`, without
wrapping the 16-bit offset, and when `L >= 1` every iteration consumes at least one byte, so
the cumulative offset strictly increases. -/
theorem DoFragmentation_iterations (ck : Bool) (P : List Nat) (H : RadeepHeader) (m : Nat)
    (hL : P.length ≤ 65535) (hs : H.GetSerializedSize = 20)
    (ho8 : H.GetFragmentOffset % 8 = 0) (hm32 : m < 4294967296)
    (hfs : 8 ≤ (m - 20) &&& 4294967288) :
    ∀ fuel : Nat,
      (fuel < max 1 ((P.length + ((m - 20) &&& 4294967288) - 1) / ((m - 20) &&& 4294967288)) →
        DoFragmentation fuel ck P H m = .error Fault.outOfFuel) ∧
      (max 1 ((P.length + ((m - 20) &&& 4294967288) - 1) / ((m - 20) &&& 4294967288)) ≤ fuel →
        ∃ frags : List RadeepPayloadHeaderPair,
          DoFragmentation fuel ck P H m = .ok frags ∧
          frags.length =
            max 1 ((P.length + ((m - 20) &&& 4294967288) - 1) / ((m - 20) &&& 4294967288)) ∧
          ∀ (k : Nat) (x : RadeepPayloadHeaderPair), frags[k]? = some x →
            x.1 = (P.drop (k * ((m - 20) &&& 4294967288))).take ((m - 20) &&& 4294967288) ∧
            k * ((m - 20) &&& 4294967288) + x.1.length ≤ P.length ∧
            (1 ≤ P.length → 0 < x.1.length)) := by
  have hm20 : 20 ≤ m := by
    have := and_mask8 (m - 20) (by omega)
    omega
  obtain ⟨hfsc, hfse⟩ := fragmentSizeOf_mtu H m hs hm20 hm32
  generalize (m - 20) &&& 4294967288 = fs at *
  have hfs8 : fs % 8 = 0 := by omega
  obtain ⟨n, hn, hup, hlow⟩ := ceil_count P.length fs (by omega)
  rw [← hn]
  have hne : (H.GetSerializedSize != 5 * 4) = false := by rw [hs]; rfl
  have hpay := fragmentLoop_payloads P H ck fs H.GetFragmentOffset H.IsLastFragment hfs8 ho8
  intro fuel
  have hdo : DoFragmentation fuel ck P H m =
      fragmentLoop P H ck fs H.GetFragmentOffset H.IsLastFragment fuel 0 := by
    simp only [DoFragmentation, hne, hfsc, Bool.false_eq_true, if_false]
  rw [hdo]
  constructor
  · intro hfuel
    apply Except_map_eq_error (List.map Prod.fst)
    rw [hpay fuel 0 rfl]
    rcases hlow with hlow | hlow
    · rw [fragmentLoop_short P H ck fs H.IsLastFragment hL hfs8 fuel n 0 (by omega) rfl
        (by omega)]
      rfl
    · obtain rfl : fuel = 0 := by omega
      rfl
  · intro hfuel
    have hrun := fragmentLoop_eq P H ck fs 0 H.IsLastFragment hL hfs8 (by omega) rfl (by omega)
      n fuel 0 hfuel rfl (by omega) (Or.inr rfl) (by omega) (by omega)
    have hmap := hpay fuel 0 rfl
    rw [hrun] at hmap
    obtain ⟨frags, hfr, hfst⟩ := Except_map_eq_ok _ _ _ hmap
    have hlen : frags.length = n + 1 := by
      have := congrArg List.length hfst
      rw [List.length_map, List.length_map, expectedFragments_length] at this
      exact this
    refine ⟨frags, hfr, hlen, ?_⟩
    intro k x hx
    have hk : k < n + 1 := by
      rw [← hlen]
      exact (List.getElem?_eq_some.1 hx).1
    have h1 : (frags.map Prod.fst)[k]? = some x.1 := by
      rw [List.getElem?_map, hx]
      rfl
    rw [hfst, List.getElem?_map, expectedFragments_getElem _ _ _ _ _ _ _ _ k hk,
      Nat.zero_add] at h1
    have h2 : (fragmentAt P H ck fs 0 H.IsLastFragment (k * fs)).1 = x.1 := by
      simpa using h1
    rw [fragmentAt_fst] at h2
    have hkn : k * fs ≤ n * fs := Nat.mul_le_mul_right fs (by omega)
    have hxl : x.1.length = if P.length > k * fs + fs then fs else P.length - k * fs := by
      rw [← h2, List.length_take, List.length_drop]
      split <;> omega
    have hkL : k * fs ≤ P.length ∧ (1 ≤ P.length → k * fs < P.length) := by
      rcases hlow with hlow | hlow
      · omega
      · obtain rfl : k = 0 := by omega
        rw [Nat.zero_mul]
        omega
    refine ⟨?_, ?_, ?_⟩
    · rw [← h2]
      by_cases hmore : P.length > k * fs + fs
      · rw [if_pos hmore]
      · rw [if_neg hmore, List.take_of_length_le (by rw [List.length_drop]),
          List.take_of_length_le (by rw [List.length_drop]; omega)]
    · rw [hxl]
      split <;> omega
    · intro hpos
      have hkL := hkL.2 hpos
      rw [hxl]
      split <;> omega

theorem DoFragmentation_iterations_witness :
    ((List.range 100).length ≤ 65535 ∧ exampleHeader.GetSerializedSize = 20) ∧
    ∀ fuel : Nat,
      (fuel < max 1 (((List.range 100).length + ((68 - 20) &&& 4294967288) - 1) /
          ((68 - 20) &&& 4294967288)) →
        DoFragmentation fuel false (List.range 100) exampleHeader 68 =
          .error Fault.outOfFuel) ∧
      (max 1 (((List.range 100).length + ((68 - 20) &&& 4294967288) - 1) /
          ((68 - 20) &&& 4294967288)) ≤ fuel →
        ∃ frags : List RadeepPayloadHeaderPair,
          DoFragmentation fuel false (List.range 100) exampleHeader 68 = .ok frags ∧
          frags.length =
            max 1 (((List.range 100).length + ((68 - 20) &&& 4294967288) - 1) /
              ((68 - 20) &&& 4294967288)) ∧
          ∀ (k : Nat) (x : RadeepPayloadHeaderPair), frags[k]? = some x →
            x.1 = ((List.range 100).drop (k * ((68 - 20) &&& 4294967288))).take
              ((68 - 20) &&& 4294967288) ∧
            k * ((68 - 20) &&& 4294967288) + x.1.length ≤ (List.range 100).length ∧
            (1 ≤ (List.range 100).length → 0 < x.1.length)) :=
  ⟨by decide, DoFragmentation_iterations false (List.range 100) exampleHeader 68
    (by decide) (by decide) (by decide) (by decide) (by decide)⟩

/-- C32 (counterexample): on an empty payload (MTU 28, fragment size 8) the single iteration
consumes no byte, so the cumulative offset does not increase: the one fragment is empty and
its successor offset `(0 + 0) % 65536` equals the starting offset 0. With a 24-byte header the
call fails its assertion before the first iteration. -/
theorem DoFragmentation_empty_payload_counterexample :
    (List.length ([] : List Nat) ≤ 65535 ∧ 8 ≤ (28 - 20) &&& 4294967288) ∧
    (∃ hdr, DoFragmentation 1 false [] exampleHeader 28 = .ok [([], hdr)]) ∧
    max 1 ((List.length ([] : List Nat) + ((28 - 20) &&& 4294967288) - 1) /
      ((28 - 20) &&& 4294967288)) = 1 ∧
    (0 + List.length ([] : List Nat)) % 65536 = 0 ∧
    (∀ fuel, DoFragmentation fuel false (List.range 100)
      { exampleHeader with m_headerSize := 24 } 68 = .error Fault.assertion) :=
  ⟨by decide, ⟨_, rfl⟩, by decide, by decide, fun _ => rfl⟩
/-! ## Reassembly in any arrival order -/

theorem contig_offset_ge : ∀ (cs : List (List Nat)) (base : Nat) (t : List Nat × Nat),
    t ∈ contig base cs → base ≤ t.2
  | [], _, _, h => by simp [contig] at h
  | c :: cs, base, t, h => by
    simp only [contig, List.mem_cons] at h
    rcases h with h | h
    · subst h
      exact Nat.le_refl _
    · have := contig_offset_ge cs (base + c.length) t h
      omega

theorem contig_pairwise : ∀ (cs : List (List Nat)) (base : Nat), (∀ c ∈ cs, c ≠ []) →
    (contig base cs).Pairwise (fun a b => a.2 < b.2)
  | [], _, _ => by simp [contig]
  | c :: cs, base, h => by
    simp only [contig, List.pairwise_cons]
    have hc : 0 < c.length := List.length_pos.2 (h c (List.mem_cons_self _ _))
    refine ⟨fun t ht => ?_,
      contig_pairwise cs _ (fun c1 hc1 => h c1 (List.mem_cons_of_mem _ hc1))⟩
    have := contig_offset_ge cs _ t ht
    show base < t.2
    omega

theorem isEntireLoop_head_gap (l : List (List Nat × Nat)) (last : Nat) (hne : l ≠ [])
    (h : ∀ t ∈ l, last < t.2) : isEntireLoop l last = false := by
  cases l with
  | nil => exact absurd rfl hne
  | cons it rest =>
    have := h it (List.mem_cons_self _ _)
    simp [isEntireLoop, this]

/-- A set that holds the fragment of greatest offset but misses another non-empty fragment
of a contiguous chain is not entire. -/
theorem isEntireLoop_filter_gap (S : List Nat × Nat → Bool) :
    ∀ (cs : List (List Nat)) (base : Nat), (∀ c ∈ cs, c ≠ []) →
      base + cs.flatten.length ≤ 65535 →
      (∃ y, y ∈ contig base cs ∧ S y = false) →
      (∃ z, z ∈ contig base cs ∧ S z = true ∧ ∀ t ∈ contig base cs, t.2 ≤ z.2) →
      isEntireLoop ((contig base cs).filter S) base = false
  | [], _, _, _, ⟨y, hy, _⟩, _ => by simp [contig] at hy
  | c :: cs, base, hne, hlen, ⟨y, hy, hSy⟩, ⟨z, hz, hSz, hmax⟩ => by
    have hc : 0 < c.length := List.length_pos.2 (hne c (List.mem_cons_self _ _))
    have hfl : (c :: cs).flatten.length = c.length + cs.flatten.length := by simp
    simp only [contig] at hy hz hmax ⊢
    by_cases hS : S (c, base) = true
    · have hyr : y ∈ contig (base + c.length) cs := by
        rcases List.mem_cons.1 hy with h | h
        · rw [h, hS] at hSy; cases hSy
        · exact h
      have hyo := contig_offset_ge cs _ y hyr
      have hzr : z ∈ contig (base + c.length) cs := by
        rcases List.mem_cons.1 hz with h | h
        · have := hmax y hy
          rw [h] at this
          have : y.2 ≤ base := this
          omega
        · exact h
      have hn : ¬ base < base := by omega
      have e : (c.length + base) % 65536 = c.length + base := by omega
      have e2 : max base (c.length + base) = base + c.length := by omega
      rw [List.filter_cons_of_pos hS]
      simp only [isEntireLoop, hn, if_false, e, e2]
      exact isEntireLoop_filter_gap S cs (base + c.length)
        (fun c1 hc1 => hne c1 (List.mem_cons_of_mem _ hc1)) (by omega)
        ⟨y, hyr, hSy⟩ ⟨z, hzr, hSz, fun t ht => hmax t (List.mem_cons_of_mem _ ht)⟩
    · rw [List.filter_cons_of_neg hS]
      have hzr : z ∈ contig (base + c.length) cs := by
        rcases List.mem_cons.1 hz with h | h
        · rw [h] at hSz; exact absurd hSz hS
        · exact h
      apply isEntireLoop_head_gap
      · exact List.ne_nil_of_mem (List.mem_filter.2 ⟨hzr, hSz⟩)
      · intro t ht
        have := contig_offset_ge cs _ t (List.mem_filter.1 ht).1
        omega

theorem insertFragment_front (c : List Nat) (o : Nat) (l : List (List Nat × Nat))
    (h : ∀ y ∈ l, o < y.2) :
    insertFragment c o l = ((c, o) :: l, l.all (fun y => decide (y.2 ≤ o))) := by
  cases l with
  | nil => rfl
  | cons b l1 =>
    have hb := h b (List.mem_cons_self _ _)
    have hnb : ¬ b.2 ≤ o := by omega
    simp [insertFragment, hb, hnb]

/-- Inserting a fragment of a strictly sorted chain into the part of the chain present so far
gives the part with that fragment added; the scan runs to the end exactly when no present
fragment lies beyond it. -/
theorem insertFragment_filter (S : List Nat × Nat → Bool) (t : List Nat × Nat) :
    ∀ T : List (List Nat × Nat), T.Pairwise (fun a b => a.2 < b.2) → t ∈ T → S t = false →
      insertFragment t.1 t.2 (T.filter S) =
        (T.filter (fun y => S y || decide (y = t)),
          (T.filter S).all (fun y => decide (y.2 ≤ t.2)))
  | [], _, ht, _ => by simp at ht
  | a :: T1, hP, ht, hSt => by
    rw [List.pairwise_cons] at hP
    obtain ⟨ha, hP1⟩ := hP
    by_cases hta : t = a
    · subst hta
      have hne : ∀ y ∈ T1, (S y || decide (y = t)) = S y := by
        intro y hy
        have := ha y hy
        have hyt : y ≠ t := by
          intro e
          rw [e] at this
          omega
        simp [hyt]
      have hf : T1.filter (fun y => S y || decide (y = t)) = T1.filter S :=
        List.filter_congr hne
      rw [List.filter_cons_of_neg (by simp [hSt]),
        List.filter_cons_of_pos (by simp), hf]
      exact insertFragment_front t.1 t.2 _ (fun y hy => ha y (List.mem_filter.1 hy).1)
    · have ht1 : t ∈ T1 := by
        rcases List.mem_cons.1 ht with h | h
        · exact absurd h hta
        · exact h
      have hat := ha t ht1
      have ih := insertFragment_filter S t T1 hP1 ht1 hSt
      have hat2 : a ≠ t := fun e => hta e.symm
      by_cases hSa : S a = true
      · have hn : ¬ a.2 > t.2 := by omega
        have hle : a.2 ≤ t.2 := by omega
        rw [List.filter_cons_of_pos hSa, List.filter_cons_of_pos (by simp [hSa])]
        simp only [insertFragment, hn, if_false, ih, List.all_cons, hle, decide_True,
          Bool.true_and]
      · rw [List.filter_cons_of_neg hSa, List.filter_cons_of_neg (by simp [hSa, hat2]), ih]

theorem offset_lt_of_ne (T : List (List Nat × Nat)) (z t : List Nat × Nat)
    (hT : T.Pairwise (fun a b => a.2 < b.2)) (hz : z ∈ T) (hmax : ∀ y ∈ T, y.2 ≤ z.2)
    (ht : t ∈ T) (hne : t ≠ z) : t.2 < z.2 := by
  have hP : T.Pairwise (fun a b => a.2 ≠ b.2) := hT.imp (fun h => Nat.ne_of_lt h)
  have := hP.forall (fun a b h => h.symm) ht hz hne
  have := hmax t ht
  omega

/-- The set after one more fragment of the chain `T` has arrived, `fed` being the fragments
that arrived before: the list holds the fragments that arrived, in chain order, and the
marker is set unless the fragment of greatest offset has arrived. -/
theorem AddFragment_filter (T : List (List Nat × Nat)) (z t : List Nat × Nat)
    (fed : List (List Nat × Nat)) (f : Fragments)
    (hT : T.Pairwise (fun a b => a.2 < b.2)) (hz : z ∈ T) (hmax : ∀ y ∈ T, y.2 ≤ z.2)
    (ht : t ∈ T) (hnew : t ∉ fed)
    (hfr : f.m_fragments = T.filter (fun y => decide (y ∈ fed)))
    (hmk : fed ≠ [] → f.m_moreFragment = !decide (z ∈ fed)) :
    (f.AddFragment t.1 t.2 (decide (t ≠ z))).m_fragments =
        T.filter (fun y => decide (y ∈ t :: fed)) ∧
      (f.AddFragment t.1 t.2 (decide (t ≠ z))).m_moreFragment = !decide (z ∈ t :: fed) := by
  have hins := insertFragment_filter (fun y => decide (y ∈ fed)) t T hT ht (by simp [hnew])
  have hcongr : T.filter (fun y => decide (y ∈ fed) || decide (y = t)) =
      T.filter (fun y => decide (y ∈ t :: fed)) :=
    List.filter_congr (fun y _ => by
      by_cases h1 : y ∈ fed <;> by_cases h2 : y = t <;> simp [h1, h2])
  simp only [Fragments.AddFragment, hfr, hins, hcongr, true_and]
  by_cases hall : (T.filter (fun y => decide (y ∈ fed))).all (fun y => decide (y.2 ≤ t.2)) = true
  · rw [if_pos hall]
    by_cases htz : t = z
    · simp [htz]
    · have hlt := offset_lt_of_ne T z t hT hz hmax ht htz
      have hzf : z ∉ fed := by
        intro hzf
        have := List.all_eq_true.1 hall z (List.mem_filter.2 ⟨hz, by simp [hzf]⟩)
        simp at this
        omega
      have hzt : z ≠ t := fun e => htz e.symm
      simp [htz, hzf, hzt]
  · rw [if_neg hall]
    have hex : ∃ y, y ∈ T.filter (fun y => decide (y ∈ fed)) ∧ ¬ y.2 ≤ t.2 := by
      by_contra hcon
      apply hall
      rw [List.all_eq_true]
      intro y hy
      by_contra hy2
      exact hcon ⟨y, hy, by simpa using hy2⟩
    obtain ⟨y, hy, hyt⟩ := hex
    have hyf : y ∈ fed := by simpa using (List.mem_filter.1 hy).2
    have hyT : y ∈ T := (List.mem_filter.1 hy).1
    have hzt : z ≠ t := by
      intro e
      have := hmax y hyT
      rw [e] at this
      omega
    rw [hmk (List.ne_nil_of_mem hyf)]
    simp [hzt]
theorem mapFind_mapErase_self {β : Type} (key : FragmentKey) :
    ∀ m : List (FragmentKey × β), mapFind key (mapErase key m) = none
  | [] => rfl
  | e :: rest => by
    have ih := mapFind_mapErase_self key rest
    simp only [mapErase] at ih ⊢
    by_cases h : (e.1 == key) = true
    · rw [List.filter_cons_of_neg (by simp [h])]
      exact ih
    · rw [List.filter_cons_of_pos (by simp [h])]
      simp only [mapFind, h, if_false]
      exact ih

/-- One call of `ProcessFragment` on a key whose set, if any, is `f0`: the set after
`AddFragment` decides between delivery (the entry is erased) and buffering. -/
theorem ProcessFragment_cases (s : ReassemblyState) (p : List Nat) (h : RadeepHeader)
    (iif : Nat) (f0 : Fragments)
    (hsrc : (mapFind (fragmentKey h) s.m_fragments = none ∧ f0 = Fragments.new) ∨
      mapFind (fragmentKey h) s.m_fragments = some f0) :
    ∃ s1 s2 : ReassemblyState,
      mapFind (fragmentKey h) s1.m_fragments =
        some (f0.AddFragment p h.GetFragmentOffset (!h.IsLastFragment)) ∧
      mapFind (fragmentKey h) s2.m_fragments = none ∧
      ProcessFragment s p h iif =
        if (f0.AddFragment p h.GetFragmentOffset (!h.IsLastFragment)).IsEntire then
          match (f0.AddFragment p h.GetFragmentOffset (!h.IsLastFragment)).GetPacket with
          | .error e => .error e
          | .ok packet => .ok (s2, packet, true)
        else .ok (s1, p, false) := by
  rcases hsrc with ⟨hnone, rfl⟩ | hsome
  · simp only [ProcessFragment, hnone]
    exact ⟨_, _, mapFind_mapSet_self _ _ _, mapFind_mapErase_self _ _, rfl⟩
  · simp only [ProcessFragment, hsome]
    exact ⟨_, _, mapFind_mapSet_self _ _ _, mapFind_mapErase_self _ _, rfl⟩

theorem IsEntire_incomplete (cs : List (List Nat)) (z y : List Nat × Nat)
    (fed : List (List Nat × Nat)) (f : Fragments) (hne : ∀ c ∈ cs, c ≠ [])
    (hlen : cs.flatten.length ≤ 65535) (hz : z ∈ contig 0 cs)
    (hmax : ∀ t ∈ contig 0 cs, t.2 ≤ z.2)
    (hfr : f.m_fragments = (contig 0 cs).filter (fun t => decide (t ∈ fed)))
    (hmk : f.m_moreFragment = !decide (z ∈ fed))
    (hy : y ∈ contig 0 cs) (hyf : y ∉ fed) : f.IsEntire = false := by
  by_cases hzf : z ∈ fed
  · have hgap := isEntireLoop_filter_gap (fun t => decide (t ∈ fed)) cs 0 hne (by omega)
      ⟨y, hy, by simp [hyf]⟩ ⟨z, hz, by simp [hzf], hmax⟩
    rw [← hfr] at hgap
    cases hr : (!f.m_moreFragment && decide (f.m_fragments.length > 0)) <;>
      simp only [Fragments.IsEntire, hr, hgap, if_true, if_false, Bool.false_eq_true]
  · simp [Fragments.IsEntire, hmk, hzf]

theorem IsEntire_complete (cs : List (List Nat)) (z : List Nat × Nat)
    (fed : List (List Nat × Nat)) (f : Fragments)
    (hlen : cs.flatten.length ≤ 65535) (hz : z ∈ contig 0 cs)
    (hfr : f.m_fragments = (contig 0 cs).filter (fun t => decide (t ∈ fed)))
    (hmk : f.m_moreFragment = !decide (z ∈ fed))
    (hall : ∀ t ∈ contig 0 cs, t ∈ fed) :
    f.IsEntire = true ∧ f.GetPacket = .ok cs.flatten := by
  have hfull : f.m_fragments = contig 0 cs := by
    rw [hfr, List.filter_eq_self]
    intro t ht
    simp [hall t ht]
  have hm : f.m_moreFragment = false := by rw [hmk]; simp [hall z hz]
  cases cs with
  | nil => simp [contig] at hz
  | cons c cs1 =>
    have hent := isEntireLoop_contig (c :: cs1) 0 0 (le_refl _) (by omega)
    have hfl : (c :: cs1).flatten.length = c.length + cs1.flatten.length := by simp
    have hget := getPacketLoop_contig cs1 c (by omega)
    constructor
    · rw [← hfull] at hent
      have hpos : f.m_fragments.length > 0 := by rw [hfull]; simp [contig]
      simp [Fragments.IsEntire, hm, hpos, hent]
    · simp only [Fragments.GetPacket, hfull, contig, Nat.zero_add, hget]
      simp
/-- The fragments of a contiguous chain of non-empty chunks, handed to `ProcessFragment` in
any order after the fragments `fed`: every call but the last buffers, the last delivers the
whole payload and erases the entry. -/
theorem processFragments_any_order (cs : List (List Nat)) (z : List Nat × Nat)
    (key : FragmentKey) (iif : Nat) (hne : ∀ c ∈ cs, c ≠ [])
    (hlen : cs.flatten.length ≤ 65535) (hz : z ∈ contig 0 cs)
    (hmax : ∀ t ∈ contig 0 cs, t.2 ≤ z.2) :
    ∀ (rest : List RadeepPayloadHeaderPair) (fed : List (List Nat × Nat))
      (s : ReassemblyState) (f0 : Fragments),
      rest ≠ [] →
      (∀ x ∈ rest, fragmentKey x.2 = key ∧
        (!x.2.IsLastFragment) = decide (offsetTag x ≠ z)) →
      (fed ++ rest.map offsetTag).Perm (contig 0 cs) →
      ((fed = [] ∧ mapFind key s.m_fragments = none ∧ f0 = Fragments.new) ∨
        (fed ≠ [] ∧ mapFind key s.m_fragments = some f0)) →
      f0.m_fragments = (contig 0 cs).filter (fun t => decide (t ∈ fed)) →
      (fed ≠ [] → f0.m_moreFragment = !decide (z ∈ fed)) →
      ∃ s1, processFragments iif s rest =
          .ok (s1, rest.dropLast.map (fun x => (x.1, false)) ++ [(cs.flatten, true)]) ∧
        mapFind key s1.m_fragments = none
  | [], _, _, _, h, _, _, _, _, _ => absurd rfl h
  | x :: rest, fed, s, f0, _, hx, hperm, hsrc, hfr, hmk => by
    have hT := contig_pairwise cs 0 hne
    have hnd : (contig 0 cs).Nodup := hT.imp (fun h e => by rw [e] at h; omega)
    obtain ⟨hkey, hmore⟩ := hx x (List.mem_cons_self _ _)
    rw [List.map_cons] at hperm
    have hnd2 : (fed ++ offsetTag x :: rest.map offsetTag).Nodup := hperm.nodup_iff.2 hnd
    have ht : offsetTag x ∈ contig 0 cs :=
      hperm.subset (List.mem_append_right _ (List.mem_cons_self _ _))
    have hnew : offsetTag x ∉ fed := fun hmem =>
      (List.nodup_append.1 hnd2).2.2 hmem (List.mem_cons_self _ _)
    have hperm2 : ((offsetTag x :: fed) ++ rest.map offsetTag).Perm (contig 0 cs) :=
      List.perm_middle.symm.trans hperm
    have hnd3 : ((offsetTag x :: fed) ++ rest.map offsetTag).Nodup := hperm2.nodup_iff.2 hnd
    obtain ⟨hfr1, hmk1⟩ := AddFragment_filter (contig 0 cs) z (offsetTag x) fed f0 hT hz hmax
      ht hnew hfr hmk
    rw [← hmore] at hfr1 hmk1
    have hsrc2 : (mapFind (fragmentKey x.2) s.m_fragments = none ∧ f0 = Fragments.new) ∨
        mapFind (fragmentKey x.2) s.m_fragments = some f0 := by
      rw [hkey]
      rcases hsrc with ⟨_, h1, h2⟩ | ⟨_, h1⟩
      · exact Or.inl ⟨h1, h2⟩
      · exact Or.inr h1
    obtain ⟨s1, s2, hs1, hs2, hrun⟩ := ProcessFragment_cases s x.1 x.2 iif f0 hsrc2
    rw [hkey] at hs1 hs2
    cases rest with
    | nil =>
      have hall : ∀ t ∈ contig 0 cs, t ∈ offsetTag x :: fed := by
        intro t htT
        have := hperm2.mem_iff.2 htT
        simpa using this
      obtain ⟨hent, hget⟩ := IsEntire_complete cs z (offsetTag x :: fed) _ hlen hz hfr1 hmk1
        hall
      have hent2 : (f0.AddFragment x.1 x.2.GetFragmentOffset (!x.2.IsLastFragment)).IsEntire
          = true := hent
      have hget2 : (f0.AddFragment x.1 x.2.GetFragmentOffset (!x.2.IsLastFragment)).GetPacket
          = .ok cs.flatten := hget
      rw [hent2, hget2] at hrun
      refine ⟨s2, ?_, hs2⟩
      simp only [processFragments, hrun, if_true]
      rfl
    | cons x2 rest2 =>
      have hy : offsetTag x2 ∈ contig 0 cs :=
        hperm2.subset (List.mem_append_right _ (by simp))
      have hyf : offsetTag x2 ∉ offsetTag x :: fed := fun hmem =>
        (List.nodup_append.1 hnd3).2.2 hmem (by simp)
      have hent := IsEntire_incomplete cs z (offsetTag x2) (offsetTag x :: fed) _ hne hlen hz
        hmax hfr1 hmk1 hy hyf
      have hent2 : (f0.AddFragment x.1 x.2.GetFragmentOffset (!x.2.IsLastFragment)).IsEntire
          = false := hent
      rw [hent2] at hrun
      obtain ⟨s3, hrec, hs3⟩ := processFragments_any_order cs z key iif hne hlen hz hmax
        (x2 :: rest2) (offsetTag x :: fed) s1 _ (by simp)
        (fun a ha => hx a (List.mem_cons_of_mem _ ha)) hperm2
        (Or.inr ⟨by simp, hs1⟩) hfr1 (fun _ => hmk1)
      refine ⟨s3, ?_, hs3⟩
      have hpf : processFragments iif s (x :: x2 :: rest2) =
          match processFragments iif s1 (x2 :: rest2) with
          | .error e => .error e
          | .ok (s2, outs) => .ok (s2, (x.1, false) :: outs) := by
        rw [processFragments, hrun]
        rfl
      rw [hpf, hrec]
      rfl
theorem fragmentAt_key (p : List Nat) (H : RadeepHeader) (ck : Bool) (fs o : Nat)
    (last : Bool) (off : Nat) :
    fragmentKey (fragmentAt p H ck fs o last off).2 = fragmentKey H := by
  by_cases h : p.length > off + fs <;> cases ck <;> cases last <;>
    simp [fragmentAt, h, fragmentKey, RadeepHeader.SetPayloadSize,
      RadeepHeader.EnableChecksum, RadeepHeader.SetMoreFragments,
      RadeepHeader.SetLastFragment, RadeepHeader.GetSource, RadeepHeader.GetDestination,
      RadeepHeader.GetIdentification, RadeepHeader.GetProtocol]

/-- C34: for every payload `P`, terminal 20-byte header with fragment offset 0 and MTU on
which fragmentation applies, and every permutation `order` of the fragments produced by
`DoFragmentation`, handing the fragments to `ProcessFragment` in that order, starting from
tables with no entry under the key of the header, returns false (and the fragment itself)
for every fragment but the last fed and true for the last, with the reassembled payload equal
to `P`; the entry is erased afterwards. -/
theorem ProcessFragment_any_order (ck : Bool) (P : List Nat) (H : RadeepHeader) (m iif : Nat)
    (s0 : ReassemblyState)
    (hL : P.length ≤ 65535) (hs : H.GetSerializedSize = 20)
    (ho0 : H.GetFragmentOffset = 0) (hterm : H.IsLastFragment = true)
    (hfs : 8 ≤ (m - 20) &&& 4294967288) (hbig : P.length + 20 > m)
    (hfree : mapFind (fragmentKey H) s0.m_fragments = none) :
    ∃ frags : List RadeepPayloadHeaderPair,
      (∀ fuel, P.length ≤ fuel → DoFragmentation fuel ck P H m = .ok frags) ∧
      ∀ order : List RadeepPayloadHeaderPair, order.Perm frags →
        ∃ s1, processFragments iif s0 order =
            .ok (s1, order.dropLast.map (fun x => (x.1, false)) ++ [(P, true)]) ∧
          mapFind (fragmentKey H) s1.m_fragments = none := by
  obtain ⟨n, hn, hup, hlow, hrun⟩ := DoFragmentation_expected ck P H m hL hs
    (by rw [ho0]) (by rw [ho0]; omega) hfs hbig
  generalize (m - 20) &&& 4294967288 = fs at *
  rw [ho0, hterm] at hrun
  have hn1 : (n + 1) * fs = n * fs + fs := by ring
  have hnL : n + 1 ≤ P.length := by
    have : n * 8 ≤ n * fs := Nat.mul_le_mul_left _ hfs
    omega
  generalize hfr : expectedFragments P H ck fs 0 true (n + 1) 0 = frags at hrun
  have hlenf : frags.length = n + 1 := by rw [← hfr, expectedFragments_length]
  have hflat : (frags.map Prod.fst).flatten = P := by
    have := expectedFragments_flatten P H ck fs 0 true n 0 (by omega) (by omega)
      (Or.inl (by omega))
    rw [hfr] at this
    simpa using this
  have hchain : frags.map offsetTag = contig 0 (frags.map Prod.fst) := by
    have := expectedFragments_chained P H ck fs true n 0 (by omega) (Or.inl (by omega))
    rw [hfr] at this
    exact this
  have hidx : ∀ x ∈ frags, ∃ k, k ≤ n ∧ x = fragmentAt P H ck fs 0 true (k * fs) := by
    intro x hx
    obtain ⟨k, hk⟩ := List.mem_iff_getElem?.1 hx
    have hklt : k < n + 1 := by
      rw [← hlenf]
      exact (List.getElem?_eq_some.1 hk).1
    rw [← hfr, expectedFragments_getElem _ _ _ _ _ _ _ _ k hklt, Nat.zero_add] at hk
    cases hk
    exact ⟨k, by omega, rfl⟩
  have hfin : fragmentAt P H ck fs 0 true (n * fs) ∈ frags := by
    apply List.mem_iff_getElem?.2
    refine ⟨n, ?_⟩
    rw [← hfr, expectedFragments_getElem _ _ _ _ _ _ _ _ n (by omega), Nat.zero_add]
  have hz : offsetTag (fragmentAt P H ck fs 0 true (n * fs)) ∈
      contig 0 (frags.map Prod.fst) := by
    rw [← hchain]
    exact List.mem_map_of_mem _ hfin
  have hmax : ∀ t ∈ contig 0 (frags.map Prod.fst),
      t.2 ≤ (offsetTag (fragmentAt P H ck fs 0 true (n * fs))).2 := by
    intro t ht
    rw [← hchain] at ht
    obtain ⟨x, hx, rfl⟩ := List.mem_map.1 ht
    obtain ⟨k, hk, rfl⟩ := hidx x hx
    have hkfs : k * fs ≤ n * fs := Nat.mul_le_mul_right fs hk
    show (fragmentAt P H ck fs 0 true (k * fs)).2.GetFragmentOffset ≤
      (fragmentAt P H ck fs 0 true (n * fs)).2.GetFragmentOffset
    rw [fragmentAt_offset, fragmentAt_offset]
    omega
  have hne : ∀ c ∈ frags.map Prod.fst, c ≠ [] := by
    intro c hc
    obtain ⟨x, hx, rfl⟩ := List.mem_map.1 hc
    obtain ⟨k, hk, rfl⟩ := hidx x hx
    have hkfs : k * fs ≤ n * fs := Nat.mul_le_mul_right fs hk
    apply List.ne_nil_of_length_pos
    rw [fragmentAt_fst, List.length_take, List.length_drop]
    split <;> omega
  have hprops : ∀ x ∈ frags, fragmentKey x.2 = fragmentKey H ∧
      (!x.2.IsLastFragment) =
        decide (offsetTag x ≠ offsetTag (fragmentAt P H ck fs 0 true (n * fs))) := by
    intro x hx
    obtain ⟨k, hk, rfl⟩ := hidx x hx
    refine ⟨fragmentAt_key _ _ _ _ _ _ _, ?_⟩
    rw [fragmentAt_isLast]
    have hkfs : k * fs ≤ n * fs := Nat.mul_le_mul_right fs hk
    by_cases hkn : k = n
    · subst hkn
      have : ¬ P.length > k * fs + fs := by omega
      rw [if_neg this]
      simp
    · have hk1 : (k + 1) * fs ≤ n * fs := Nat.mul_le_mul_right fs (by omega)
      have hk2 : (k + 1) * fs = k * fs + fs := by ring
      have : P.length > k * fs + fs := by omega
      rw [if_pos this]
      have hneq : offsetTag (fragmentAt P H ck fs 0 true (k * fs)) ≠
          offsetTag (fragmentAt P H ck fs 0 true (n * fs)) := by
        intro e
        have e2 := congrArg Prod.snd e
        have e3 : (fragmentAt P H ck fs 0 true (k * fs)).2.GetFragmentOffset =
            (fragmentAt P H ck fs 0 true (n * fs)).2.GetFragmentOffset := e2
        rw [fragmentAt_offset, fragmentAt_offset] at e3
        omega
      simp [hneq]
  refine ⟨frags, fun fuel hfuel => hrun fuel (by omega), ?_⟩
  intro order hperm
  have hone : order ≠ [] := by
    intro h0
    have := hperm.length_eq
    rw [h0, hlenf] at this
    simp at this
  have hpm : ([] ++ order.map offsetTag).Perm (contig 0 (frags.map Prod.fst)) := by
    rw [← hchain, List.nil_append]
    exact hperm.map offsetTag
  have hmain := processFragments_any_order (frags.map Prod.fst) _ (fragmentKey H) iif hne
    (by rw [hflat]; exact hL) hz hmax order [] s0 Fragments.new hone
    (fun x hx => hprops x (hperm.subset hx)) hpm (Or.inl ⟨rfl, hfree, rfl⟩)
    (by simp [Fragments.new]) (fun h => absurd rfl h)
  rw [hflat] at hmain
  exact hmain

theorem ProcessFragment_any_order_witness :
    ∃ frags : List RadeepPayloadHeaderPair,
      DoFragmentation 100 false (List.range 100) exampleHeader 68 = .ok frags ∧
      ∃ s1, processFragments 0 ReassemblyState.empty frags.reverse =
          .ok (s1, frags.reverse.dropLast.map (fun x => (x.1, false)) ++
            [(List.range 100, true)]) ∧
        mapFind (fragmentKey exampleHeader) s1.m_fragments = none := by
  obtain ⟨frags, h1, h2⟩ := ProcessFragment_any_order false (List.range 100) exampleHeader 68 0
    ReassemblyState.empty (by decide) (by decide) (by decide) (by decide) (by decide)
    (by decide) rfl
  exact ⟨frags, h1 100 (by decide), h2 frags.reverse (List.reverse_perm frags)⟩
end Radeep
